import Mathlib

/-!
# mini-router: dispatch-and-relay core

A shallow embedding of the chat-completion gateway (`api/chat.go`,
`provider/openai-compatibility.go`) together with theorems about candidate
selection, round-robin rotation, ordered failover, the vendor "thinking"
translation, and the upstream client.

Conventions of the embedding

* JSON documents handled through `gjson`/`sjson` are document trees (`JVal`);
  an object is the ordered list of its members.  `gjsonGet`, `sjsonSet` and
  `sjsonDelete` follow the behaviour of the library calls on the constant,
  dot-separated paths that occur in the source (plain member names and decimal
  array indices), a path being given as the list of its components.
* Go `int` cursors are natural numbers: the only values ever stored are the map
  default `0` and `(startIndex + 1) % len`, so no negative value and no overflow
  can occur.
* Network exchanges are inputs of the model: the result of one candidate attempt
  (`Attempt`) or of one HTTP exchange (`HttpResult`).
* Byte strings that are inspected byte-wise (the upstream event stream) are
  lists of characters of a valid UTF-8 text.
-/

set_option autoImplicit false

namespace MiniRouter

/-! ## JSON documents -/

/-- A JSON document.  Numbers are integers (no claim below depends on a fraction). -/
inductive JVal where
  | null
  | bool (b : Bool)
  | num (n : Int)
  | str (s : String)
  | arr (xs : List JVal)
  | obj (kvs : List (String × JVal))
  deriving Repr, Inhabited

/-- The `gjson.Type` of a result. -/
inductive GType where
  | Null | False | Number | String | True | JSON
  deriving Repr, DecidableEq

/-- Type of an existing value, as `gjson` reports it. -/
def JVal.gtype : JVal → GType
  | .null => GType.Null
  | .bool true => GType.True
  | .bool false => GType.False
  | .num _ => GType.Number
  | .str _ => GType.String
  | .arr _ => GType.JSON
  | .obj _ => GType.JSON

/-- `Result.Type` of a lookup: a missing value has the zero type `Null`, the same
type a JSON `null` has. -/
def resultType : Option JVal → GType
  | none => GType.Null
  | some v => v.gtype

/-- `Result.Exists()`. -/
def resultExists (r : Option JVal) : Bool := r.isSome

/-- First member of an object with the given name (`gjson` returns the first match). -/
def lookupKey (k : String) : List (String × JVal) → Option JVal
  | [] => none
  | (k', v) :: rest => if k' = k then some v else lookupKey k rest

/-- Replace the value of the first member named `k`. -/
def replaceKey (k : String) (v : JVal) : List (String × JVal) → List (String × JVal)
  | [] => []
  | (k', v') :: rest => if k' = k then (k', v) :: rest else (k', v') :: replaceKey k v rest

/-- Remove the first member named `k`. -/
def eraseKey (k : String) : List (String × JVal) → List (String × JVal)
  | [] => []
  | (k', v') :: rest => if k' = k then rest else (k', v') :: eraseKey k rest

/-- The loop of `atoui` in `sjson`: decimal digits only. -/
def digitsToNat : List Char → Nat → Option Nat
  | [], n => some n
  | c :: cs, n =>
    if '0' ≤ c ∧ c ≤ '9' then digitsToNat cs (n * 10 + (c.toNat - '0'.toNat)) else none

/-- Decimal array index of a path component (`atoui` in `sjson`). -/
def pathIndex (k : String) : Option Nat := digitsToNat k.data 0

/-- One step of a path: a member of an object or an element of an array. -/
def child (v : JVal) (k : String) : Option JVal :=
  match v with
  | .obj kvs => lookupKey k kvs
  | .arr xs =>
    match pathIndex k with
    | some n => xs[n]?
    | none => none
  | _ => none

/-- `gjson.GetBytes(json, path)`; `none` when nothing is found. -/
def gjsonGet : JVal → List String → Option JVal
  | v, [] => some v
  | v, k :: ks =>
    match child v k with
    | some c => gjsonGet c ks
    | none => none

/-- `Result.String()` restricted to what the handler reads: the text of a string. -/
def resultString : Option JVal → String
  | some (.str s) => s
  | _ => ""

/-- `Result.Bool()`. -/
def resultBool : Option JVal → Bool
  | some (.bool b) => b
  | some (.str s) =>
    decide (s.data.map Char.toLower ∈ ["1".data, "t".data, "true".data])
  | some (.num n) => decide (n ≠ 0)
  | _ => false

/-- The value `sjson` writes for a path that does not exist yet (`appendBuild`):
nested objects, or arrays padded with `null` before a decimal index. -/
def jbuild : List String → JVal → JVal
  | [], x => x
  | k :: ks, x =>
    match pathIndex k with
    | some n => .arr (List.replicate n .null ++ [jbuild ks x])
    | none => .obj [(k, jbuild ks x)]

/-- `sjson.SetBytes(json, path, value)`.  An existing value is replaced in place, a
missing member is appended, a scalar on the way is replaced by a fresh container;
the one failure is a member name applied to an array
("cannot set array element for non-numeric key"). -/
def sjsonSet : JVal → List String → JVal → Except String JVal
  | _, [], x => .ok x
  | v, k :: ks, x =>
    match v with
    | .obj kvs =>
      match lookupKey k kvs with
      | some c =>
        match sjsonSet c ks x with
        | .ok c' => .ok (.obj (replaceKey k c' kvs))
        | .error e => .error e
      | none => .ok (.obj (kvs ++ [(k, jbuild ks x)]))
    | .arr xs =>
      match pathIndex k with
      | some n =>
        match xs[n]? with
        | some c =>
          match sjsonSet c ks x with
          | .ok c' => .ok (.arr (xs.set n c'))
          | .error e => .error e
        | none => .ok (.arr (xs ++ List.replicate (n - xs.length) .null ++ [jbuild ks x]))
      | none => .error ("cannot set array element for non-numeric key '" ++ k ++ "'")
    | _ => .ok (jbuild (k :: ks) x)

/-- The Go idiom `json, _ = sjson.SetBytes(json, path, value)`: on failure the
library hands back the document unchanged. -/
def sjsonSetIgnoreErr (v : JVal) (path : List String) (x : JVal) : JVal :=
  match sjsonSet v path x with
  | .ok v' => v'
  | .error _ => v

/-- `sjson.DeleteBytes(json, path)`: removes the value when it exists and leaves
the document unchanged otherwise (never fails on a plain path). -/
def sjsonDelete : JVal → List String → JVal
  | v, [] => v
  | v, [k] =>
    match v with
    | .obj kvs => .obj (eraseKey k kvs)
    | .arr xs =>
      match pathIndex k with
      | some n => .arr (xs.eraseIdx n)
      | none => v
    | _ => v
  | v, k :: k2 :: ks =>
    match v with
    | .obj kvs =>
      match lookupKey k kvs with
      | some c => .obj (replaceKey k (sjsonDelete c (k2 :: ks)) kvs)
      | none => v
    | .arr xs =>
      match pathIndex k with
      | some n =>
        match xs[n]? with
        | some c => .arr (xs.set n (sjsonDelete c (k2 :: ks)))
        | none => v
      | none => v
    | _ => v

/-- Member names of an object (empty for any other value). -/
def JVal.keys : JVal → List String
  | .obj kvs => kvs.map Prod.fst
  | _ => []

/-- An object whose member names are pairwise distinct. -/
def JVal.DistinctKeys (v : JVal) : Prop := v.keys.Nodup

/-! ## Paths made of member names -/

/-- A path none of whose components is a decimal index. -/
def plainPath (p : List String) : Bool := p.all (fun k => (pathIndex k).isNone)

/-- Walking down the path, an array is met before the last component has been
used: the situation in which `sjson.SetBytes` fails on a path of member names. -/
def arrayOnPath : JVal → List String → Bool
  | _, [] => false
  | .arr _, _ :: _ => true
  | v, k :: ks =>
    match child v k with
    | some c => arrayOnPath c ks
    | none => false

/-! ## Configuration -/

/-- The fields of `models.Model` that the dispatch core reads. -/
structure Model where
  ID : Nat
  Name : String
  ProviderModelName : String
  SupportGoogleThinking : Bool
  BaseURL : String
  BaseURLDirect : Bool
  IsOpenAICompatibility : Bool
  StreamOnly : Bool
  ProviderAPIKey : List String
  Enabled : Bool
  Visible : Bool
  deriving Repr, DecidableEq, Inhabited

/-- `config.Config`, reduced to the model table. -/
structure Config where
  Models : List Model
  deriving Repr

/-! ## Candidate selection (`ChatCompletionHandler`, lines 113-159) -/

/-- Body of both filter loops: `if m.Name == modelName && m.Enabled { append }`. -/
def appendIfCandidate (modelName : String) (providerModels : List Model) (m : Model) :
    List Model :=
  if m.Name = modelName ∧ m.Enabled = true then providerModels ++ [m] else providerModels

/-- The filter of lines 113-129.  The two branches on `len(customProviderNames)`
run the same loop. -/
def filterModels (allModels : List Model) (modelName : String)
    (customProviderNames : List String) : List Model :=
  if customProviderNames.length > 0 then
    allModels.foldl (appendIfCandidate modelName) []
  else
    allModels.foldl (appendIfCandidate modelName) []

/-- The call `sort.Strings`: increasing byte-wise order, which on UTF-8 text is the
lexicographic order of the characters. -/
def sortStrings (l : List String) : List String :=
  l.insertionSort (fun a b => a.data ≤ b.data)

/-- Lines 136-141: the load-balance key. -/
def loadBalanceKey (modelName : String) (customProviderNames : List String) : String :=
  if customProviderNames.length > 0 then
    modelName ++ "-" ++ String.intercalate "-" (sortStrings customProviderNames)
  else
    modelName

/-- The map `lastUsedModelIndex`; an absent key reads as `0`. -/
abbrev CursorMap := String → Nat

/-- Map assignment `lastUsedModelIndex[key] = value`. -/
def CursorMap.store (m : CursorMap) (key : String) (value : Nat) : CursorMap :=
  fun k => if k = key then value else m k

/-- Lines 156-159: `reorderedModels[i] = providerModels[(startIndex+i) % len]`. -/
def reorderModels (providerModels : List Model) (startIndex : Nat) : List Model :=
  (List.range providerModels.length).filterMap
    (fun i => providerModels[(startIndex + i) % providerModels.length]?)

/-! ## Dispatch (`ChatCompletionHandler`, lines 161-299) -/

/-- What the handler does to the response: a raw write of bytes to the client
connection, or `c.JSON(status, body)`. -/
inductive ResponseAction where
  | write (bytes : List Char)
  | json (status : Nat) (body : JVal)
  deriving Repr

/-- The status line the caller receives, as far as the actions determine it: the
status line goes out with the first bytes of the response, so a write of at least
one byte fixes it at the default 200 and `c.JSON` as first action fixes it at its
own status; `none` when nothing was sent or when the first action is a write of
no bytes (which may or may not have flushed the header). -/
def clientStatus : List ResponseAction → Option Nat
  | [] => none
  | .write bytes :: _ => if bytes.length = 0 then none else some 200
  | .json status _ :: _ => some status

/-- Result of `providerRegistry[ProviderOpenAICompatibility]` followed by
`factory(cfg)`: no factory registered, a factory that fails, or a provider
instance. -/
inductive FactoryLookup where
  | missing
  | failing (errFactory : String)
  | working
  deriving Repr, DecidableEq

/-- Outcome of `handleStreamingChatCompletion` / `handleNonStreamingChatCompletion`
for one candidate: the bytes it wrote to the client and the error it returned
(`none` for `nil`). -/
structure AttemptResult where
  written : List Char
  err : Option String
  deriving Repr

/-- The environment of one request: for the candidate at a position of the
rotated list, the stream flag and the envelope sent, what the attempt does. -/
abbrev Attempt := Nat → Bool → Model → JVal → AttemptResult

/-- One call of `handleStreamingChatCompletion` or
`handleNonStreamingChatCompletion` made by the loop. -/
structure AttemptRecord where
  position : Nat
  model : Model
  stream : Bool
  request : JVal
  err : Option String
  deriving Repr

/-- Path `extra_body.google.thinking_config.thinking_budget`. -/
def thinkingBudgetPath : List String :=
  ["extra_body", "google", "thinking_config", "thinking_budget"]

/-- Path `extra_body.google.thinking_config.include_thoughts`. -/
def includeThoughtsPath : List String :=
  ["extra_body", "google", "thinking_config", "include_thoughts"]

/-- One branch of lines 188-267: delete the hint, set the budget, set the
include-thoughts flag; an `sjson` error ends the request (status 500). -/
def setThinkingConfig (rawJson : JVal) (budget : Int) (includeThoughts : Bool) :
    Except String JVal :=
  match sjsonSet (sjsonDelete rawJson ["reasoning_effort"]) thinkingBudgetPath (.num budget) with
  | .error e => .error e
  | .ok rawJson1 => sjsonSet rawJson1 includeThoughtsPath (.bool includeThoughts)

/-- Lines 186-275: the translation of `reasoning_effort`, run for a candidate
with `SupportGoogleThinking`. -/
def translateReasoningEffort (rawJson : JVal) : Except String JVal :=
  let reasoningEffortResult := gjsonGet rawJson ["reasoning_effort"]
  if resultType reasoningEffortResult = GType.String then
    if resultString reasoningEffortResult = "none" then
      setThinkingConfig rawJson 0 false
    else if resultString reasoningEffortResult = "auto" then
      setThinkingConfig rawJson (-1) true
    else if resultString reasoningEffortResult = "low" then
      setThinkingConfig rawJson 1024 true
    else if resultString reasoningEffortResult = "medium" then
      setThinkingConfig rawJson 8192 true
    else if resultString reasoningEffortResult = "high" then
      setThinkingConfig rawJson 24576 true
    else
      .ok (sjsonDelete rawJson ["reasoning_effort"])
  else
    .ok rawJson

/-- Lines 184-276: the envelope after the candidate-specific edit. -/
def applyThinking (model : Model) (rawJson : JVal) : Except String JVal :=
  if model.SupportGoogleThinking then translateReasoningEffort rawJson else .ok rawJson

/-- Lines 278-286: the stream flag and the envelope handed to the attempt. -/
def prepareRequest (model : Model) (rawJson : JVal) : Bool × JVal :=
  let isStream := resultBool (gjsonGet rawJson ["stream"])
  let rawJson1 := sjsonSetIgnoreErr rawJson ["model"] (.str model.ProviderModelName)
  if isStream then (true, rawJson1) else (false, sjsonDelete rawJson1 ["stream_options"])

/-- Body of `gin.H{"error": ..., "code": ...}` with a plain message. -/
def errorBody (message : String) (code : Nat) : JVal :=
  .obj [("code", .num code), ("error", .str message)]

/-- Body of `gin.H{"error": gin.H{"message": ..., "code": ...}}`. -/
def nestedErrorBody (message : String) (code : Nat) : JVal :=
  .obj [("error", .obj [("code", .num code), ("message", .str message)])]

/-- What the loop has done so far. -/
structure DispatchResult where
  attempts : List AttemptRecord
  actions : List ResponseAction
  deriving Repr

/-- The loop of lines 161-299 over the rotated candidates, from position `i` on,
with the current envelope `rawJson` and the current `finalErr`. -/
def dispatchLoop (factory : FactoryLookup) (attempt : Attempt) :
    List Model → Nat → JVal → Option String → DispatchResult → DispatchResult
  | [], _, _, finalErr, done =>
    match finalErr with
    | some e =>
      { done with actions := done.actions ++
          [.json 503 (nestedErrorBody ("All providers failed: " ++ e) 503)] }
    | none => done
  | model :: rest, i, rawJson, _, done =>
    match factory with
    | .missing =>
      dispatchLoop factory attempt rest (i + 1) rawJson (some "provider factory not found") done
    | .failing errFactory =>
      dispatchLoop factory attempt rest (i + 1) rawJson
        (some ("failed to create provider: " ++ errFactory)) done
    | .working =>
      match applyThinking model rawJson with
      | .error _ =>
        { done with actions := done.actions ++ [.json 500 (errorBody "request body error" 500)] }
      | .ok rawJson1 =>
        let req := prepareRequest model rawJson1
        let r := attempt i req.1 model req.2
        let done1 : DispatchResult :=
          { attempts := done.attempts ++ [⟨i, model, req.1, req.2, r.err⟩],
            actions := done.actions ++ [.write r.written] }
        match r.err with
        | none => done1
        | some e => dispatchLoop factory attempt rest (i + 1) req.2 (some e) done1

/-- Outcome of one request: the cursor map afterwards, the `startIndex` read from
it and the rotated candidate list the loop ran over (`none` and empty when the
loop was not reached), the attempts made and the response actions. -/
structure HandlerResult where
  cursors : CursorMap
  startIndex : Option Nat
  order : List Model
  attempts : List AttemptRecord
  actions : List ResponseAction

/-- The handler `ChatCompletionHandler` from line 106 on: `rawJson` is the validated
envelope (provider field already removed) and `customProviderNames` the provider
filter collected in lines 67-86. -/
def ChatCompletionHandler (cfg : Config) (factory : FactoryLookup) (attempt : Attempt)
    (cursors : CursorMap) (rawJson : JVal) (customProviderNames : List String) :
    HandlerResult :=
  let modelNameResult := gjsonGet rawJson ["model"]
  if resultType modelNameResult ≠ GType.String then
    { cursors := cursors, startIndex := none, order := [], attempts := [],
      actions := [.json 400
        (errorBody "Invalid request: model field is missing or not a string" 400)] }
  else
    let modelName := resultString modelNameResult
    let providerModels := filterModels cfg.Models modelName customProviderNames
    if providerModels.length = 0 then
      { cursors := cursors, startIndex := none, order := [], attempts := [],
        actions := [.json 404
          (nestedErrorBody ("Model " ++ modelName ++ " not found or not available.") 404)] }
    else
      let key := loadBalanceKey modelName customProviderNames
      let startIndex := cursors key
      let cursors1 := cursors.store key ((startIndex + 1) % providerModels.length)
      let reorderedModels := reorderModels providerModels startIndex
      let r := dispatchLoop factory attempt reorderedModels 0 rawJson none ⟨[], []⟩
      { cursors := cursors1, startIndex := some startIndex, order := reorderedModels,
        attempts := r.attempts, actions := r.actions }

/-- One inbound request together with the behaviour of the backends while it is
served. -/
structure ChatRequest where
  rawJson : JVal
  customProviderNames : List String
  attempt : Attempt

/-- Requests served one after the other on the shared cursor map; the results are
listed in order of arrival. -/
def serveAll (cfg : Config) (factory : FactoryLookup) :
    CursorMap → List ChatRequest → List HandlerResult
  | _, [] => []
  | cursors, rq :: rest =>
    let r := ChatCompletionHandler cfg factory rq.attempt cursors rq.rawJson
      rq.customProviderNames
    r :: serveAll cfg factory r.cursors rest

/-! ## Upstream client, non-streaming (`OpenAICompatibility.CreateChatCompletion`) -/

/-- `provider.UsagePromptTokensDetails`. -/
structure UsagePromptTokensDetails where
  CachedTokens : Int
  AudioTokens : Int
  deriving Repr, DecidableEq

/-- `provider.UsageCompletionTokensDetails`. -/
structure UsageCompletionTokensDetails where
  AudioTokens : Int
  ReasoningTokens : Int
  deriving Repr, DecidableEq

/-- `provider.Usage`. -/
structure Usage where
  PromptTokens : Int
  CompletionTokens : Int
  TotalTokens : Int
  PromptTokensDetails : UsagePromptTokensDetails
  CompletionTokensDetails : UsageCompletionTokensDetails
  deriving Repr, DecidableEq

/-- `bytes.HasPrefix`. -/
def hasPrefix : List Char → List Char → Bool
  | _, [] => true
  | [], _ :: _ => false
  | c :: cs, p :: ps => c == p && hasPrefix cs ps

/-- `bytes.Contains`. -/
def containsBytes (pat : List Char) : List Char → Bool
  | [] => hasPrefix [] pat
  | c :: cs => hasPrefix (c :: cs) pat || containsBytes pat cs

mutual
/-- Whether the text of a document contains `pat` inside a member name or a string
(what `bytes.Contains(data, tag)` finds for a tag made of letters and underscores,
on a document written without escape sequences). -/
def JVal.mentions (pat : List Char) : JVal → Bool
  | .str s => containsBytes pat s.data
  | .arr xs => mentionsList pat xs
  | .obj kvs => mentionsFields pat kvs
  | _ => false
/-- `JVal.mentions` over the elements of an array. -/
def mentionsList (pat : List Char) : List JVal → Bool
  | [] => false
  | v :: vs => v.mentions pat || mentionsList pat vs
/-- `JVal.mentions` over the members of an object. -/
def mentionsFields (pat : List Char) : List (String × JVal) → Bool
  | [] => false
  | (k, v) :: rest => containsBytes pat k.data || v.mentions pat || mentionsFields pat rest
end

/-- `_const.TagPromptTokens`. -/
def TagPromptTokens : List Char := "prompt_tokens".data

/-- One `if result.Type == gjson.Number { field = int(result.Int()) }`. -/
def numberOr (data : JVal) (path : List String) (old : Int) : Int :=
  match gjsonGet data path with
  | some (.num n) => n
  | _ => old

/-- Lines 152-195: the usage fields read from the body. -/
def extractUsage (data : JVal) (usage : Usage) : Usage :=
  if data.mentions TagPromptTokens then
    { PromptTokens := numberOr data ["usage", "prompt_tokens"] usage.PromptTokens,
      CompletionTokens := numberOr data ["usage", "completion_tokens"] usage.CompletionTokens,
      TotalTokens := numberOr data ["usage", "total_tokens"] usage.TotalTokens,
      PromptTokensDetails :=
        { CachedTokens := numberOr data ["usage", "prompt_tokens_details", "cached_tokens"]
            usage.PromptTokensDetails.CachedTokens,
          AudioTokens := numberOr data ["usage", "prompt_tokens_details", "audio_tokens"]
            usage.PromptTokensDetails.AudioTokens },
      CompletionTokensDetails :=
        { AudioTokens := numberOr data ["usage", "completion_tokens_details", "audio_tokens"]
            usage.CompletionTokensDetails.AudioTokens,
          ReasoningTokens :=
            numberOr data ["usage", "completion_tokens_details", "reasoning_tokens"]
              usage.CompletionTokensDetails.ReasoningTokens } }
  else usage

/-- Outcome of the HTTP exchange of one call: the request cannot be built, the
round trip fails, reading the body fails, or a response arrives with its status
code, status line, the bytes of its body and the document `gjson` reads in them. -/
inductive HttpResult where
  | requestError (err : String)
  | doError (err : String)
  | readError (err : String)
  | response (StatusCode : Nat) (Status : String) (body : String) (data : JVal)
  deriving Repr

/-- The three results `([]byte, error, []byte)` of `CreateChatCompletion`, and the
usage record it fills in. -/
structure CompletionResult where
  data : Option JVal
  err : Option String
  errBody : Option String
  usage : Usage
  deriving Repr

/-- The method `CreateChatCompletion`.  For a stream-only candidate the result is
that of `CreateChatCompletionUseStream`, given here as `viaStream`.  The choice of
the API key (`getAPIKey`) only shapes the request that is sent; the exchange with
the backend is the input `http`. -/
def CreateChatCompletion (model : Model) (usage : Usage) (http : HttpResult)
    (viaStream : CompletionResult) : CompletionResult :=
  if model.StreamOnly then viaStream
  else
    match http with
    | .requestError err => ⟨none, some err, none, usage⟩
    | .doError err => ⟨none, some err, none, usage⟩
    | .readError err => ⟨none, some err, none, usage⟩
    | .response StatusCode Status body data =>
      if StatusCode ≠ 200 then
        ⟨none, some ("unexpected status code: " ++ Status), some body, usage⟩
      else
        let responseIdResult := gjsonGet data ["id"]
        let responseObjectResult := gjsonGet data ["object"]
        if resultType responseIdResult = GType.Null ∧
            resultType responseObjectResult = GType.Null then
          ⟨none, some ("unexpected response: " ++ body), some body, usage⟩
        else
          let data1 := sjsonSetIgnoreErr (sjsonDelete data ["provider"]) ["model"]
            (.str model.Name)
          ⟨some data1, none, none, extractUsage data1 usage⟩

/-! ## Upstream client, streaming (`OpenAICompatibility.CreateChatCompletionStream`) -/

/-- `unicode.IsSpace`. -/
def isSpace (c : Char) : Bool :=
  c = '\t' || c = '\n' || c.toNat = 0x0B || c.toNat = 0x0C || c = '\r' || c = ' ' ||
  c.toNat = 0x85 || c.toNat = 0xA0 || c.toNat = 0x1680 ||
  (0x2000 ≤ c.toNat && c.toNat ≤ 0x200A) || c.toNat = 0x2028 || c.toNat = 0x2029 ||
  c.toNat = 0x202F || c.toNat = 0x205F || c.toNat = 0x3000

/-- `bytes.TrimSpace`. -/
def trimSpace (b : List Char) : List Char :=
  ((b.dropWhile isSpace).reverse.dropWhile isSpace).reverse

/-- `_const.TagData`. -/
def TagData : List Char := "data: ".data

/-- `_const.TagDataDone`. -/
def TagDataDone : List Char := "[DONE]".data

/-- The frame rewrite of lines 304-307 on the bytes of one payload,
`sjson.SetBytes(sjson.DeleteBytes(data, "provider"), "model", name)` with both
errors ignored; the byte-level library calls are a parameter of the loop. -/
abbrev FrameRewrite := String → List Char → List Char

/-- How the upstream body ends: end of input, or a read error. -/
inductive StreamEnd where
  | eof
  | readError
  deriving Repr, DecidableEq

/-- What the loop does with one complete line: the bytes it writes to the pipe, and
whether it goes on reading (`false` after the `[DONE]` frame). -/
def processLine (rewrite : FrameRewrite) (model : Model) (rawLine : List Char) :
    List Char × Bool :=
  let line := trimSpace rawLine
  if line.length = 0 then ([], true)
  else if hasPrefix line TagData then
    let data := line.drop TagData.length
    if data = TagDataDone then ("data: [DONE]\n\n".data, false)
    else ("data: ".data ++ rewrite model.Name data ++ "\n\n".data, true)
  else ([], true)

/-- The goroutine of lines 256-362: everything written to the pipe while reading
the upstream body `input`; `line` is the part of the current line read so far. -/
def streamLoop (rewrite : FrameRewrite) (model : Model) (ending : StreamEnd) :
    List Char → List Char → List Char
  | [], line =>
    match ending with
    | .eof => if line.length > 0 then trimSpace line else []
    | .readError => []
  | c :: rest, line =>
    if c = '\n' then
      let r := processLine rewrite model (line ++ [c])
      if r.2 then r.1 ++ streamLoop rewrite model ending rest []
      else r.1
    else streamLoop rewrite model ending rest (line ++ [c])

/-- The bytes a reader of the stream returned by `CreateChatCompletionStream`
receives, for an upstream answer with status 200 and body `input` (the usage
record the goroutine also fills in is not part of the stream). -/
def CreateChatCompletionStream (rewrite : FrameRewrite) (model : Model) (ending : StreamEnd)
    (input : List Char) : List Char :=
  streamLoop rewrite model ending input []

/-! ### The stream as the specification describes it -/

/-- Lines of a text: the pieces between line feeds, the last one possibly without
a line feed after it. -/
def specLines : List Char → List Char → List (List Char)
  | [], line => [line]
  | c :: rest, line => if c = '\n' then line :: specLines rest [] else specLines rest (line ++ [c])

/-- The payloads of the `data: ` frames of a text, one per line that starts with
`data: ` once surrounding white space is removed. -/
def specFrames (input : List Char) : List (List Char) :=
  ((specLines input []).map trimSpace).filterMap
    (fun line => if hasPrefix line TagData then some (line.drop TagData.length) else none)

/-- Output described by the specification for a list of frame payloads: every
payload before the first `[DONE]` rewritten and framed, then the `[DONE]` frame if
there is one, and nothing after it. -/
def specEmit (rewrite : FrameRewrite) (model : Model) : List (List Char) → List Char
  | [] => []
  | data :: rest =>
    if data = TagDataDone then "data: [DONE]\n\n".data
    else "data: ".data ++ rewrite model.Name data ++ "\n\n".data ++ specEmit rewrite model rest

/-- The stream described by the specification for an upstream body. -/
def specStream (rewrite : FrameRewrite) (model : Model) (input : List Char) : List Char :=
  specEmit rewrite model (specFrames input)

/-! ## API key rotation (`OpenAICompatibility.getAPIKey`, lines 45-65) -/

/-- The process-wide `apiKeyCounters`, keyed by `model.ID`.  An identifier that was
never stored reads as 0, the value `LoadOrStore(model.ID, int64(0))` yields for it.
The counter is an `int64` that starts at 0 and grows by one per call; it stays far
below `2^63` in any run and `int` has 64 bits, so it is a natural number here. -/
abbrev KeyCounters := Nat → Nat

/-- `apiKeyCounters.Store(id, value)`. -/
def KeyCounters.store (counters : KeyCounters) (id : Nat) (value : Nat) : KeyCounters :=
  fun k => if k = id then value else counters k

/-- The method `getAPIKey`: the key it returns and the counters afterwards. -/
def getAPIKey (counters : KeyCounters) (model : Model) : String × KeyCounters :=
  if model.ProviderAPIKey.length = 0 then ("", counters)
  else
    let counter := counters model.ID
    let index := counter % model.ProviderAPIKey.length
    let apiKey := model.ProviderAPIKey.getD index ""
    (apiKey, counters.store model.ID (counter + 1))

/-- The keys returned by `n` calls of `getAPIKey` for the same model, made one
after the other, and the counters after the last call. -/
def getAPIKeys (model : Model) : Nat → KeyCounters → List String × KeyCounters
  | 0, counters => ([], counters)
  | n + 1, counters =>
    let r := getAPIKey counters model
    let rest := getAPIKeys model n r.2
    (r.1 :: rest.1, rest.2)

/-! ## Relay of a streaming attempt (`handleStreamingChatCompletion`, lines 303-446)

The bytes `sjson` writes for a document are given by a parameter `render`; `gjson`
reads the same document back from them. -/

/-- The text of a document. -/
abbrev Render := JVal → List Char

/-- Outcome of the HTTP exchange of one streaming call: the request cannot be
built, the round trip fails, or a response arrives with its status code, status
line and, for a status other than 200, the bytes `io.ReadAll` finds in its body. -/
inductive StreamHttpResult where
  | requestError (err : String)
  | doError (err : String)
  | response (StatusCode : Nat) (Status : String) (body : List Char)
  deriving Repr

/-- One value received on `resultChan`: the bytes returned by one `stream.Read`,
and the document `gjson` reads in `bytes.TrimSpace(response[5:])`. -/
structure Chunk where
  bytes : List Char
  payload : JVal
  deriving Repr

/-- What the `select` of the relay sees next: bytes read from the stream, or the
500 ms timer. -/
inductive RelayEvent where
  | data (chunk : Chunk)
  | timeout
  deriving Repr

/-- How reading the stream ends: `io.EOF`, or another error. -/
inductive RelayEnd where
  | eof
  | readError (err : String)
  deriving Repr

/-- The three results `(stream, err, errBody)` of `CreateChatCompletionStream`:
`(nil, err, nil)`, `(nil, err, body)`, or a stream, given by what the relay will
receive from it. -/
inductive StreamCall where
  | failed (err : String)
  | rejected (err : String) (errBody : List Char)
  | opened (events : List RelayEvent) (ending : RelayEnd)
  deriving Repr

/-- Lines 213-248 of `CreateChatCompletionStream`: what the call returns, before
any byte of the stream is read. -/
def CreateChatCompletionStream.returns (request : JVal) (http : StreamHttpResult)
    (events : List RelayEvent) (ending : RelayEnd) : StreamCall :=
  match sjsonSet request ["stream_options", "include_usage"] (.bool true) with
  | .error err => .failed err
  | .ok _ =>
    match http with
    | .requestError err => .failed err
    | .doError err => .failed err
    | .response StatusCode Status body =>
      if StatusCode ≠ 200 then .rejected ("unexpected status code: " ++ Status) body
      else .opened events ending

/-- What a handler function did: the bytes it wrote to the client, the error it
returned, and whether it panicked instead of returning (a slice or an assertion
out of range; `err` then has no meaning). -/
structure HandleResult where
  written : List Char
  err : Option String
  panicked : Bool
  deriving Repr

/-- The same result after `bytes` were written first. -/
def HandleResult.after (bytes : List Char) (r : HandleResult) : HandleResult :=
  { r with written := bytes ++ r.written }

/-- `_const.TagNoData`, the byte 58. -/
def TagNoData : List Char := [':']

/-- The `processingTag` of the relay. -/
def processingTag : List Char := ": ROUTER-FOR-ME PROCESSING\n\n".data

/-- Path `choices.0.delta`. -/
def deltaPath : List String := ["choices", "0", "delta"]

/-- Path `choices.0.delta.extra_content.google.thought`. -/
def deltaThoughtPath : List String := deltaPath ++ ["extra_content", "google", "thought"]

/-- Path `choices.0.delta.content`. -/
def deltaContentPath : List String := deltaPath ++ ["content"]

/-- Path `choices.0.delta.reasoning_content`. -/
def deltaReasoningPath : List String := deltaPath ++ ["reasoning_content"]

/-- Path `choices.0.delta.extra_content`. -/
def deltaExtraPath : List String := deltaPath ++ ["extra_content"]

/-- `if strings.HasPrefix(s, tag) { s = s[len(tag):] }`. -/
def stripTag (tag : String) (s : String) : String :=
  if hasPrefix s.data tag.data then String.mk (s.data.drop tag.length) else s

/-- The document the thinking branch of the relay leaves in `response` (lines
395-419), `none` when it leaves the bytes as they are, and the value of
`startGoogleThinking` afterwards.  `Result.String()` is only tested for the tag
here, which no number, boolean or container starts with. -/
def relayThinking (startGoogleThinking : Bool) (response : JVal) : Option JVal × Bool :=
  let thoughtResult := gjsonGet response deltaThoughtPath
  if resultType thoughtResult = GType.True then
    let contentResult := gjsonGet response deltaContentPath
    if resultType contentResult = GType.String then
      let reasoningContent := stripTag "<thought>" (resultString contentResult)
      let response1 := sjsonSetIgnoreErr response deltaReasoningPath (.str reasoningContent)
      let response2 := sjsonDelete response1 deltaContentPath
      (some (sjsonDelete response2 deltaExtraPath), true)
    else (none, true)
  else if startGoogleThinking then
    let content := resultString (gjsonGet response deltaContentPath)
    if hasPrefix content.data "</thought>".data then
      (some (sjsonSetIgnoreErr response deltaContentPath
        (.str (String.mk (content.data.drop 10)))), false)
    else (none, true)
  else (none, false)

/-- The bytes written for one chunk by the branch of a thinking-capable candidate
(lines 394-422), and the flag afterwards. -/
def relayFrame (render : Render) (startGoogleThinking : Bool) (chunk : Chunk) :
    List Char × Bool :=
  let r := relayThinking startGoogleThinking chunk.payload
  let response :=
    match r.1 with
    | some edited => render edited
    | none => trimSpace (chunk.bytes.drop 5)
  ("data: ".data ++ response ++ "\n\n".data, r.2)

/-- The `c.Stream` loop of lines 378-443: everything written while the events
arrive, and the `requestError` returned.  `response[5:]` panics on a chunk of
fewer than five bytes. -/
def relayLoop (render : Render) (model : Model) :
    Bool → List RelayEvent → RelayEnd → HandleResult
  | _, [], .eof => ⟨[], none, false⟩
  | _, [], .readError err => ⟨[], some err, false⟩
  | startGoogleThinking, .timeout :: rest, ending =>
    (relayLoop render model startGoogleThinking rest ending).after processingTag
  | startGoogleThinking, .data chunk :: rest, ending =>
    let tmp := trimSpace chunk.bytes
    if !hasPrefix tmp TagNoData && !hasPrefix tmp TagData then
      ⟨[], some ("unexpected response: " ++ String.mk tmp), false⟩
    else if model.SupportGoogleThinking then
      if chunk.bytes.length < 5 then ⟨[], none, true⟩
      else
        let r := relayFrame render startGoogleThinking chunk
        (relayLoop render model r.2 rest ending).after r.1
    else (relayLoop render model startGoogleThinking rest ending).after chunk.bytes

/-- The function `handleStreamingChatCompletion`, given what the call of
`CreateChatCompletionStream` returns and the error of `c.Writer.Write(errBody)`
(`none` while the client connection is healthy). -/
def handleStreamingChatCompletion (render : Render) (model : Model) (call : StreamCall)
    (writeErr : Option String) : HandleResult :=
  match call with
  | .failed err => ⟨[], some err, false⟩
  | .rejected _ errBody => ⟨errBody, writeErr, false⟩
  | .opened events ending => relayLoop render model false events ending

/-! ## The pipe between the upstream client and the relay

The goroutine of `CreateChatCompletionStream` writes to an `io.Pipe`, and the
relay reads from it into a buffer of 4096 bytes (line 352).  A read of a pipe takes
bytes from one write only: a write is consumed by as many reads as it takes, each
of at most the size of the buffer, and a write of no bytes by one read of no
bytes. -/

/-- The writes of the goroutine of lines 256-362 to the pipe while it reads the
upstream body `input`, one list per `pw.Write`; `line` is the part of the current
line read so far. -/
def streamWrites (rewrite : FrameRewrite) (model : Model) (ending : StreamEnd) :
    List Char → List Char → List (List Char)
  | [], line =>
    match ending with
    | .eof => if line.length > 0 then [trimSpace line] else []
    | .readError => []
  | c :: rest, line =>
    if c = '\n' then
      let r := processLine rewrite model (line ++ [c])
      let written : List (List Char) := if r.1.length = 0 then [] else [r.1]
      if r.2 then written ++ streamWrites rewrite model ending rest []
      else written
    else streamWrites rewrite model ending rest (line ++ [c])

/-- The size of the buffer the relay reads into (`make([]byte, 4096)`). -/
def readBufferSize : Nat := 4096

/-- The reads that consume one write of the pipe; `fuel` bounds their number. -/
def splitWrite : Nat → List Char → List (List Char)
  | 0, b => [b]
  | fuel + 1, b =>
    if b.length ≤ readBufferSize then [b]
    else b.take readBufferSize :: splitWrite fuel (b.drop readBufferSize)

/-- What the successive `stream.Read` calls of the relay return for the writes made
to the pipe. -/
def pipeReads (writes : List (List Char)) : List (List Char) :=
  (writes.map (fun w => splitWrite w.length w)).flatten

/-- The document `gjson` reads in some bytes. -/
abbrev View := List Char → JVal

/-- The events of a relay that finds every read ready before its timer fires. -/
def readEvents (view : View) (reads : List (List Char)) : List RelayEvent :=
  reads.map (fun b => RelayEvent.data ⟨b, view (trimSpace (b.drop 5))⟩)

/-! ## A non-streaming attempt (`handleNonStreamingChatCompletion`, lines 448-546) -/

/-- `strings.Index(s, pat)`, `none` for -1. -/
def stringsIndex (pat : List Char) : List Char → Option Nat
  | [] => if pat.length = 0 then some 0 else none
  | c :: cs =>
    if hasPrefix (c :: cs) pat then some 0
    else (stringsIndex pat cs).map (fun i => i + 1)

/-- Path `choices.0.message`. -/
def messagePath : List String := ["choices", "0", "message"]

/-- Lines 508-524: the document left in `response` by the thinking rewrite of a
completion (`some none` when the bytes stay as they are), or `none` when the slice
`content[thoughtStartIndex+9:thoughtEndIndex]` is out of range and panics. -/
def rewriteThinkingMessage (response : JVal) : Option (Option JVal) :=
  let thoughtResult := gjsonGet response (messagePath ++ ["extra_content", "google", "thought"])
  if resultType thoughtResult = GType.True then
    let contentResult := gjsonGet response (messagePath ++ ["content"])
    if resultType contentResult = GType.String then
      let content := (resultString contentResult).data
      match stringsIndex "<thought>".data content, stringsIndex "</thought>".data content with
      | some thoughtStartIndex, some thoughtEndIndex =>
        if thoughtEndIndex < thoughtStartIndex + 9 then none
        else
          let response1 := sjsonSetIgnoreErr response (messagePath ++ ["reasoning_content"])
            (.str (String.mk ((content.take thoughtEndIndex).drop (thoughtStartIndex + 9))))
          let response2 := sjsonSetIgnoreErr response1 (messagePath ++ ["content"])
            (.str (String.mk (content.take thoughtStartIndex ++
              content.drop (thoughtEndIndex + 10))))
          some (some (sjsonDelete response2 (messagePath ++ ["extra_content"])))
      | _, _ => some none
    else some none
  else some none

/-- The function `handleNonStreamingChatCompletion`, given the result of
`CreateChatCompletion` and the number of 500 ms timeouts that pass before it
arrives (each one writes a line feed). -/
def handleNonStreamingChatCompletion (render : Render) (model : Model) (timeouts : Nat)
    (result : CompletionResult) : HandleResult :=
  let waiting := List.replicate timeouts '\n'
  match result.err with
  | some err => ⟨waiting ++ (result.errBody.map String.data).getD [], some err, false⟩
  | none =>
    match result.data with
    | none => ⟨waiting, none, false⟩
    | some data =>
      if model.SupportGoogleThinking then
        match rewriteThinkingMessage data with
        | none => ⟨waiting, none, true⟩
        | some (some edited) => ⟨waiting ++ render edited, none, false⟩
        | some none => ⟨waiting ++ trimSpace (render data), none, false⟩
      else ⟨waiting ++ trimSpace (render data), none, false⟩

/-! ## The attempts of the dispatch loop, made of the two handler functions -/

/-- What one backend does during one attempt: the exchange of a non-streaming
call, the result of the stream-only path, the timeouts that pass meanwhile, and
for a streaming call the exchange, what the relay receives, and the error of the
write of an error body to the client. -/
structure Exchange where
  http : HttpResult
  viaStream : CompletionResult
  timeouts : Nat
  streamHttp : StreamHttpResult
  events : List RelayEvent
  ending : RelayEnd
  writeErr : Option String
  deriving Repr

/-- The attempt of `dispatchLoop` at each position, for backends that behave as
`exchange` says.  A handler function that panics does not return to the loop;
`dispatchLoop` describes the runs in which every attempt returns. -/
def attemptThrough (render : Render) (exchange : Nat → Exchange) : Attempt :=
  fun position isStream model request =>
    let e := exchange position
    let r :=
      if isStream then
        handleStreamingChatCompletion render model
          (CreateChatCompletionStream.returns request e.streamHttp e.events e.ending) e.writeErr
      else
        handleNonStreamingChatCompletion render model e.timeouts
          (CreateChatCompletion model ⟨0, 0, 0, ⟨0, 0⟩, ⟨0, 0⟩⟩ e.http e.viaStream)
    ⟨r.written, r.err⟩

/-! ## Stream aggregation (`CreateChatCompletionUseStream`, lines 368-619)

`json.Unmarshal` decodes a frame into a `map[string]interface{}`.  The decoded
values are documents here, read through accessors that follow the Go map index
and type assertions; a failed unchecked assertion or an index out of range is a
panic, given as `Except.error`.  Numbers are integers (`float64` in the source,
converted with `int`).  The goroutine of `CreateChatCompletionStream` writes the
usage counts it finds in the same frames to the same record; only the writes of
the aggregator are followed here. -/

/-- The value `m[k]` of the map that `json.Unmarshal` builds from an object: of
several members with one name it keeps the last. -/
def mapIndex (m : List (String × JVal)) (k : String) : Option JVal := lookupKey k m.reverse

/-- The checked assertion `v.(string)`. -/
def asString : Option JVal → Option String
  | some (.str s) => some s
  | _ => none

/-- The checked assertion `v.(float64)`. -/
def asNumber : Option JVal → Option Int
  | some (.num n) => some n
  | _ => none

/-- The checked assertion `v.(map[string]interface{})`. -/
def asMap : Option JVal → Option (List (String × JVal))
  | some (.obj kvs) => some kvs
  | _ => none

/-- The checked assertion `v.([]interface{})`. -/
def asSlice : Option JVal → Option (List JVal)
  | some (.arr xs) => some xs
  | _ => none

/-- `json.Unmarshal(data, &chunk)` with `chunk` a nil map: an object gives its map,
`null` leaves the map nil without error (it reads as an empty map), anything else
is an error. -/
def unmarshalMap : Option JVal → Option (List (String × JVal))
  | some (.obj kvs) => some kvs
  | some .null => some []
  | _ => none

/-- One entry of `toolCalls`, a map with the members `index`, `id`, `type` and
`function` (`name`, `arguments`). -/
structure ToolCall where
  index : Nat
  id : String
  type : String
  name : String
  arguments : String
  deriving Repr, DecidableEq

/-- `provider.Message`; `Images` is never set here, and of `Meta` only the member
`tool_calls` is. -/
structure Message where
  Role : String
  Content : String
  Name : String
  Meta : Option (List ToolCall)
  deriving Repr, DecidableEq

/-- `provider.ChatCompletionChoice`; `LogProbs` is never set here. -/
structure ChatCompletionChoice where
  Index : Nat
  Message : Message
  FinishReason : String
  deriving Repr, DecidableEq

/-- `provider.ChatCompletionResponse`. -/
structure ChatCompletionResponse where
  ID : String
  Object : String
  Created : Int
  Model : String
  SystemFingerprint : String
  Choices : List ChatCompletionChoice
  Usage : Usage
  deriving Repr, DecidableEq

/-- `json.Marshal` of a `Usage`. -/
def Usage.marshal (u : Usage) : JVal :=
  .obj [("prompt_tokens", .num u.PromptTokens), ("completion_tokens", .num u.CompletionTokens),
    ("total_tokens", .num u.TotalTokens),
    ("prompt_tokens_details", .obj [("cached_tokens", .num u.PromptTokensDetails.CachedTokens),
      ("audio_tokens", .num u.PromptTokensDetails.AudioTokens)]),
    ("completion_tokens_details",
      .obj [("audio_tokens", .num u.CompletionTokensDetails.AudioTokens),
        ("reasoning_tokens", .num u.CompletionTokensDetails.ReasoningTokens)])]

/-- `json.Marshal` of a `Message`: `role`, `content`, and `name` unless empty; the
fields `Images` and `Meta` carry the tag `json:"-"` and are left out. -/
def Message.marshal (m : Message) : JVal :=
  .obj ([("role", .str m.Role), ("content", .str m.Content)] ++
    (if m.Name = "" then [] else [("name", .str m.Name)]))

/-- `json.Marshal` of a `ChatCompletionChoice`. -/
def ChatCompletionChoice.marshal (c : ChatCompletionChoice) : JVal :=
  .obj [("index", .num c.Index), ("message", c.Message.marshal),
    ("finish_reason", .str c.FinishReason)]

/-- `json.Marshal` of a `ChatCompletionResponse`. -/
def ChatCompletionResponse.marshal (r : ChatCompletionResponse) : JVal :=
  .obj ([("id", .str r.ID), ("object", .str r.Object), ("created", .num r.Created),
      ("model", .str r.Model)] ++
    (if r.SystemFingerprint = "" then [] else [("system_fingerprint", .str r.SystemFingerprint)]) ++
    [("choices", .arr (r.Choices.map ChatCompletionChoice.marshal)), ("usage", r.Usage.marshal)])

/-- The state of the loop: `fullResponse` (`none` for nil), `content`, `toolCalls`
and the record behind the pointer `usage`. -/
structure AggState where
  fullResponse : Option ChatCompletionResponse
  content : String
  toolCalls : List ToolCall
  usage : Usage
  deriving Repr, DecidableEq

/-- The conversions `int(v)` and `int64(v)` of a `float64` whose value is the
integer `v`, on a platform with 64-bit `int`.  A value in the range of a 64-bit
integer is kept.  For a value outside of that range the language leaves the result
to the implementation; the result given here is the one of amd64, the smallest
64-bit integer (on arm64 the conversion saturates instead). -/
def intOfFloat (v : Int) : Int :=
  if -9223372036854775808 ≤ v ∧ v < 9223372036854775808 then v else -9223372036854775808

/-- Lines 441-456: the response allocated from the first decoded frame. -/
def initResponse (chunk : List (String × JVal)) : Except String ChatCompletionResponse :=
  match asString (mapIndex chunk "id") with
  | none => .error "interface conversion: id is not a string"
  | some id =>
    match asNumber (mapIndex chunk "created") with
    | none => .error "interface conversion: created is not a float64"
    | some created =>
      match asString (mapIndex chunk "model") with
      | none => .error "interface conversion: model is not a string"
      | some model =>
        match mapIndex chunk "system_fingerprint" with
        | none =>
          .ok ⟨id, "chat.completion", intOfFloat created, model, "", [],
            ⟨0, 0, 0, ⟨0, 0⟩, ⟨0, 0⟩⟩⟩
        | some (.str fingerprint) =>
          .ok ⟨id, "chat.completion", intOfFloat created, model, fingerprint, [],
            ⟨0, 0, 0, ⟨0, 0⟩, ⟨0, 0⟩⟩⟩
        | some _ => .error "interface conversion: system_fingerprint is not a string"

/-- The placeholder appended at position `n` of `toolCalls`. -/
def placeholderToolCall (n : Nat) : ToolCall := ⟨n, "", "", "", ""⟩

/-- Lines 481-490: `toolCalls` grown with placeholders until `toolCallIndex` is a
valid position. -/
def growToolCalls (toolCalls : List ToolCall) (toolCallIndex : Nat) : List ToolCall :=
  toolCalls ++ (List.range (toolCallIndex + 1 - toolCalls.length)).map
    (fun j => placeholderToolCall (toolCalls.length + j))

/-- Lines 494-515: the entry after the fragment `toolCall` was merged into it. -/
def updateToolCall (existingToolCall : ToolCall) (toolCall : List (String × JVal)) : ToolCall :=
  let e1 : ToolCall :=
    match asString (mapIndex toolCall "id") with
    | some id => if id ≠ "" then { existingToolCall with id := id } else existingToolCall
    | none => existingToolCall
  let e2 : ToolCall :=
    match asString (mapIndex toolCall "type") with
    | some tcType => if tcType ≠ "" then { e1 with type := tcType } else e1
    | none => e1
  match asMap (mapIndex toolCall "function") with
  | some function =>
    let e3 : ToolCall :=
      match asString (mapIndex function "name") with
      | some name => if name ≠ "" then { e2 with name := name } else e2
      | none => e2
    match asString (mapIndex function "arguments") with
    | some args => { e3 with arguments := e3.arguments ++ args }
    | none => e3
  | none => e2

/-- Lines 474-516, one turn of the loop over `deltaToolCalls`.  The index is
`int(toolCall["index"].(float64))`: a negative one makes `toolCalls[toolCallIndex]`
panic, and so does an index of 2^63 or more, which the conversion turns into a
negative one (where the conversion saturates instead, the loop of lines 481-490
appends without end: in both cases the call does not return). -/
def mergeToolCall (toolCalls : List ToolCall) (tc : JVal) : Except String (List ToolCall) :=
  match tc with
  | .obj toolCall =>
    match asNumber (mapIndex toolCall "index") with
    | some index =>
      if intOfFloat index < 0 then .error "index out of range"
      else
        let toolCallIndex := (intOfFloat index).toNat
        let grown := growToolCalls toolCalls toolCallIndex
        .ok (grown.set toolCallIndex
          (updateToolCall (grown.getD toolCallIndex (placeholderToolCall toolCallIndex)) toolCall))
    | none => .error "interface conversion: index is not a float64"
  | _ => .error "interface conversion: tool call is not a map"

/-- The loop over `deltaToolCalls`. -/
def mergeToolCalls : List ToolCall → List JVal → Except String (List ToolCall)
  | toolCalls, [] => .ok toolCalls
  | toolCalls, tc :: rest =>
    match mergeToolCall toolCalls tc with
    | .ok merged => mergeToolCalls merged rest
    | .error reason => .error reason

/-- Lines 520-529: the finish reason stored in the first choice, which is created
when there is none yet. -/
def setFinishReason (choices : List ChatCompletionChoice) (finishReason : String) :
    List ChatCompletionChoice :=
  match choices with
  | [] => [⟨0, ⟨"", "", "", none⟩, finishReason⟩]
  | c :: cs => { c with FinishReason := finishReason } :: cs

/-- One `if v, ok := m[k].(float64); ok { field = int(v) }`. -/
def numberField (m : List (String × JVal)) (k : String) (old : Int) : Int :=
  match asNumber (mapIndex m k) with
  | some n => intOfFloat n
  | none => old

/-- Lines 534-569: the usage counts read from the frame. -/
def mergeUsage (chunk : List (String × JVal)) (usage : Usage) : Usage :=
  match asMap (mapIndex chunk "usage") with
  | none => usage
  | some usageData =>
    { PromptTokens := numberField usageData "prompt_tokens" usage.PromptTokens,
      CompletionTokens := numberField usageData "completion_tokens" usage.CompletionTokens,
      TotalTokens := numberField usageData "total_tokens" usage.TotalTokens,
      PromptTokensDetails :=
        match asMap (mapIndex usageData "prompt_tokens_details") with
        | some details =>
          { CachedTokens := numberField details "cached_tokens"
              usage.PromptTokensDetails.CachedTokens,
            AudioTokens := numberField details "audio_tokens"
              usage.PromptTokensDetails.AudioTokens }
        | none => usage.PromptTokensDetails,
      CompletionTokensDetails :=
        match asMap (mapIndex usageData "completion_tokens_details") with
        | some details =>
          { AudioTokens := numberField details "audio_tokens"
              usage.CompletionTokensDetails.AudioTokens,
            ReasoningTokens := numberField details "reasoning_tokens"
              usage.CompletionTokensDetails.ReasoningTokens }
        | none => usage.CompletionTokensDetails }

/-- Lines 460-531: the first choice of the frame merged into `content`,
`toolCalls` and the choices of the response. -/
def mergeChoice (fullResponse : ChatCompletionResponse) (content : String)
    (toolCalls : List ToolCall) (chunk : List (String × JVal)) :
    Except String (ChatCompletionResponse × String × List ToolCall) :=
  match asSlice (mapIndex chunk "choices") with
  | some (first :: _) =>
    match first with
    | .obj choice =>
      match asMap (mapIndex choice "delta") with
      | some delta =>
        let content1 :=
          match asString (mapIndex delta "content") with
          | some deltaContent => if deltaContent ≠ "" then content ++ deltaContent else content
          | none => content
        let merged : Except String (List ToolCall) :=
          match asSlice (mapIndex delta "tool_calls") with
          | some deltaToolCalls => mergeToolCalls toolCalls deltaToolCalls
          | none => .ok toolCalls
        match merged with
        | .error reason => .error reason
        | .ok toolCalls1 =>
          let fullResponse1 :=
            match asString (mapIndex choice "finish_reason") with
            | some finishReason =>
              if finishReason ≠ "" then
                { fullResponse with Choices := setFinishReason fullResponse.Choices finishReason }
              else fullResponse
            | none => fullResponse
          .ok (fullResponse1, content1, toolCalls1)
      | none => .ok (fullResponse, content, toolCalls)
    | _ => .error "interface conversion: choice is not a map"
  | _ => .ok (fullResponse, content, toolCalls)

/-- Lines 439-570: one decoded frame merged into the state. -/
def processChunk (st : AggState) (chunk : List (String × JVal)) : Except String AggState :=
  let initialised : Except String ChatCompletionResponse :=
    match st.fullResponse with
    | some fullResponse => .ok fullResponse
    | none => initResponse chunk
  match initialised with
  | .error reason => .error reason
  | .ok fullResponse =>
    match mergeChoice fullResponse st.content st.toolCalls chunk with
    | .error reason => .error reason
    | .ok r => .ok ⟨some r.1, r.2.1, r.2.2, mergeUsage chunk st.usage⟩

/-- One line of the stream as the loop classifies it: a line it passes over (empty,
or without the prefix `data: `), the `[DONE]` frame, or a `data: ` frame with the
document in its payload (`none` when the payload is not a JSON text). -/
inductive StreamLine where
  | skipped
  | done
  | data (payload : Option JVal)
  deriving Repr

/-- The loop of lines 405-571 over the lines read, up to `[DONE]` or the end. -/
def aggregateLines : AggState → List StreamLine → Except String AggState
  | st, [] => .ok st
  | st, .skipped :: rest => aggregateLines st rest
  | st, .done :: _ => .ok st
  | st, .data payload :: rest =>
    match unmarshalMap payload with
    | none => aggregateLines st rest
    | some chunk =>
      match processChunk st chunk with
      | .ok st1 => aggregateLines st1 rest
      | .error reason => .error reason

/-- Lines 573-606: the response completed after the loop; `none` when no frame was
decoded and `fullResponse` is still nil. -/
def finishResponse (st : AggState) : Option ChatCompletionResponse :=
  match st.fullResponse with
  | none => none
  | some fullResponse =>
    let message : Message :=
      ⟨"assistant", st.content, "", if st.toolCalls.length > 0 then some st.toolCalls else none⟩
    let choices : List ChatCompletionChoice :=
      match fullResponse.Choices with
      | [] => [⟨0, message, ""⟩]
      | c :: cs => { c with Message := message } :: cs
    some { fullResponse with Choices := choices, Usage := st.usage }

/-- What a call of `CreateChatCompletionUseStream` does: it returns its three
results (with the usage record), or it panics. -/
inductive UseStreamResult where
  | returned (result : CompletionResult)
  | panicked (reason : String)
  deriving Repr

/-- Lines 396-618 on the lines read from the stream. -/
def aggregate (usage : Usage) (lines : List StreamLine) : UseStreamResult :=
  match aggregateLines ⟨none, "", [], usage⟩ lines with
  | .error reason => .panicked reason
  | .ok st =>
    match finishResponse st with
    | none => .returned ⟨none, some "failed to parse streaming response", none, st.usage⟩
    | some fullResponse => .returned ⟨some fullResponse.marshal, none, none, st.usage⟩

/-- The document in a JSON text, `none` when the text is not JSON. -/
abbrev Decode := List Char → Option JVal

/-- The lines `reader.ReadBytes` returns before `io.EOF`, each with its line feed;
bytes after the last line feed are dropped by the `break` of line 414. -/
def readLines : List Char → List Char → List (List Char)
  | [], _ => []
  | c :: rest, line =>
    if c = '\n' then (line ++ [c]) :: readLines rest [] else readLines rest (line ++ [c])

/-- Lines 420-437: how the loop classifies one line. -/
def classifyLine (decode : Decode) (rawLine : List Char) : StreamLine :=
  let line := trimSpace rawLine
  if line.length = 0 then .skipped
  else if hasPrefix line TagData then
    let data := line.drop TagData.length
    if data = TagDataDone then .done else .data (decode data)
  else .skipped

/-- What the call of `CreateChatCompletionStream` made in line 387 returns: an
error with or without an error body, or a stream, given by the bytes a reader
receives.  The stream is the read end of a pipe, which only ever ends with
`io.EOF`, so the `return nil, err, nil` of line 416 is not reached. -/
inductive StreamSource where
  | failed (err : String) (errBody : Option String)
  | opened (stream : List Char)
  deriving Repr

/-- The method `CreateChatCompletionUseStream`. -/
def CreateChatCompletionUseStream (decode : Decode) (usage : Usage) (source : StreamSource) :
    UseStreamResult :=
  match source with
  | .failed err errBody => .returned ⟨none, some err, errBody, usage⟩
  | .opened stream => aggregate usage ((readLines stream []).map (classifyLine decode))

/-! ## Notions used in the statements -/

/-- The table of the specification (section 4.2): hint, budget, include-thoughts. -/
def effortTable : List (String × Int × Bool) :=
  [("none", 0, false), ("auto", -1, true), ("low", 1024, true), ("medium", 8192, true),
   ("high", 24576, true)]

/-- The five recognised hints. -/
def recognisedHints : List String := ["none", "auto", "low", "medium", "high"]

/-- The document has a member named `k` (whatever its value). -/
def hasField (data : JVal) (k : String) : Prop := gjsonGet data [k] ≠ none

/-- The document has a member named `k` whose value is not `null`. -/
def hasNonNullField (data : JVal) (k : String) : Prop :=
  ∃ v, gjsonGet data [k] = some v ∧ v ≠ .null

/-- All bytes the raw writes of a response put on the connection, in order. -/
def writtenBytes : List ResponseAction → List Char
  | [] => []
  | .write bytes :: rest => bytes ++ writtenBytes rest
  | .json _ _ :: rest => writtenBytes rest

/-- The decoded frames the aggregator merges: the `data: ` frames before `[DONE]`
or the end of the stream whose payload `json.Unmarshal` accepts. -/
def framesBeforeDone : List StreamLine → List (List (String × JVal))
  | [] => []
  | .skipped :: rest => framesBeforeDone rest
  | .done :: _ => []
  | .data payload :: rest =>
    match unmarshalMap payload with
    | some chunk => chunk :: framesBeforeDone rest
    | none => framesBeforeDone rest

/-- A `data: ` frame whose payload is a JSON object occurs before `[DONE]` or the
end of the stream. -/
def objectFrameSeen : List StreamLine → Bool
  | [] => false
  | .skipped :: rest => objectFrameSeen rest
  | .done :: _ => false
  | .data (some (.obj _)) :: _ => true
  | .data _ :: rest => objectFrameSeen rest

/-- The object `choices[0]` of a frame together with its object `delta`. -/
def choiceWithDelta (chunk : List (String × JVal)) :
    Option (List (String × JVal) × List (String × JVal)) :=
  match asSlice (mapIndex chunk "choices") with
  | some (.obj choice :: _) =>
    match asMap (mapIndex choice "delta") with
    | some delta => some (choice, delta)
    | none => none
  | _ => none

/-- The string `choices[0].delta.content` of a frame, empty when there is none. -/
def frameContent (chunk : List (String × JVal)) : String :=
  match choiceWithDelta chunk with
  | some (_, delta) => (asString (mapIndex delta "content")).getD ""
  | none => ""

/-- The non-empty string `choices[0].finish_reason` of a frame that has a delta. -/
def frameFinishReason (chunk : List (String × JVal)) : Option String :=
  match choiceWithDelta chunk with
  | some (choice, _) =>
    match asString (mapIndex choice "finish_reason") with
    | some finishReason => if finishReason = "" then none else some finishReason
    | none => none
  | none => none

/-- The tool-call fragments `choices[0].delta.tool_calls` of a frame. -/
def frameToolCalls (chunk : List (String × JVal)) : List JVal :=
  match choiceWithDelta chunk with
  | some (_, delta) => (asSlice (mapIndex delta "tool_calls")).getD []
  | none => []

/-- The index of a tool-call fragment: an object whose `index` is a number that is
not negative and in the range of `int` (below 2^63). -/
def fragmentIndex (tc : JVal) : Option Nat :=
  match tc with
  | .obj toolCall =>
    match asNumber (mapIndex toolCall "index") with
    | some index => if intOfFloat index < 0 then none else some (intOfFloat index).toNat
    | none => none
  | _ => none

/-- The string `function.arguments` of a tool-call fragment, empty when there is
none. -/
def fragmentArguments (tc : JVal) : String :=
  match tc with
  | .obj toolCall =>
    match asMap (mapIndex toolCall "function") with
    | some function => (asString (mapIndex function "arguments")).getD ""
    | none => ""
  | _ => ""

/-- A frame fit to be the first one: `id` and `model` are strings, `created` is a
number, and `system_fingerprint` is a string when the member is there. -/
def wellFormedFirst (chunk : List (String × JVal)) : Bool :=
  (asString (mapIndex chunk "id")).isSome && (asNumber (mapIndex chunk "created")).isSome &&
  (asString (mapIndex chunk "model")).isSome &&
  (match mapIndex chunk "system_fingerprint" with
    | none => true
    | some (.str _) => true
    | some _ => false)

/-- A well-formed frame: when `choices` is a non-empty array its first element is
an object, and every tool-call fragment of its delta is an object whose `index` is
a number from 0 to 2^63 - 1. -/
def wellFormedFrame (chunk : List (String × JVal)) : Bool :=
  (match asSlice (mapIndex chunk "choices") with
    | some (.obj _ :: _) => true
    | some (_ :: _) => false
    | _ => true) &&
  (frameToolCalls chunk).all (fun tc => (fragmentIndex tc).isSome)

/-- The accumulated arguments of the entry at position `i`, empty when there is no
such entry. -/
def argumentsAt (toolCalls : List ToolCall) (i : Nat) : String :=
  match toolCalls[i]? with
  | some entry => entry.arguments
  | none => ""

/-- The strings of a list written one after the other. -/
def concatStrings : List String → String
  | [] => ""
  | s :: rest => s ++ concatStrings rest

/-- The choices of the response under construction (none before the first frame). -/
def AggState.choices (st : AggState) : List ChatCompletionChoice :=
  match st.fullResponse with
  | some fullResponse => fullResponse.Choices
  | none => []

/-- The finish reason stored so far. -/
def AggState.finishReason (st : AggState) : Option String :=
  st.choices.head?.map (fun c => c.FinishReason)

/-- The choices after a frame: its finish reason, if it has one, is stored. -/
def stepFinishReason (choices : List ChatCompletionChoice) (chunk : List (String × JVal)) :
    List ChatCompletionChoice :=
  match frameFinishReason chunk with
  | some finishReason => setFinishReason choices finishReason
  | none => choices

/-- The non-empty string `choices[0].finish_reason` of a frame, whether or not the
choice has a delta. -/
def choiceFinishReason (chunk : List (String × JVal)) : Option String :=
  match asSlice (mapIndex chunk "choices") with
  | some (.obj choice :: _) =>
    match asString (mapIndex choice "finish_reason") with
    | some finishReason => if finishReason = "" then none else some finishReason
    | none => none
  | _ => none

/-- The frame has an object `choices[0].delta`. -/
def hasDelta (chunk : List (String × JVal)) : Bool := (choiceWithDelta chunk).isSome

/-- The non-empty string `id` of a tool-call fragment. -/
def fragmentId (tc : JVal) : Option String :=
  match tc with
  | .obj toolCall =>
    match asString (mapIndex toolCall "id") with
    | some id => if id = "" then none else some id
    | none => none
  | _ => none

/-- The non-empty string `type` of a tool-call fragment. -/
def fragmentType (tc : JVal) : Option String :=
  match tc with
  | .obj toolCall =>
    match asString (mapIndex toolCall "type") with
    | some tcType => if tcType = "" then none else some tcType
    | none => none
  | _ => none

/-- The non-empty string `function.name` of a tool-call fragment. -/
def fragmentName (tc : JVal) : Option String :=
  match tc with
  | .obj toolCall =>
    match asMap (mapIndex toolCall "function") with
    | some function =>
      match asString (mapIndex function "name") with
      | some name => if name = "" then none else some name
      | none => none
    | none => none
  | _ => none

/-- A string member of the entry at position `i`, empty when there is no such
entry. -/
def fieldAt (proj : ToolCall → String) (toolCalls : List ToolCall) (i : Nat) : String :=
  match toolCalls[i]? with
  | some entry => proj entry
  | none => ""

/-- The length the accumulator needs for the fragments: the highest index plus
one, and 0 when there is no fragment. -/
def neededLength (fragments : List JVal) : Nat :=
  (fragments.filterMap fragmentIndex).foldr (fun n m => max (n + 1) m) 0

/-- The relay accepts the chunk: trimmed, it begins with the comment marker or
with `data: `. -/
def chunkAccepted (chunk : Chunk) : Bool :=
  hasPrefix (trimSpace chunk.bytes) TagNoData || hasPrefix (trimSpace chunk.bytes) TagData

/-- The event does not stop the relay: a timeout, or an accepted chunk. -/
def eventAccepted : RelayEvent → Bool
  | .data chunk => chunkAccepted chunk
  | .timeout => true

/-- What the relay of a candidate without thinking support writes for an event it
accepts: the bytes of the chunk, or the processing comment on a timeout. -/
def eventBytes : RelayEvent → List Char
  | .data chunk => chunk.bytes
  | .timeout => processingTag

/-- The frame `data: ` + payload + blank line. -/
def dataFrame (payload : List Char) : List Char := "data: ".data ++ payload ++ "\n\n".data

/-- The frame is marked as a thought: the member
`choices.0.delta.extra_content.google.thought` is `true`. -/
def markedThought (response : JVal) : Bool :=
  decide (resultType (gjsonGet response deltaThoughtPath) = GType.True)

/-- The content of the delta begins with the closing tag `</thought>`. -/
def closesThought (response : JVal) : Bool :=
  hasPrefix (resultString (gjsonGet response deltaContentPath)).data "</thought>".data

/-- The error with which reading the stream ends (`none` at `io.EOF`). -/
def RelayEnd.err : RelayEnd → Option String
  | .eof => none
  | .readError err => some err

/-! ## A small configuration

Two enabled backends for the model `gpt` (the second one with vendor thinking)
around a disabled entry, and the envelopes, bodies and streams the examples use. -/

/-- First backend of `gpt`. -/
def demoModelA : Model :=
  { ID := 1, Name := "gpt", ProviderModelName := "gpt-a", SupportGoogleThinking := false,
    BaseURL := "http://a.example/v1", BaseURLDirect := false, IsOpenAICompatibility := true,
    StreamOnly := false, ProviderAPIKey := ["ka1", "ka2"], Enabled := true, Visible := true }

/-- A disabled entry. -/
def demoModelOff : Model :=
  { ID := 2, Name := "old", ProviderModelName := "old-x", SupportGoogleThinking := false,
    BaseURL := "http://x.example/v1", BaseURLDirect := false, IsOpenAICompatibility := true,
    StreamOnly := false, ProviderAPIKey := [], Enabled := false, Visible := true }

/-- Second backend of `gpt`, with vendor thinking. -/
def demoModelB : Model :=
  { ID := 3, Name := "gpt", ProviderModelName := "gpt-b", SupportGoogleThinking := true,
    BaseURL := "http://b.example/v1", BaseURLDirect := false, IsOpenAICompatibility := true,
    StreamOnly := false, ProviderAPIKey := ["kb"], Enabled := true, Visible := true }

/-- The model table. -/
def demoConfig : Config := ⟨[demoModelA, demoModelOff, demoModelB]⟩

/-- The envelope of a request for `gpt`. -/
def demoEnvelope : JVal :=
  .obj [("model", .str "gpt"), ("messages", .arr [])]

/-- The envelope of a request for the disabled model `old`. -/
def demoEnvelopeOld : JVal :=
  .obj [("model", .str "old"), ("messages", .arr [])]

/-- Backends that all answer with an error naming the provider model. -/
def alwaysFails : Attempt :=
  fun _ _ model _ => ⟨[], some ("upstream down: " ++ model.ProviderModelName)⟩

/-- Backends that all answer with status 500 and an error body, which the attempt
passes on to the caller before it returns its error. -/
def failsAfterWriting : Attempt :=
  fun _ _ _ _ =>
    ⟨"upstream error".data, some "unexpected status code: 500 Internal Server Error"⟩

/-- Backends that all answer with a completion. -/
def alwaysSucceeds : Attempt :=
  fun _ _ _ _ => ⟨"completion".data, none⟩

/-- A request for `gpt` without provider filter, served while every backend fails. -/
def demoRequest : ChatRequest := ⟨demoEnvelope, [], alwaysFails⟩

/-- Every cursor at its initial value. -/
def noCursors : CursorMap := fun _ => 0

/-- A request for `gpt` with the hint `medium`. -/
def demoEnvelopeMedium : JVal :=
  .obj [("model", .str "gpt"), ("reasoning_effort", .str "medium"), ("messages", .arr [])]

/-- A request for `gpt` with the hint `medium` whose `extra_body` is an array. -/
def demoEnvelopeArrayBody : JVal :=
  .obj [("model", .str "gpt"), ("reasoning_effort", .str "medium"), ("extra_body", .arr [])]

/-- A request for `gpt` with an unrecognised string as hint. -/
def demoEnvelopeExtreme : JVal :=
  .obj [("model", .str "gpt"), ("reasoning_effort", .str "extreme"), ("messages", .arr [])]

/-- A request for `gpt` whose `reasoning_effort` is the number 7. -/
def demoEnvelopeNumber : JVal :=
  .obj [("model", .str "gpt"), ("reasoning_effort", .num 7), ("messages", .arr [])]

/-- A usage record with every count at zero, as the handlers allocate it. -/
def zeroUsage : Usage := ⟨0, 0, 0, ⟨0, 0⟩, ⟨0, 0⟩⟩

/-- A stand-in for the result of the stream-only path. -/
def demoViaStream : CompletionResult :=
  ⟨none, some "failed to parse streaming response", none, zeroUsage⟩

/-- An upstream completion carrying the internal `provider` member. -/
def demoCompletion : JVal :=
  .obj [("id", .str "chatcmpl-1"), ("object", .str "chat.completion"),
    ("model", .str "gpt-a"), ("provider", .str "acme"), ("choices", .arr [])]

/-- An upstream body whose `id` is `null` and which has no `object` member. -/
def demoNullIdBody : JVal :=
  .obj [("id", .null), ("choices", .arr [])]

/-- An upstream completion in which the member `provider` occurs twice. -/
def demoTwoProviders : JVal :=
  .obj [("id", .str "chatcmpl-1"), ("provider", .str "acme"), ("provider", .str "other")]

/-- A request in which the member `reasoning_effort` occurs twice. -/
def demoEnvelopeTwoHints : JVal :=
  .obj [("model", .str "gpt"), ("reasoning_effort", .str "medium"),
    ("reasoning_effort", .str "high")]

/-- A request in which an unrecognised `reasoning_effort` occurs twice. -/
def demoEnvelopeTwoExtremes : JVal :=
  .obj [("model", .str "gpt"), ("reasoning_effort", .str "extreme"),
    ("reasoning_effort", .str "extreme")]

/-- Text of `demoCompletion`. -/
def demoCompletionText : String :=
  "\x7b\"id\":\"chatcmpl-1\",\"object\":\"chat.completion\",\"model\":\"gpt-a\",\"provider\":\"acme\",\"choices\":[]\x7d"

/-- Text of `demoNullIdBody`. -/
def demoNullIdText : String := "\x7b\"id\":null,\"choices\":[]\x7d"

/-- Text of `demoTwoProviders`. -/
def demoTwoProvidersText : String :=
  "\x7b\"id\":\"chatcmpl-1\",\"provider\":\"acme\",\"provider\":\"other\"\x7d"

/-- The payload of one upstream frame. -/
def demoPayload : List Char :=
  "\x7b\"id\":\"c1\",\"model\":\"gpt-a\",\"provider\":\"acme\"\x7d".data

/-- An upstream body made of one frame that is not followed by a line feed. -/
def demoUnterminated : List Char := "data: ".data ++ demoPayload

/-- An upstream body made of one frame followed by an unterminated `[DONE]`. -/
def demoUnterminatedDone : List Char :=
  "data: ".data ++ demoPayload ++ "\n\ndata: [DONE]".data

/-- The payload of a frame that opens a thinking block with the text `plan`. -/
def demoThoughtFrame : JVal :=
  .obj [("id", .str "c1"),
    ("choices", .arr [.obj [("index", .num 0),
      ("delta", .obj [("content", .str "<thought>plan"),
        ("extra_content", .obj [("google", .obj [("thought", .bool true)])])])]])]

/-- The chunk that carries `demoThoughtFrame`. -/
def demoThoughtChunk : Chunk :=
  ⟨"data: \x7b\"id\":\"c1\",\"choices\":[\x7b\"index\":0,\"delta\":\x7b\"content\":\"<thought>plan\",\"extra_content\":\x7b\"google\":\x7b\"thought\":true\x7d\x7d\x7d\x7d]\x7d\n\n".data,
   demoThoughtFrame⟩

/-- A frame like `demoThoughtFrame` whose delta has the member `content` twice. -/
def demoThoughtFrameTwice : JVal :=
  .obj [("id", .str "c1"),
    ("choices", .arr [.obj [("index", .num 0),
      ("delta", .obj [("content", .str "<thought>plan"), ("content", .str "left over"),
        ("extra_content", .obj [("google", .obj [("thought", .bool true)])])])]])]

/-- The chunk that carries `demoThoughtFrameTwice`. -/
def demoThoughtChunkTwice : Chunk :=
  ⟨"data: \x7b\"id\":\"c1\",\"choices\":[\x7b\"index\":0,\"delta\":\x7b\"content\":\"<thought>plan\",\"content\":\"left over\",\"extra_content\":\x7b\"google\":\x7b\"thought\":true\x7d\x7d\x7d\x7d]\x7d\n\n".data,
   demoThoughtFrameTwice⟩

/-- The payload of a frame that closes the thinking block and starts the answer. -/
def demoCloseFrame : JVal :=
  .obj [("id", .str "c1"),
    ("choices", .arr [.obj [("index", .num 0),
      ("delta", .obj [("content", .str "</thought>answer")])]])]

/-- The chunk that carries `demoCloseFrame`. -/
def demoCloseChunk : Chunk :=
  ⟨"data: \x7b\"id\":\"c1\",\"choices\":[\x7b\"index\":0,\"delta\":\x7b\"content\":\"</thought>answer\"\x7d\x7d]\x7d\n\n".data,
   demoCloseFrame⟩

/-- The envelope of a streaming request for `gpt`. -/
def demoEnvelopeStream : JVal :=
  .obj [("model", .str "gpt"), ("stream", .bool true), ("messages", .arr [])]

/-- The error body of a backend that answers with status 500. -/
def demoErrorText : String := "\x7b\"error\":\"overloaded\"\x7d"

/-- The document of `demoErrorText`. -/
def demoErrorDoc : JVal := .obj [("error", .str "overloaded")]

/-- Backends of which the first one attempted answers with status 500 and the
error body `demoErrorText`, and any later one with status 200: the completion
`demoCompletion` to a non-streaming call, an empty stream to a streaming call.
The client connection is healthy and no timeout passes. -/
def demoRejectThenServe : Nat → Exchange :=
  fun position =>
    if position = 0 then
      { http := .response 500 "500 Internal Server Error" demoErrorText demoErrorDoc,
        viaStream := demoViaStream, timeouts := 0,
        streamHttp := .response 500 "500 Internal Server Error" demoErrorText.data,
        events := [], ending := .eof, writeErr := none }
    else
      { http := .response 200 "200 OK" demoCompletionText demoCompletion,
        viaStream := demoViaStream, timeouts := 0,
        streamHttp := .response 200 "200 OK" [],
        events := [], ending := .eof, writeErr := none }

/-- The completion `demoCompletion` as the upstream client hands it on: without
the member `provider`, and with the public name as `model`. -/
def demoCompletionServed : JVal :=
  .obj [("id", .str "chatcmpl-1"), ("object", .str "chat.completion"),
    ("model", .str "gpt"), ("choices", .arr [])]

/-- A backend entry with the given identifier, public name and provider model. -/
def demoBackend (id : Nat) (name providerModel : String) : Model :=
  { ID := id, Name := name, ProviderModelName := providerModel, SupportGoogleThinking := false,
    BaseURL := "http://c.example/v1", BaseURLDirect := false, IsOpenAICompatibility := true,
    StreamOnly := false, ProviderAPIKey := [], Enabled := true, Visible := true }

/-- A model table with two backends for `gpt-4o` and two for `gpt-4o-mini`. -/
def demoConfigMini : Config :=
  ⟨[demoBackend 1 "gpt-4o" "x1", demoBackend 2 "gpt-4o" "x2",
    demoBackend 3 "gpt-4o-mini" "y1", demoBackend 4 "gpt-4o-mini" "y2"]⟩

/-- A request for `gpt-4o-mini` without provider filter. -/
def demoRequestMini : ChatRequest :=
  ⟨.obj [("model", .str "gpt-4o-mini"), ("messages", .arr [])], [], alwaysSucceeds⟩

/-- A request for `gpt-4o` with the provider filter `mini`. -/
def demoRequestFiltered : ChatRequest :=
  ⟨.obj [("model", .str "gpt-4o"), ("messages", .arr [])], ["mini"], alwaysSucceeds⟩

/-- A decoded frame of the stream of `gpt` whose delta is `delta` and whose choice
has the further members `more`. -/
def demoFrame (delta : List (String × JVal)) (more : List (String × JVal)) : JVal :=
  .obj [("id", .str "c1"), ("created", .num 1), ("model", .str "gpt"),
    ("choices", .arr [.obj ([("index", .num 0), ("delta", .obj delta)] ++ more)])]

/-- A stream with the content deltas `Hel` and `lo` and the finish reason `stop`. -/
def demoHelloLines : List StreamLine :=
  [.data (some (demoFrame [("role", .str "assistant"), ("content", .str "Hel")] [])),
   .skipped,
   .data (some (demoFrame [("content", .str "lo")] [])),
   .data (some (demoFrame [] [("finish_reason", .str "stop")])),
   .done]

/-- A tool-call fragment for entry 0 that opens the call and carries `ab`. -/
def demoFragmentAb : JVal :=
  .obj [("index", .num 0), ("id", .str "call_1"), ("type", .str "function"),
    ("function", .obj [("name", .str "lookup"), ("arguments", .str "ab")])]

/-- A tool-call fragment for entry 0 that carries `cd`. -/
def demoFragmentCd : JVal :=
  .obj [("index", .num 0), ("function", .obj [("arguments", .str "cd")])]

/-- A stream whose two frames carry the fragments `ab` and `cd` of one tool call
and which ends with the finish reason `tool_calls`. -/
def demoToolLines : List StreamLine :=
  [.data (some (demoFrame [("tool_calls", .arr [demoFragmentAb])] [])),
   .data (some (demoFrame [("tool_calls", .arr [demoFragmentCd])]
     [("finish_reason", .str "tool_calls")])),
   .done]

/-- A stream in which no frame with an object as payload comes before `[DONE]`. -/
def demoEmptyLines : List StreamLine :=
  [.skipped, .data none, .data (some (.arr [])), .done,
   .data (some (demoFrame [("content", .str "late")] []))]

/-- A model table with two backends for `gpt-4o` and three for `gpt-4o-mini`. -/
def demoConfigUneven : Config :=
  ⟨[demoBackend 1 "gpt-4o" "x1", demoBackend 2 "gpt-4o" "x2",
    demoBackend 3 "gpt-4o-mini" "y1", demoBackend 4 "gpt-4o-mini" "y2",
    demoBackend 5 "gpt-4o-mini" "y3"]⟩

/-- Cursors after earlier traffic for `gpt`: the next request starts at position 1,
the thinking-capable backend. -/
def demoCursorsAtOne : CursorMap := noCursors.store "gpt" 1

/-- A decoded frame of the stream of `gpt` whose first choice has no delta and
carries the finish reason `stop`. -/
def demoStopWithoutDelta : JVal :=
  .obj [("id", .str "c1"), ("created", .num 1), ("model", .str "gpt"),
    ("choices", .arr [.obj [("index", .num 0), ("finish_reason", .str "stop")]])]

/-- A stream with the content delta `Hi` followed by a frame that carries the
finish reason `stop` and no delta. -/
def demoNoDeltaLines : List StreamLine :=
  [.data (some (demoFrame [("content", .str "Hi")] [])),
   .data (some demoStopWithoutDelta),
   .done]

/-- A tool-call fragment for entry 0 whose `id` and `function.name` are empty. -/
def demoFragmentEmpty : JVal :=
  .obj [("index", .num 0), ("id", .str ""), ("function", .obj [("name", .str "")])]

/-- A tool-call fragment for entry 2 that carries the id `call_3`. -/
def demoFragmentThird : JVal :=
  .obj [("index", .num 2), ("id", .str "call_3")]

/-- The start of a frame payload: a content delta up to the opening quote of its
text. -/
def demoLongHead : List Char :=
  "\x7b\"id\":\"c1\",\"model\":\"gpt\",\"choices\":[\x7b\"delta\":\x7b\"content\":\"".data

/-- The end of that payload, from the closing quote of the text. -/
def demoLongTail : List Char := "\"\x7d\x7d]\x7d".data

/-- A frame payload: a content delta whose text is `n` letters. -/
def demoLongPayload (n : Nat) : List Char :=
  demoLongHead ++ (List.replicate n 'a' ++ demoLongTail)

/-- The frame rewrite on a payload that has no `provider` member and whose `model`
member is already the public name: the bytes stay as they are. -/
def demoKeepBytes : FrameRewrite := fun _ data => data

/-- A short frame payload. -/
def demoShortPayload : List Char := "\x7b\"id\":\"c1\",\"model\":\"gpt\"\x7d".data

/-- The chunk that carries the frame of `demoShortPayload`. -/
def demoShortChunk : Chunk :=
  ⟨dataFrame demoShortPayload, .obj [("id", .str "c1"), ("model", .str "gpt")]⟩

/-- A chunk that is no frame of the stream. -/
def demoHtmlChunk : Chunk := ⟨" <html>busy</html>\n".data, .null⟩

/-- A stream whose first frame has no `id`. -/
def demoNoIdLines : List StreamLine :=
  [.data (some (.obj [("created", .num 1), ("model", .str "gpt"), ("choices", .arr [])])),
   .done]

/-- A stream whose first frame has no `created`. -/
def demoNoCreatedLines : List StreamLine :=
  [.data (some (.obj [("id", .str "c1"), ("model", .str "gpt"), ("choices", .arr [])])),
   .done]

/-- A stream whose first frame has the `system_fingerprint` `null`. -/
def demoNullFingerprintLines : List StreamLine :=
  [.data (some (.obj [("id", .str "c1"), ("created", .num 1), ("model", .str "gpt"),
     ("system_fingerprint", .null),
     ("choices", .arr [.obj [("index", .num 0), ("delta", .obj [("content", .str "Hi")])]])])),
   .done]

/-- A stream with a frame whose first choice is a string. -/
def demoChoiceNotObjectLines : List StreamLine :=
  [.data (some (demoFrame [("content", .str "Hi")] [])),
   .data (some (.obj [("id", .str "c1"), ("created", .num 1), ("model", .str "gpt"),
     ("choices", .arr [.str "x"])])),
   .done]

/-- A stream with a tool-call fragment that has no `index`. -/
def demoNoIndexLines : List StreamLine :=
  [.data (some (demoFrame [("tool_calls", .arr [.obj [("id", .str "call_1")]])] [])),
   .done]

/-- A completion marked as a thought whose content has the closing tag before the
opening tag. -/
def demoTagsReversed : JVal :=
  .obj [("id", .str "c1"),
    ("choices", .arr [.obj [("index", .num 0),
      ("message", .obj [("role", .str "assistant"),
        ("content", .str "</thought>x<thought>"),
        ("extra_content", .obj [("google", .obj [("thought", .bool true)])])])]])]

/-- A completion marked as a thought whose content has the two tags in order. -/
def demoTagsInOrder : JVal :=
  .obj [("id", .str "c1"),
    ("choices", .arr [.obj [("index", .num 0),
      ("message", .obj [("role", .str "assistant"),
        ("content", .str "a<thought>b</thought>c"),
        ("extra_content", .obj [("google", .obj [("thought", .bool true)])])])]])]

/-- A tool-call fragment whose index is 2^63, with the arguments `ab`. -/
def demoFragmentBeyondInt : JVal :=
  .obj [("index", .num 9223372036854775808), ("function", .obj [("arguments", .str "ab")])]

/-- A tool-call fragment whose index is 10^19, with the id `call_1`. -/
def demoFragmentHuge : JVal :=
  .obj [("index", .num 10000000000000000000), ("id", .str "call_1")]

/-! ## Lemmas on candidate selection and rotation -/

theorem foldl_appendIfCandidate (modelName : String) (allModels acc : List Model) :
    allModels.foldl (appendIfCandidate modelName) acc =
      acc ++ allModels.filter (fun m => decide (m.Name = modelName ∧ m.Enabled = true)) := by
  induction allModels generalizing acc with
  | nil => simp
  | cons m rest ih =>
    by_cases h : m.Name = modelName ∧ m.Enabled = true
    · simp [List.foldl_cons, appendIfCandidate, ih, h, List.filter_cons]
    · simp [List.foldl_cons, appendIfCandidate, ih, h, List.filter_cons]

theorem filterModels_eq_filter (allModels : List Model) (modelName : String)
    (customProviderNames : List String) :
    filterModels allModels modelName customProviderNames =
      allModels.filter (fun m => decide (m.Name = modelName ∧ m.Enabled = true)) := by
  unfold filterModels
  split <;> simp [foldl_appendIfCandidate]

theorem filterModels_names_irrelevant (allModels : List Model) (modelName : String)
    (names names2 : List String) :
    filterModels allModels modelName names = filterModels allModels modelName names2 := by
  rw [filterModels_eq_filter, filterModels_eq_filter]

/-- What the handler does once the model name is known and a candidate exists. -/
theorem handler_selects (cfg : Config) (factory : FactoryLookup) (attempt : Attempt)
    (cursors : CursorMap) (rawJson : JVal) (names : List String) (modelName : String)
    (hname : gjsonGet rawJson ["model"] = some (.str modelName))
    (hne : (filterModels cfg.Models modelName []).length ≠ 0) :
    let r := ChatCompletionHandler cfg factory attempt cursors rawJson names
    let providerModels := filterModels cfg.Models modelName []
    let key := loadBalanceKey modelName names
    r.startIndex = some (cursors key) ∧
    r.order = reorderModels providerModels (cursors key) ∧
    r.cursors = cursors.store key ((cursors key + 1) % providerModels.length) ∧
    r.attempts = (dispatchLoop factory attempt (reorderModels providerModels (cursors key)) 0
      rawJson none ⟨[], []⟩).attempts ∧
    r.actions = (dispatchLoop factory attempt (reorderModels providerModels (cursors key)) 0
      rawJson none ⟨[], []⟩).actions := by
  intro r providerModels key
  have hf : filterModels cfg.Models modelName names = providerModels :=
    filterModels_names_irrelevant _ _ _ _
  have hne2 : ¬ providerModels.length = 0 := hne
  simp only [r, ChatCompletionHandler, hname, resultType, JVal.gtype, resultString, hf,
    ne_eq, not_true_eq_false, if_false, hne2, key]
  simp

theorem store_same (m : CursorMap) (key : String) (value : Nat) :
    m.store key value key = value := by
  simp [CursorMap.store]

theorem store_other (m : CursorMap) (key k : String) (value : Nat) (h : k ≠ key) :
    m.store key value k = m k := by
  simp [CursorMap.store, h]

/-- Start indices and candidate orders of consecutive requests under one key. -/
theorem serveAll_rotation (cfg : Config) (factory : FactoryLookup) (modelName K : String)
    (hne : (filterModels cfg.Models modelName []).length ≠ 0)
    (reqs : List ChatRequest) (cursors : CursorMap)
    (hc : cursors K < (filterModels cfg.Models modelName []).length)
    (hname : ∀ rq ∈ reqs, gjsonGet rq.rawJson ["model"] = some (.str modelName))
    (hkey : ∀ rq ∈ reqs, loadBalanceKey modelName rq.customProviderNames = K) :
    (serveAll cfg factory cursors reqs).map (fun r => (r.startIndex, r.order)) =
      (List.range reqs.length).map (fun k =>
        (some ((cursors K + k) % (filterModels cfg.Models modelName []).length),
         reorderModels (filterModels cfg.Models modelName [])
          ((cursors K + k) % (filterModels cfg.Models modelName []).length))) := by
  induction reqs generalizing cursors with
  | nil => simp [serveAll]
  | cons rq rest ih =>
    have h1 := handler_selects cfg factory rq.attempt cursors rq.rawJson rq.customProviderNames
      modelName (hname rq (List.mem_cons_self _ _)) hne
    simp only [hkey rq (List.mem_cons_self _ _)] at h1
    obtain ⟨hs, ho, hcur, -, -⟩ := h1
    have hpos : 0 < (filterModels cfg.Models modelName []).length := Nat.pos_of_ne_zero hne
    have hK : (ChatCompletionHandler cfg factory rq.attempt cursors rq.rawJson
        rq.customProviderNames).cursors K =
        (cursors K + 1) % (filterModels cfg.Models modelName []).length := by
      rw [hcur, store_same]
    have ih2 := ih (ChatCompletionHandler cfg factory rq.attempt cursors rq.rawJson
        rq.customProviderNames).cursors (by rw [hK]; exact Nat.mod_lt _ hpos)
      (fun r hr => hname r (List.mem_cons_of_mem _ hr))
      (fun r hr => hkey r (List.mem_cons_of_mem _ hr))
    simp only [serveAll, List.map_cons, List.length_cons, List.range_succ_eq_map, ih2, hs, ho,
      hK, List.map_map, Function.comp_def, Nat.add_zero, Nat.mod_eq_of_lt hc]
    congr 1
    apply List.map_congr_left
    intro k _
    have : ((cursors K + 1) % (filterModels cfg.Models modelName []).length + k) %
        (filterModels cfg.Models modelName []).length =
        (cursors K + (k + 1)) % (filterModels cfg.Models modelName []).length := by
      rw [Nat.add_mod, Nat.mod_mod, ← Nat.add_mod]; congr 1; omega
    rw [this]

theorem range_filterMap_getElem? {α : Type} (L : List α) (n : Nat) (hn : n ≤ L.length) :
    (List.range n).filterMap (fun i => L[i]?) = L.take n := by
  induction n with
  | zero => simp
  | succ n ih =>
    have hlt : n < L.length := hn
    rw [List.range_succ, List.filterMap_append, ih (Nat.le_of_lt hlt), List.take_succ]
    simp [List.getElem?_eq_getElem hlt]

/-- The reordered list is the candidate list rotated by the start index. -/
theorem reorderModels_eq_rotate (l : List Model) (s : Nat) :
    reorderModels l s = l.rotate s := by
  unfold reorderModels
  have h : ∀ i ∈ List.range l.length,
      l[(s + i) % l.length]? = (l.rotate s)[i]? := by
    intro i hi
    rw [List.getElem?_rotate (List.mem_range.mp hi), Nat.add_comm]
  rw [List.filterMap_congr h]
  have := range_filterMap_getElem? (l.rotate s) l.length (by simp)
  rw [this, List.take_of_length_le (by simp)]

theorem shifted_range_perm (N c : Nat) :
    ((List.range N).map (fun k => (c + k) % N)).Perm (List.range N) := by
  have h : (List.range N).map (fun k => (c + k) % N) = (List.range N).rotate c := by
    apply List.ext_getElem
    · simp
    · intro i h1 h2
      have hi : i < N := by simpa using h1
      rw [List.getElem_rotate]
      simp [Nat.add_comm]
  rw [h]
  exact List.rotate_perm _ _

/-! ## Lemmas on the dispatch loop -/

/-- The accumulator of the loop is only ever extended. -/
theorem dispatchLoop_acc (factory : FactoryLookup) (attempt : Attempt) (cands : List Model) :
    ∀ (i : Nat) (rawJson : JVal) (fe : Option String) (done : DispatchResult),
      dispatchLoop factory attempt cands i rawJson fe done =
        ⟨done.attempts ++ (dispatchLoop factory attempt cands i rawJson fe ⟨[], []⟩).attempts,
         done.actions ++ (dispatchLoop factory attempt cands i rawJson fe ⟨[], []⟩).actions⟩ := by
  induction cands with
  | nil =>
    intro i rawJson fe done
    cases fe <;> simp [dispatchLoop]
  | cons model rest ih =>
    intro i rawJson fe done
    cases factory with
    | missing => simpa [dispatchLoop] using ih (i + 1) rawJson _ done
    | failing e => simpa [dispatchLoop] using ih (i + 1) rawJson _ done
    | working =>
      cases hth : applyThinking model rawJson with
      | error e => simp [dispatchLoop, hth]
      | ok rawJson1 =>
        cases herr : (attempt i (prepareRequest model rawJson1).1 model
            (prepareRequest model rawJson1).2).err with
        | none => simp [dispatchLoop, hth, herr]
        | some e =>
          simp only [dispatchLoop, hth, herr]
          rw [ih (i + 1) _ _ ⟨_, _⟩, ih (i + 1) _ _ ⟨[] ++ _, [] ++ _⟩]
          simp

/-- Without a provider instance no candidate is attempted. -/
theorem dispatchLoop_no_factory (factory : FactoryLookup) (attempt : Attempt)
    (hf : factory ≠ .working) (cands : List Model) :
    ∀ (i : Nat) (rawJson : JVal) (fe : Option String),
      (dispatchLoop factory attempt cands i rawJson fe ⟨[], []⟩).attempts = [] := by
  induction cands with
  | nil => intro i rawJson fe; cases fe <;> simp [dispatchLoop]
  | cons model rest ih =>
    intro i rawJson fe
    cases factory with
    | missing => simpa [dispatchLoop] using ih (i + 1) rawJson _
    | failing e => simpa [dispatchLoop] using ih (i + 1) rawJson _
    | working => exact absurd rfl hf

/-- One iteration that fails: the record of the attempt, then the rest of the loop. -/
theorem dispatchLoop_step_failed (attempt : Attempt) (model : Model) (rest : List Model)
    (i : Nat) (rawJson rawJson1 : JVal) (fe : Option String) (e : String)
    (hth : applyThinking model rawJson = .ok rawJson1)
    (herr : (attempt i (prepareRequest model rawJson1).1 model
      (prepareRequest model rawJson1).2).err = some e) :
    dispatchLoop .working attempt (model :: rest) i rawJson fe ⟨[], []⟩ =
      ⟨⟨i, model, (prepareRequest model rawJson1).1, (prepareRequest model rawJson1).2, some e⟩ ::
          (dispatchLoop .working attempt rest (i + 1) (prepareRequest model rawJson1).2 (some e)
            ⟨[], []⟩).attempts,
        .write (attempt i (prepareRequest model rawJson1).1 model
            (prepareRequest model rawJson1).2).written ::
          (dispatchLoop .working attempt rest (i + 1) (prepareRequest model rawJson1).2 (some e)
            ⟨[], []⟩).actions⟩ := by
  simp only [dispatchLoop, hth, herr]
  rw [dispatchLoop_acc]
  simp

/-- One iteration that succeeds ends the loop. -/
theorem dispatchLoop_step_ok (attempt : Attempt) (model : Model) (rest : List Model)
    (i : Nat) (rawJson rawJson1 : JVal) (fe : Option String)
    (hth : applyThinking model rawJson = .ok rawJson1)
    (herr : (attempt i (prepareRequest model rawJson1).1 model
      (prepareRequest model rawJson1).2).err = none) :
    dispatchLoop .working attempt (model :: rest) i rawJson fe ⟨[], []⟩ =
      ⟨[⟨i, model, (prepareRequest model rawJson1).1, (prepareRequest model rawJson1).2, none⟩],
        [.write (attempt i (prepareRequest model rawJson1).1 model
            (prepareRequest model rawJson1).2).written]⟩ := by
  simp [dispatchLoop, hth, herr]

/-- A failed translation of the envelope ends the loop with status 500. -/
theorem dispatchLoop_step_abort (attempt : Attempt) (model : Model) (rest : List Model)
    (i : Nat) (rawJson : JVal) (fe : Option String) (e : String)
    (hth : applyThinking model rawJson = .error e) :
    dispatchLoop .working attempt (model :: rest) i rawJson fe ⟨[], []⟩ =
      ⟨[], [.json 500 (errorBody "request body error" 500)]⟩ := by
  simp [dispatchLoop, hth]

/-- The trace of the loop: positions and candidates in list order without gaps,
an error on every attempt but the last, and the recorded outcome is the outcome of
the attempt. -/
theorem dispatchLoop_trace (factory : FactoryLookup) (attempt : Attempt) (cands : List Model) :
    ∀ (i : Nat) (rawJson : JVal) (fe : Option String),
      ((dispatchLoop factory attempt cands i rawJson fe ⟨[], []⟩).attempts.map
          (fun a => (a.position, a.model)) =
        (cands.enumFrom i).take
          (dispatchLoop factory attempt cands i rawJson fe ⟨[], []⟩).attempts.length) ∧
      (∀ a ∈ (dispatchLoop factory attempt cands i rawJson fe ⟨[], []⟩).attempts.dropLast,
        a.err ≠ none) ∧
      (∀ a ∈ (dispatchLoop factory attempt cands i rawJson fe ⟨[], []⟩).attempts,
        a.err = (attempt a.position a.stream a.model a.request).err) := by
  induction cands with
  | nil => intro i rawJson fe; cases fe <;> simp [dispatchLoop]
  | cons model rest ih =>
    intro i rawJson fe
    by_cases hf : factory = .working
    · subst hf
      cases hth : applyThinking model rawJson with
      | error e => rw [dispatchLoop_step_abort attempt model rest i rawJson fe e hth]; simp
      | ok rawJson1 =>
        cases herr : (attempt i (prepareRequest model rawJson1).1 model
            (prepareRequest model rawJson1).2).err with
        | none =>
          rw [dispatchLoop_step_ok attempt model rest i rawJson rawJson1 fe hth herr]
          simp [List.enumFrom_cons, herr]
        | some e =>
          rw [dispatchLoop_step_failed attempt model rest i rawJson rawJson1 fe e hth herr]
          obtain ⟨h1, h2, h3⟩ := ih (i + 1) (prepareRequest model rawJson1).2 (some e)
          refine ⟨?_, ?_, ?_⟩
          · simp only [List.map_cons, List.length_cons, List.enumFrom_cons, List.take_succ_cons]
            rw [h1]
          · intro a ha
            by_cases hnil : (dispatchLoop .working attempt rest (i + 1)
                (prepareRequest model rawJson1).2 (some e) ⟨[], []⟩).attempts = []
            · simp [hnil] at ha
            · rw [List.dropLast_cons_of_ne_nil hnil] at ha
              rcases List.mem_cons.mp ha with h | h
              · subst h; simp
              · exact h2 a h
          · intro a ha
            rcases List.mem_cons.mp ha with h | h
            · subst h; simp [herr]
            · exact h3 a h
    · rw [dispatchLoop_no_factory factory attempt hf]; simp

/-- The loop never makes more attempts than there are candidates. -/
theorem dispatchLoop_attempts_le (factory : FactoryLookup) (attempt : Attempt)
    (cands : List Model) (i : Nat) (rawJson : JVal) (fe : Option String) :
    (dispatchLoop factory attempt cands i rawJson fe ⟨[], []⟩).attempts.length ≤
      cands.length := by
  have h := congrArg List.length (dispatchLoop_trace factory attempt cands i rawJson fe).1
  simp only [List.length_map, List.length_take, List.enumFrom_length] at h
  omega

/-- The loop stops early only after a success, after a failed translation of the
envelope, or when there is no provider instance. -/
theorem dispatchLoop_progress (factory : FactoryLookup) (attempt : Attempt)
    (cands : List Model) :
    ∀ (i : Nat) (rawJson : JVal) (fe : Option String),
      (dispatchLoop factory attempt cands i rawJson fe ⟨[], []⟩).attempts.length = cands.length ∨
      (∃ a, (dispatchLoop factory attempt cands i rawJson fe ⟨[], []⟩).attempts.getLast? = some a ∧
        a.err = none) ∨
      (dispatchLoop factory attempt cands i rawJson fe ⟨[], []⟩).actions.getLast? =
        some (.json 500 (errorBody "request body error" 500)) ∨
      factory ≠ .working := by
  induction cands with
  | nil => intro i rawJson fe; left; cases fe <;> simp [dispatchLoop]
  | cons model rest ih =>
    intro i rawJson fe
    by_cases hf : factory = .working
    · subst hf
      cases hth : applyThinking model rawJson with
      | error e =>
        rw [dispatchLoop_step_abort attempt model rest i rawJson fe e hth]
        right; right; left; simp
      | ok rawJson1 =>
        cases herr : (attempt i (prepareRequest model rawJson1).1 model
            (prepareRequest model rawJson1).2).err with
        | none =>
          rw [dispatchLoop_step_ok attempt model rest i rawJson rawJson1 fe hth herr]
          right; left; simp
        | some e =>
          rw [dispatchLoop_step_failed attempt model rest i rawJson rawJson1 fe e hth herr]
          rcases ih (i + 1) (prepareRequest model rawJson1).2 (some e) with h | h | h | h
          · left; simp [h]
          · right; left
            obtain ⟨a, ha, hae⟩ := h
            refine ⟨a, ?_, hae⟩
            rw [List.getLast?_cons, ha]; rfl
          · right; right; left
            rw [List.getLast?_cons, h]; rfl
          · exact absurd rfl h
    · right; right; right; exact hf

/-- When every candidate has been attempted and has failed, the response is the
bytes written by the attempts followed by the 503 answer carrying the error of the
last attempt. -/
theorem dispatchLoop_all_failed (factory : FactoryLookup) (attempt : Attempt)
    (cands : List Model) :
    ∀ (i : Nat) (rawJson : JVal) (fe : Option String),
      (dispatchLoop factory attempt cands i rawJson fe ⟨[], []⟩).attempts.length = cands.length →
      (∀ a ∈ (dispatchLoop factory attempt cands i rawJson fe ⟨[], []⟩).attempts, a.err ≠ none) →
      (dispatchLoop factory attempt cands i rawJson fe ⟨[], []⟩).actions =
        (dispatchLoop factory attempt cands i rawJson fe ⟨[], []⟩).attempts.map
            (fun a => ResponseAction.write (attempt a.position a.stream a.model a.request).written) ++
          (match ((dispatchLoop factory attempt cands i rawJson fe ⟨[], []⟩).attempts.getLast?.map
              (fun a => a.err)).getD fe with
            | some e => [.json 503 (nestedErrorBody ("All providers failed: " ++ e) 503)]
            | none => []) := by
  induction cands with
  | nil => intro i rawJson fe _ _; cases fe <;> simp [dispatchLoop]
  | cons model rest ih =>
    intro i rawJson fe hlen hfail
    by_cases hf : factory = .working
    · subst hf
      cases hth : applyThinking model rawJson with
      | error e =>
        rw [dispatchLoop_step_abort attempt model rest i rawJson fe e hth] at hlen
        simp at hlen
      | ok rawJson1 =>
        cases herr : (attempt i (prepareRequest model rawJson1).1 model
            (prepareRequest model rawJson1).2).err with
        | none =>
          rw [dispatchLoop_step_ok attempt model rest i rawJson rawJson1 fe hth herr] at hfail
          simp at hfail
        | some e =>
          rw [dispatchLoop_step_failed attempt model rest i rawJson rawJson1 fe e hth herr]
            at hlen hfail ⊢
          have hlen2 : (dispatchLoop .working attempt rest (i + 1)
              (prepareRequest model rawJson1).2 (some e) ⟨[], []⟩).attempts.length =
              rest.length := by simpa using hlen
          have ih2 := ih (i + 1) (prepareRequest model rawJson1).2 (some e) hlen2
            (fun a ha => hfail a (List.mem_cons_of_mem _ ha))
          simp only [List.map_cons, List.cons_append, List.getLast?_cons]
          rw [ih2]
          cases (dispatchLoop .working attempt rest (i + 1)
              (prepareRequest model rawJson1).2 (some e) ⟨[], []⟩).attempts.getLast? <;> simp
    · rw [dispatchLoop_no_factory factory attempt hf] at hlen
      simp at hlen

/-- The handler either answers before the loop (no rotated list) or its attempts and
response are those of the loop over the rotated list. -/
theorem handler_runs_loop (cfg : Config) (factory : FactoryLookup) (attempt : Attempt)
    (cursors : CursorMap) (rawJson : JVal) (names : List String) :
    (ChatCompletionHandler cfg factory attempt cursors rawJson names).order = [] ∨
    ((ChatCompletionHandler cfg factory attempt cursors rawJson names).attempts =
        (dispatchLoop factory attempt
          (ChatCompletionHandler cfg factory attempt cursors rawJson names).order 0 rawJson none
          ⟨[], []⟩).attempts ∧
      (ChatCompletionHandler cfg factory attempt cursors rawJson names).actions =
        (dispatchLoop factory attempt
          (ChatCompletionHandler cfg factory attempt cursors rawJson names).order 0 rawJson none
          ⟨[], []⟩).actions) := by
  unfold ChatCompletionHandler
  simp only
  split
  · left; rfl
  · split
    · left; rfl
    · right; exact ⟨rfl, rfl⟩

/-! ## Lemmas on documents -/

theorem lookupKey_eq_none_iff (k : String) (kvs : List (String × JVal)) :
    lookupKey k kvs = none ↔ k ∉ kvs.map Prod.fst := by
  induction kvs with
  | nil => simp [lookupKey]
  | cons kv rest ih =>
    obtain ⟨k', v⟩ := kv
    by_cases h : k' = k
    · simp [lookupKey, h]
    · simp [lookupKey, h, ih, Ne.symm h]

theorem lookupKey_eraseKey_ne (k k' : String) (kvs : List (String × JVal)) (h : k ≠ k') :
    lookupKey k (eraseKey k' kvs) = lookupKey k kvs := by
  induction kvs with
  | nil => simp [eraseKey]
  | cons kv rest ih =>
    obtain ⟨k0, v⟩ := kv
    by_cases h1 : k0 = k'
    · have : k0 ≠ k := by rw [h1]; exact Ne.symm h
      simp [eraseKey, lookupKey, h1, this, Ne.symm h]
    · by_cases h2 : k0 = k
      · subst h2; simp [eraseKey, lookupKey, h]
      · simp [eraseKey, lookupKey, h1, h2, ih]

theorem lookupKey_eraseKey_self (k : String) (kvs : List (String × JVal))
    (hnd : (kvs.map Prod.fst).Nodup) : lookupKey k (eraseKey k kvs) = none := by
  induction kvs with
  | nil => simp [eraseKey, lookupKey]
  | cons kv rest ih =>
    obtain ⟨k0, v⟩ := kv
    simp only [List.map_cons, List.nodup_cons] at hnd
    by_cases h1 : k0 = k
    · subst h1
      simp only [eraseKey, if_true]
      exact (lookupKey_eq_none_iff _ _).mpr hnd.1
    · simp [eraseKey, lookupKey, h1, ih hnd.2]

theorem eraseKey_keys_sublist (k : String) (kvs : List (String × JVal)) :
    ((eraseKey k kvs).map Prod.fst).Sublist (kvs.map Prod.fst) := by
  induction kvs with
  | nil => simp [eraseKey]
  | cons kv rest ih =>
    obtain ⟨k0, v⟩ := kv
    by_cases h1 : k0 = k
    · simp [eraseKey, h1]
    · simpa [eraseKey, h1] using ih

theorem replaceKey_keys (k : String) (v : JVal) (kvs : List (String × JVal)) :
    (replaceKey k v kvs).map Prod.fst = kvs.map Prod.fst := by
  induction kvs with
  | nil => simp [replaceKey]
  | cons kv rest ih =>
    obtain ⟨k0, v0⟩ := kv
    by_cases h1 : k0 = k
    · simp [replaceKey, h1]
    · simp [replaceKey, h1, ih]

theorem lookupKey_replaceKey_self (k : String) (v : JVal) (kvs : List (String × JVal))
    (h : lookupKey k kvs ≠ none) : lookupKey k (replaceKey k v kvs) = some v := by
  induction kvs with
  | nil => simp [lookupKey] at h
  | cons kv rest ih =>
    obtain ⟨k0, v0⟩ := kv
    by_cases h1 : k0 = k
    · simp [replaceKey, lookupKey, h1]
    · simp only [lookupKey, h1, if_false] at h
      simp [replaceKey, lookupKey, h1, ih h]

theorem lookupKey_replaceKey_ne (k k' : String) (v : JVal) (kvs : List (String × JVal))
    (h : k ≠ k') : lookupKey k (replaceKey k' v kvs) = lookupKey k kvs := by
  induction kvs with
  | nil => simp [replaceKey]
  | cons kv rest ih =>
    obtain ⟨k0, v0⟩ := kv
    by_cases h1 : k0 = k'
    · have : k0 ≠ k := by rw [h1]; exact Ne.symm h
      simp [replaceKey, lookupKey, h1, this, Ne.symm h]
    · by_cases h2 : k0 = k
      · subst h2; simp [replaceKey, lookupKey, h]
      · simp [replaceKey, lookupKey, h1, h2, ih]

theorem lookupKey_append_new (k : String) (v : JVal) (kvs : List (String × JVal))
    (h : lookupKey k kvs = none) : lookupKey k (kvs ++ [(k, v)]) = some v := by
  induction kvs with
  | nil => simp [lookupKey]
  | cons kv rest ih =>
    obtain ⟨k0, v0⟩ := kv
    by_cases h1 : k0 = k
    · simp [lookupKey, h1] at h
    · simp only [lookupKey, h1, if_false] at h
      simp [lookupKey, h1, ih h]

theorem lookupKey_append_ne (k k' : String) (v : JVal) (kvs : List (String × JVal))
    (h : k ≠ k') : lookupKey k (kvs ++ [(k', v)]) = lookupKey k kvs := by
  induction kvs with
  | nil => simp [lookupKey, Ne.symm h]
  | cons kv rest ih =>
    obtain ⟨k0, v0⟩ := kv
    by_cases h1 : k0 = k
    · simp [lookupKey, h1]
    · simp [lookupKey, h1, ih]

theorem eraseKey_eq_filter (k : String) (kvs : List (String × JVal))
    (hnd : (kvs.map Prod.fst).Nodup) :
    eraseKey k kvs = kvs.filter (fun kv => !decide (kv.1 = k)) := by
  induction kvs with
  | nil => simp [eraseKey]
  | cons kv rest ih =>
    obtain ⟨k0, v⟩ := kv
    simp only [List.map_cons, List.nodup_cons] at hnd
    by_cases h1 : k0 = k
    · subst h1
      have : rest.filter (fun kv => !decide (kv.1 = k0)) = rest := by
        rw [List.filter_eq_self]
        intro kv hkv
        have : kv.1 ≠ k0 := fun h => hnd.1 (h ▸ List.mem_map_of_mem Prod.fst hkv)
        simpa using this
      simp [eraseKey, List.filter_cons, this]
    · simp [eraseKey, List.filter_cons, h1, ih hnd.2]

theorem replaceKey_filter_ne (k : String) (v : JVal) (kvs : List (String × JVal)) :
    (replaceKey k v kvs).filter (fun kv => !decide (kv.1 = k)) =
      kvs.filter (fun kv => !decide (kv.1 = k)) := by
  induction kvs with
  | nil => simp [replaceKey]
  | cons kv rest ih =>
    obtain ⟨k0, v0⟩ := kv
    by_cases h1 : k0 = k
    · simp [replaceKey, List.filter_cons, h1]
    · simp [replaceKey, List.filter_cons, h1, ih]

theorem plainPath_cons (k : String) (ks : List String) :
    plainPath (k :: ks) = true ↔ pathIndex k = none ∧ plainPath ks = true := by
  simp [plainPath]

theorem gjsonGet_jbuild (p : List String) (x : JVal) (hp : plainPath p = true) :
    gjsonGet (jbuild p x) p = some x := by
  induction p with
  | nil => rfl
  | cons k ks ih =>
    obtain ⟨hk, hks⟩ := (plainPath_cons k ks).mp hp
    simp [jbuild, hk, gjsonGet, child, lookupKey, ih hks]

theorem gjsonGet_jbuild_diverge (r : List String) (k k' : String) (s t : List String)
    (x : JVal) (hp : plainPath (r ++ k :: s) = true) (hne : k ≠ k') :
    gjsonGet (jbuild (r ++ k :: s) x) (r ++ k' :: t) = none := by
  induction r with
  | nil =>
    obtain ⟨hk, -⟩ := (plainPath_cons k s).mp hp
    simp [jbuild, hk, gjsonGet, child, lookupKey, hne]
  | cons k0 r ih =>
    obtain ⟨hk, hr⟩ := (plainPath_cons k0 (r ++ k :: s)).mp hp
    simp [jbuild, hk, gjsonGet, child, lookupKey, ih hr]

theorem arrayOnPath_jbuild (r : List String) (a b : String) (x : JVal)
    (hp : plainPath (r ++ [a]) = true) :
    arrayOnPath (jbuild (r ++ [a]) x) (r ++ [b]) = false := by
  induction r with
  | nil =>
    obtain ⟨hk, -⟩ := (plainPath_cons a []).mp hp
    simp only [List.nil_append, jbuild, hk, arrayOnPath, child]
    cases lookupKey b [(a, x)] <;> simp [arrayOnPath]
  | cons k0 r ih =>
    obtain ⟨hk, hr⟩ := (plainPath_cons k0 (r ++ [a])).mp hp
    simp [jbuild, hk, arrayOnPath, child, lookupKey, ih hr]

/-- Setting a path of member names succeeds when no array is met on the way, and
the value is then found at the path. -/
theorem sjsonSet_get (p : List String) (x : JVal) (hp : plainPath p = true) :
    ∀ v : JVal, arrayOnPath v p = false →
      ∃ v', sjsonSet v p x = .ok v' ∧ gjsonGet v' p = some x := by
  induction p with
  | nil => intro v _; exact ⟨x, rfl, rfl⟩
  | cons k ks ih =>
    obtain ⟨hk, hks⟩ := (plainPath_cons k ks).mp hp
    intro v hv
    cases v with
    | obj kvs =>
      cases hl : lookupKey k kvs with
      | none =>
        refine ⟨.obj (kvs ++ [(k, jbuild ks x)]), by simp [sjsonSet, hl], ?_⟩
        simp [gjsonGet, child, lookupKey_append_new k _ kvs hl, gjsonGet_jbuild ks x hks]
      | some c =>
        have hc : arrayOnPath c ks = false := by simpa [arrayOnPath, child, hl] using hv
        obtain ⟨c', hset, hget⟩ := ih hks c hc
        refine ⟨.obj (replaceKey k c' kvs), by simp [sjsonSet, hl, hset], ?_⟩
        have : lookupKey k (replaceKey k c' kvs) = some c' :=
          lookupKey_replaceKey_self k c' kvs (by simp [hl])
        simp [gjsonGet, child, this, hget]
    | arr xs => simp [arrayOnPath] at hv
    | null => exact ⟨_, by simp [sjsonSet], gjsonGet_jbuild (k :: ks) x hp⟩
    | bool b => exact ⟨_, by simp [sjsonSet], gjsonGet_jbuild (k :: ks) x hp⟩
    | num n => exact ⟨_, by simp [sjsonSet], gjsonGet_jbuild (k :: ks) x hp⟩
    | str s => exact ⟨_, by simp [sjsonSet], gjsonGet_jbuild (k :: ks) x hp⟩

/-- Setting a path of member names fails when an array is met on the way. -/
theorem sjsonSet_error (p : List String) (x : JVal) (hp : plainPath p = true) :
    ∀ v : JVal, arrayOnPath v p = true → ∃ e, sjsonSet v p x = .error e := by
  induction p with
  | nil => intro v hv; simp [arrayOnPath] at hv
  | cons k ks ih =>
    obtain ⟨hk, hks⟩ := (plainPath_cons k ks).mp hp
    intro v hv
    cases v with
    | obj kvs =>
      cases hl : lookupKey k kvs with
      | none => simp [arrayOnPath, child, hl] at hv
      | some c =>
        have hc : arrayOnPath c ks = true := by simpa [arrayOnPath, child, hl] using hv
        obtain ⟨e, he⟩ := ih hks c hc
        exact ⟨e, by simp [sjsonSet, hl, he]⟩
    | arr xs =>
      exact ⟨"cannot set array element for non-numeric key '" ++ k ++ "'",
        by simp [sjsonSet, hk]⟩
    | null => simp [arrayOnPath, child] at hv
    | bool b => simp [arrayOnPath, child] at hv
    | num n => simp [arrayOnPath, child] at hv
    | str s => simp [arrayOnPath, child] at hv

/-- Setting a path of member names changes nothing at a path that parts from it. -/
theorem sjsonSet_frame (r : List String) (k k' : String) (s t : List String) (x : JVal)
    (hp : plainPath (r ++ k :: s) = true) (hne : k ≠ k') :
    ∀ v v' : JVal, sjsonSet v (r ++ k :: s) x = .ok v' →
      gjsonGet v' (r ++ k' :: t) = gjsonGet v (r ++ k' :: t) := by
  induction r with
  | nil =>
    obtain ⟨hk, -⟩ := (plainPath_cons k s).mp hp
    intro v v' hset
    cases v with
    | obj kvs =>
      cases hl : lookupKey k kvs with
      | none =>
        simp only [List.nil_append, sjsonSet, hl, Except.ok.injEq] at hset
        subst hset
        simp [gjsonGet, child, lookupKey_append_ne k' k _ kvs (Ne.symm hne)]
      | some c =>
        simp only [List.nil_append, sjsonSet, hl] at hset
        cases hc : sjsonSet c s x with
        | error e => simp [hc] at hset
        | ok c' =>
          simp only [hc, Except.ok.injEq] at hset
          subst hset
          simp [gjsonGet, child, lookupKey_replaceKey_ne k' k c' kvs (Ne.symm hne)]
    | arr xs => simp [sjsonSet, hk] at hset
    | null =>
      simp only [List.nil_append, sjsonSet, Except.ok.injEq] at hset
      subst hset
      simp [jbuild, hk, gjsonGet, child, lookupKey, hne]
    | bool b =>
      simp only [List.nil_append, sjsonSet, Except.ok.injEq] at hset
      subst hset
      simp [jbuild, hk, gjsonGet, child, lookupKey, hne]
    | num n =>
      simp only [List.nil_append, sjsonSet, Except.ok.injEq] at hset
      subst hset
      simp [jbuild, hk, gjsonGet, child, lookupKey, hne]
    | str s0 =>
      simp only [List.nil_append, sjsonSet, Except.ok.injEq] at hset
      subst hset
      simp [jbuild, hk, gjsonGet, child, lookupKey, hne]
  | cons k0 r ih =>
    obtain ⟨hk, hr⟩ := (plainPath_cons k0 (r ++ k :: s)).mp hp
    intro v v' hset
    cases v with
    | obj kvs =>
      cases hl : lookupKey k0 kvs with
      | none =>
        simp only [List.cons_append, sjsonSet, hl, Except.ok.injEq] at hset
        subst hset
        simp [gjsonGet, child, lookupKey_append_new k0 _ kvs hl, hl,
          gjsonGet_jbuild_diverge r k k' s t x hr hne]
      | some c =>
        rw [List.cons_append] at hset
        simp only [sjsonSet, hl] at hset
        cases hc : sjsonSet c (r ++ k :: s) x with
        | error e => simp [hc] at hset
        | ok c' =>
          simp only [hc, Except.ok.injEq] at hset
          subst hset
          have : lookupKey k0 (replaceKey k0 c' kvs) = some c' :=
            lookupKey_replaceKey_self k0 c' kvs (by simp [hl])
          simp [gjsonGet, child, this, hl, ih hr c c' hc]
    | arr xs => simp [sjsonSet, hk] at hset
    | null =>
      simp only [List.cons_append, sjsonSet, Except.ok.injEq] at hset
      subst hset
      have := gjsonGet_jbuild_diverge (k0 :: r) k k' s t x hp hne
      simpa [gjsonGet, child] using this
    | bool b =>
      simp only [List.cons_append, sjsonSet, Except.ok.injEq] at hset
      subst hset
      have := gjsonGet_jbuild_diverge (k0 :: r) k k' s t x hp hne
      simpa [gjsonGet, child] using this
    | num n =>
      simp only [List.cons_append, sjsonSet, Except.ok.injEq] at hset
      subst hset
      have := gjsonGet_jbuild_diverge (k0 :: r) k k' s t x hp hne
      simpa [gjsonGet, child] using this
    | str s0 =>
      simp only [List.cons_append, sjsonSet, Except.ok.injEq] at hset
      subst hset
      have := gjsonGet_jbuild_diverge (k0 :: r) k k' s t x hp hne
      simpa [gjsonGet, child] using this

/-- After a value has been set at a path of member names, no array stands on the
way to a sibling of that path. -/
theorem arrayOnPath_after_set (r : List String) (a b : String) (x : JVal)
    (hp : plainPath (r ++ [a]) = true) :
    ∀ v v' : JVal, sjsonSet v (r ++ [a]) x = .ok v' → arrayOnPath v' (r ++ [b]) = false := by
  induction r with
  | nil =>
    obtain ⟨hk, -⟩ := (plainPath_cons a []).mp hp
    intro v v' hset
    cases v with
    | obj kvs =>
      have hobj : ∃ kvs', v' = .obj kvs' := by
        cases hl : lookupKey a kvs with
        | none => simp only [List.nil_append, sjsonSet, hl, Except.ok.injEq] at hset; exact ⟨_, hset.symm⟩
        | some c => simp only [List.nil_append, sjsonSet, hl, Except.ok.injEq] at hset; exact ⟨_, hset.symm⟩
      obtain ⟨kvs', rfl⟩ := hobj
      simp only [List.nil_append, arrayOnPath, child]
      cases lookupKey b kvs' <;> simp [arrayOnPath]
    | arr xs => simp [sjsonSet, hk] at hset
    | null =>
      simp only [List.nil_append, sjsonSet, Except.ok.injEq] at hset
      subst hset; exact arrayOnPath_jbuild [] a b x hp
    | bool b0 =>
      simp only [List.nil_append, sjsonSet, Except.ok.injEq] at hset
      subst hset; exact arrayOnPath_jbuild [] a b x hp
    | num n =>
      simp only [List.nil_append, sjsonSet, Except.ok.injEq] at hset
      subst hset; exact arrayOnPath_jbuild [] a b x hp
    | str s0 =>
      simp only [List.nil_append, sjsonSet, Except.ok.injEq] at hset
      subst hset; exact arrayOnPath_jbuild [] a b x hp
  | cons k0 r ih =>
    obtain ⟨hk, hr⟩ := (plainPath_cons k0 (r ++ [a])).mp hp
    intro v v' hset
    cases v with
    | obj kvs =>
      cases hl : lookupKey k0 kvs with
      | none =>
        simp only [List.cons_append, sjsonSet, hl, Except.ok.injEq] at hset
        subst hset
        simp [arrayOnPath, child, lookupKey_append_new k0 _ kvs hl,
          arrayOnPath_jbuild r a b x hr]
      | some c =>
        rw [List.cons_append] at hset
        simp only [sjsonSet, hl] at hset
        cases hc : sjsonSet c (r ++ [a]) x with
        | error e => simp [hc] at hset
        | ok c' =>
          simp only [hc, Except.ok.injEq] at hset
          subst hset
          have : lookupKey k0 (replaceKey k0 c' kvs) = some c' :=
            lookupKey_replaceKey_self k0 c' kvs (by simp [hl])
          simp [arrayOnPath, child, this, ih hr c c' hc]
    | arr xs => simp [sjsonSet, hk] at hset
    | null =>
      simp only [List.cons_append, sjsonSet, Except.ok.injEq] at hset
      subst hset; exact arrayOnPath_jbuild (k0 :: r) a b x hp
    | bool b0 =>
      simp only [List.cons_append, sjsonSet, Except.ok.injEq] at hset
      subst hset; exact arrayOnPath_jbuild (k0 :: r) a b x hp
    | num n =>
      simp only [List.cons_append, sjsonSet, Except.ok.injEq] at hset
      subst hset; exact arrayOnPath_jbuild (k0 :: r) a b x hp
    | str s0 =>
      simp only [List.cons_append, sjsonSet, Except.ok.injEq] at hset
      subst hset; exact arrayOnPath_jbuild (k0 :: r) a b x hp

theorem gjsonGet_delete_ne (v : JVal) (k k' : String) (t : List String)
    (hk : pathIndex k = none) (h : k' ≠ k) :
    gjsonGet (sjsonDelete v [k]) (k' :: t) = gjsonGet v (k' :: t) := by
  cases v with
  | obj kvs => simp [sjsonDelete, gjsonGet, child, lookupKey_eraseKey_ne k' k kvs h]
  | arr xs => simp [sjsonDelete, hk]
  | null => simp [sjsonDelete]
  | bool b => simp [sjsonDelete]
  | num n => simp [sjsonDelete]
  | str s => simp [sjsonDelete]

theorem gjsonGet_delete_self (v : JVal) (k : String) (hk : pathIndex k = none)
    (hd : v.DistinctKeys) : gjsonGet (sjsonDelete v [k]) [k] = none := by
  cases v with
  | obj kvs =>
    have : lookupKey k (eraseKey k kvs) = none := lookupKey_eraseKey_self k kvs hd
    simp [sjsonDelete, gjsonGet, child, this]
  | arr xs => simp [sjsonDelete, hk, gjsonGet, child]
  | null => simp [sjsonDelete, gjsonGet, child]
  | bool b => simp [sjsonDelete, gjsonGet, child]
  | num n => simp [sjsonDelete, gjsonGet, child]
  | str s => simp [sjsonDelete, gjsonGet, child]

theorem arrayOnPath_delete_ne (v : JVal) (k k' : String) (t : List String)
    (hk : pathIndex k = none) (h : k' ≠ k) :
    arrayOnPath (sjsonDelete v [k]) (k' :: t) = arrayOnPath v (k' :: t) := by
  cases v with
  | obj kvs => simp [sjsonDelete, arrayOnPath, child, lookupKey_eraseKey_ne k' k kvs h]
  | arr xs => simp [sjsonDelete, hk]
  | null => simp [sjsonDelete]
  | bool b => simp [sjsonDelete]
  | num n => simp [sjsonDelete]
  | str s => simp [sjsonDelete]

/-- The edit `json, _ = sjson.SetBytes(json, path, value)` changes nothing at a path
that parts from the path set. -/
theorem sjsonSetIgnoreErr_frame (r : List String) (k k' : String) (s t : List String)
    (x v : JVal) (hp : plainPath (r ++ k :: s) = true) (hne : k ≠ k') :
    gjsonGet (sjsonSetIgnoreErr v (r ++ k :: s) x) (r ++ k' :: t) =
      gjsonGet v (r ++ k' :: t) := by
  unfold sjsonSetIgnoreErr
  cases h : sjsonSet v (r ++ k :: s) x with
  | error e => rfl
  | ok v' => exact sjsonSet_frame r k k' s t x hp hne v v' h

/-! ## Lemmas on the thinking translation -/

/-- One branch of the translation: it succeeds when no array stands on the way to
the thinking configuration, removes the hint, sets both fields and leaves every
other member of the envelope alone. -/
theorem setThinkingConfig_ok (rawJson : JVal) (budget : Int) (includeThoughts : Bool)
    (hd : rawJson.DistinctKeys) (hna : arrayOnPath rawJson thinkingBudgetPath = false) :
    ∃ r, setThinkingConfig rawJson budget includeThoughts = .ok r ∧
      gjsonGet r ["reasoning_effort"] = none ∧
      gjsonGet r thinkingBudgetPath = some (.num budget) ∧
      gjsonGet r includeThoughtsPath = some (.bool includeThoughts) ∧
      ∀ k' t, k' ≠ "reasoning_effort" → k' ≠ "extra_body" →
        gjsonGet r (k' :: t) = gjsonGet rawJson (k' :: t) := by
  have hre : pathIndex "reasoning_effort" = none := by decide
  have hpTB : plainPath thinkingBudgetPath = true := by decide
  have hpIT : plainPath includeThoughtsPath = true := by decide
  have hna1 : arrayOnPath (sjsonDelete rawJson ["reasoning_effort"]) thinkingBudgetPath = false := by
    rw [thinkingBudgetPath, arrayOnPath_delete_ne _ _ _ _ hre (by decide)]; exact hna
  obtain ⟨r1, hset1, hget1⟩ := sjsonSet_get thinkingBudgetPath (.num budget) hpTB _ hna1
  have hna2 : arrayOnPath r1 includeThoughtsPath = false :=
    arrayOnPath_after_set ["extra_body", "google", "thinking_config"] "thinking_budget"
      "include_thoughts" (.num budget) hpTB _ r1 hset1
  obtain ⟨r2, hset2, hget2⟩ := sjsonSet_get includeThoughtsPath (.bool includeThoughts) hpIT _ hna2
  refine ⟨r2, by simp [setThinkingConfig, hset1, hset2], ?_, ?_, hget2, ?_⟩
  · have h2 := sjsonSet_frame [] "extra_body" "reasoning_effort"
      ["google", "thinking_config", "include_thoughts"] [] (.bool includeThoughts) hpIT
      (by decide) r1 r2 hset2
    have h1 := sjsonSet_frame [] "extra_body" "reasoning_effort"
      ["google", "thinking_config", "thinking_budget"] [] (.num budget) hpTB
      (by decide) _ r1 hset1
    simp only [List.nil_append] at h1 h2
    rw [h2, h1]
    exact gjsonGet_delete_self rawJson "reasoning_effort" hre hd
  · have h2 := sjsonSet_frame ["extra_body", "google", "thinking_config"] "include_thoughts"
      "thinking_budget" [] [] (.bool includeThoughts) hpIT (by decide) r1 r2 hset2
    exact h2.trans hget1
  · intro k' t hk1 hk2
    have h2 := sjsonSet_frame [] "extra_body" k'
      ["google", "thinking_config", "include_thoughts"] t (.bool includeThoughts) hpIT
      (Ne.symm hk2) r1 r2 hset2
    have h1 := sjsonSet_frame [] "extra_body" k'
      ["google", "thinking_config", "thinking_budget"] t (.num budget) hpTB
      (Ne.symm hk2) _ r1 hset1
    simp only [List.nil_append] at h1 h2
    rw [h2, h1]
    exact gjsonGet_delete_ne rawJson "reasoning_effort" k' t hre hk1

/-- One branch of the translation fails when an array stands on the way to the
thinking configuration. -/
theorem setThinkingConfig_error (rawJson : JVal) (budget : Int) (includeThoughts : Bool)
    (hna : arrayOnPath rawJson thinkingBudgetPath = true) :
    ∃ e, setThinkingConfig rawJson budget includeThoughts = .error e := by
  have hre : pathIndex "reasoning_effort" = none := by decide
  have hna1 : arrayOnPath (sjsonDelete rawJson ["reasoning_effort"]) thinkingBudgetPath = true := by
    rw [thinkingBudgetPath, arrayOnPath_delete_ne _ _ _ _ hre (by decide)]; exact hna
  obtain ⟨e, he⟩ := sjsonSet_error thinkingBudgetPath (.num budget) (by decide) _ hna1
  exact ⟨e, by simp [setThinkingConfig, he]⟩

/-- The envelope handed to the attempt differs from the translated one only in
`model` and `stream_options`. -/
theorem prepareRequest_frame (model : Model) (rawJson : JVal) (k' : String) (t : List String)
    (h1 : k' ≠ "model") (h2 : k' ≠ "stream_options") :
    gjsonGet (prepareRequest model rawJson).2 (k' :: t) = gjsonGet rawJson (k' :: t) := by
  have hset := sjsonSetIgnoreErr_frame [] "model" k' [] t (.str model.ProviderModelName)
    rawJson (by decide) (Ne.symm h1)
  simp only [List.nil_append] at hset
  unfold prepareRequest
  simp only
  split
  · exact hset
  · rw [gjsonGet_delete_ne _ _ _ _ (by decide) h2]; exact hset

/-- For a hint of the table the translation is the branch with the budget and flag
of the table. -/
theorem translate_of_table (rawJson : JVal) (hint : String) (budget : Int)
    (includeThoughts : Bool) (htable : (hint, budget, includeThoughts) ∈ effortTable)
    (heffort : gjsonGet rawJson ["reasoning_effort"] = some (.str hint)) :
    translateReasoningEffort rawJson = setThinkingConfig rawJson budget includeThoughts := by
  simp only [effortTable, List.mem_cons, Prod.mk.injEq, List.mem_singleton, List.not_mem_nil,
    or_false] at htable
  rcases htable with ⟨rfl, rfl, rfl⟩ | ⟨rfl, rfl, rfl⟩ | ⟨rfl, rfl, rfl⟩ | ⟨rfl, rfl, rfl⟩ |
    ⟨rfl, rfl, rfl⟩ <;>
  simp [translateReasoningEffort, heffort, resultType, JVal.gtype, resultString]

/-! ## Lemmas on the upstream client -/

theorem resultType_null_iff (data : JVal) (k : String) :
    resultType (gjsonGet data [k]) = GType.Null ↔ ¬ hasNonNullField data k := by
  unfold hasNonNullField
  cases h : gjsonGet data [k] with
  | none => simp [resultType]
  | some v =>
    cases v with
    | null => simp [resultType, JVal.gtype]
    | bool b => cases b <;> simp [resultType, JVal.gtype]
    | num n => simp [resultType, JVal.gtype]
    | str s => simp [resultType, JVal.gtype]
    | arr xs => simp [resultType, JVal.gtype]
    | obj kvs => simp [resultType, JVal.gtype]

/-- The body edit of lines 147-150 on an object: its members after the edit. -/
theorem rewrite_object (kvs : List (String × JVal)) (name : String) :
    ∃ kvs', sjsonSetIgnoreErr (sjsonDelete (.obj kvs) ["provider"]) ["model"] (.str name) =
        .obj kvs' ∧
      lookupKey "model" kvs' = some (.str name) ∧
      (∀ k, k ≠ "model" → lookupKey k kvs' = lookupKey k (eraseKey "provider" kvs)) ∧
      kvs'.filter (fun kv => !decide (kv.1 = "model")) =
        (eraseKey "provider" kvs).filter (fun kv => !decide (kv.1 = "model")) := by
  cases hl : lookupKey "model" (eraseKey "provider" kvs) with
  | none =>
    refine ⟨eraseKey "provider" kvs ++ [("model", .str name)], ?_, ?_, ?_, ?_⟩
    · simp [sjsonSetIgnoreErr, sjsonDelete, sjsonSet, hl, jbuild]
    · exact lookupKey_append_new _ _ _ hl
    · intro k hk; exact lookupKey_append_ne k "model" _ _ hk
    · simp [List.filter_append]
  | some c =>
    refine ⟨replaceKey "model" (.str name) (eraseKey "provider" kvs), ?_, ?_, ?_, ?_⟩
    · simp [sjsonSetIgnoreErr, sjsonDelete, sjsonSet, hl]
    · exact lookupKey_replaceKey_self _ _ _ (by simp [hl])
    · intro k hk; exact lookupKey_replaceKey_ne k "model" _ _ hk
    · exact replaceKey_filter_ne _ _ _

/-- A document in which `id` or `object` is found is an object. -/
theorem object_of_field (data : JVal) (k : String) (hk : pathIndex k = none)
    (h : gjsonGet data [k] ≠ none) : ∃ kvs, data = .obj kvs := by
  cases data with
  | obj kvs => exact ⟨kvs, rfl⟩
  | arr xs => simp [gjsonGet, child, hk] at h
  | null => simp [gjsonGet, child] at h
  | bool b => simp [gjsonGet, child] at h
  | num n => simp [gjsonGet, child] at h
  | str s => simp [gjsonGet, child] at h

theorem trimSpace_append_newline (line : List Char) :
    trimSpace (line ++ ['\n']) = trimSpace line := by
  have hn : isSpace '\n' = true := by decide
  unfold trimSpace
  rw [List.dropWhile_append]
  by_cases h : (line.dropWhile isSpace).isEmpty = true
  · have h0 : line.dropWhile isSpace = [] := List.isEmpty_iff.mp h
    simp [h0, hn]
  · simp only [h, if_false, Bool.false_eq_true]
    have := List.rdropWhile_concat_pos isSpace (line.dropWhile isSpace) '\n' hn
    simpa [List.rdropWhile] using this

/-- The frames of a text, with the current line given apart. -/
theorem specFrames_step (rewrite : FrameRewrite) (model : Model) (ending : StreamEnd) :
    ∀ (input line : List Char),
      (input = [] → line = []) →
      (input ≠ [] → input.getLast? = some '\n') →
      streamLoop rewrite model ending input line =
        specEmit rewrite model
          (((specLines input line).map trimSpace).filterMap
            (fun l => if hasPrefix l TagData then some (l.drop TagData.length) else none)) := by
  intro input
  induction input with
  | nil =>
    intro line h1 _
    rw [h1 rfl]
    cases ending <;> simp [streamLoop, specLines, trimSpace, hasPrefix, TagData, specEmit]
  | cons c rest ih =>
    intro line _ h2
    have hlast := h2 (List.cons_ne_nil _ _)
    by_cases hc : c = '\n'
    · subst hc
      have ih0 := ih [] (fun _ => rfl) (by
        intro hne
        cases rest with
        | nil => exact absurd rfl hne
        | cons d rest' => simpa [List.getLast?_cons_cons] using hlast)
      simp only [streamLoop, if_true, specLines, List.map_cons, List.filterMap_cons]
      simp only [processLine, trimSpace_append_newline]
      by_cases hempty : (trimSpace line).length = 0
      · have h0 : trimSpace line = [] := List.length_eq_zero.mp hempty
        simp [h0, hasPrefix, TagData, ih0]
      · by_cases hp : hasPrefix (trimSpace line) TagData = true
        · by_cases hd : (trimSpace line).drop TagData.length = TagDataDone
          · simp [hempty, hp, hd, specEmit]
          · simp [hempty, hp, hd, specEmit, ih0]
        · simp [hempty, hp, ih0]
    · have hrest : rest ≠ [] := by
        intro h0
        rw [h0] at hlast
        simp at hlast
        exact hc hlast
      have ih1 := ih (line ++ [c]) (fun h => absurd h hrest) (by
        intro _
        cases rest with
        | nil => exact absurd rfl hrest
        | cons d rest' => simpa [List.getLast?_cons_cons] using hlast)
      simp only [streamLoop, hc, if_false, specLines]
      exact ih1

/-- On an upstream body that is empty or ends with a line feed, whatever way the
read ends, the stream is the one the specification describes: every `data: `
frame before the first `[DONE]` rewritten and framed, in order, then the `[DONE]`
frame if there is one, and nothing after it. -/
theorem stream_agrees_on_terminated_body (rewrite : FrameRewrite) (model : Model)
    (ending : StreamEnd) (input : List Char)
    (hterm : input = [] ∨ input.getLast? = some '\n') :
    CreateChatCompletionStream rewrite model ending input = specStream rewrite model input := by
  unfold CreateChatCompletionStream specStream specFrames
  apply specFrames_step rewrite model ending input [] (fun _ => rfl)
  intro hne
  rcases hterm with h | h
  · exact absurd h hne
  · exact h

/-! ## Lemmas on the key rotation -/

theorem getAPIKey_of_keys (counters : KeyCounters) (model : Model)
    (hK : 0 < model.ProviderAPIKey.length) :
    getAPIKey counters model =
      (model.ProviderAPIKey.getD (counters model.ID % model.ProviderAPIKey.length) "",
       counters.store model.ID (counters model.ID + 1)) := by
  unfold getAPIKey
  rw [if_neg (Nat.pos_iff_ne_zero.mp hK)]

theorem getAPIKeys_trace (model : Model) (hK : 0 < model.ProviderAPIKey.length) :
    ∀ (n : Nat) (counters : KeyCounters),
      (getAPIKeys model n counters).1 =
          (List.range n).map (fun i =>
            model.ProviderAPIKey.getD ((counters model.ID + i) % model.ProviderAPIKey.length) "") ∧
        ∀ id, (getAPIKeys model n counters).2 id =
          if id = model.ID then counters model.ID + n else counters id := by
  intro n
  induction n with
  | zero =>
    intro counters
    refine ⟨by simp [getAPIKeys], ?_⟩
    intro id
    by_cases h : id = model.ID
    · simp [getAPIKeys, h]
    · simp [getAPIKeys, h]
  | succ n ih =>
    intro counters
    obtain ⟨h1, h2⟩ := ih (counters.store model.ID (counters model.ID + 1))
    have hs : (counters.store model.ID (counters model.ID + 1)) model.ID =
        counters model.ID + 1 := by simp [KeyCounters.store]
    constructor
    · simp only [getAPIKeys, getAPIKey_of_keys counters model hK, h1, hs]
      rw [List.range_succ_eq_map]
      simp only [List.map_cons, List.map_map, Nat.add_zero]
      congr 1
      apply List.map_congr_left
      intro i _
      simp only [Function.comp]
      congr 2
      omega
    · intro id
      simp only [getAPIKeys, getAPIKey_of_keys counters model hK]
      rw [h2 id, hs]
      by_cases h : id = model.ID
      · simp only [h, if_true]; omega
      · simp [h, KeyCounters.store]

theorem keys_of_full_round (pool : List String) (c : Nat) :
    (List.range pool.length).map (fun i => pool.getD ((c + i) % pool.length) "") =
      pool.rotate (c % pool.length) := by
  apply List.ext_getElem
  · simp
  · intro i h1 h2
    have hi : i < pool.length := by simpa using h1
    have hlt : (c + i) % pool.length < pool.length := Nat.mod_lt _ (by omega)
    rw [List.getElem_rotate]
    simp only [List.getElem_map, List.getElem_range]
    rw [List.getD_eq_getElem _ _ hlt]
    congr 1
    rw [Nat.add_comm i, Nat.mod_add_mod]

/-! ## Lemmas on edits below an existing value -/

theorem gjsonGet_append (p q : List String) :
    ∀ v : JVal, gjsonGet v (p ++ q) = (gjsonGet v p).bind (fun w => gjsonGet w q) := by
  induction p with
  | nil => intro v; simp [gjsonGet]
  | cons k ks ih =>
    intro v
    simp only [List.cons_append, gjsonGet]
    cases child v k with
    | none => simp
    | some c => simpa using ih c

/-- Setting a value below an existing one changes that one only. -/
theorem sjsonSet_under (q : List String) (x w w' : JVal) (hset : sjsonSet w q x = .ok w')
    (p : List String) :
    ∀ v : JVal, gjsonGet v p = some w →
      ∃ v', sjsonSet v (p ++ q) x = .ok v' ∧ gjsonGet v' p = some w' := by
  induction p with
  | nil =>
    intro v hv
    simp only [gjsonGet, Option.some.injEq] at hv
    subst hv
    exact ⟨w', by simpa using hset, by simp [gjsonGet]⟩
  | cons k ks ih =>
    intro v hv
    cases v with
    | obj kvs =>
      simp only [gjsonGet, child] at hv
      cases hl : lookupKey k kvs with
      | none => simp [hl] at hv
      | some c =>
        simp only [hl] at hv
        obtain ⟨c', h1, h2⟩ := ih c hv
        refine ⟨.obj (replaceKey k c' kvs), ?_, ?_⟩
        · rw [List.cons_append]
          simp only [sjsonSet, hl, h1]
        · simp only [gjsonGet, child]
          rw [lookupKey_replaceKey_self k c' kvs (by simp [hl])]
          exact h2
    | arr xs =>
      simp only [gjsonGet, child] at hv
      cases hi : pathIndex k with
      | none => simp [hi] at hv
      | some n =>
        simp only [hi] at hv
        cases hx : xs[n]? with
        | none => simp [hx] at hv
        | some c =>
          simp only [hx] at hv
          obtain ⟨c', h1, h2⟩ := ih c hv
          have hn : n < xs.length := by
            by_contra hcon
            rw [List.getElem?_eq_none (by omega)] at hx
            cases hx
          refine ⟨.arr (xs.set n c'), ?_, ?_⟩
          · rw [List.cons_append]
            simp only [sjsonSet, hi, hx, h1]
          · simp only [gjsonGet, child, hi]
            rw [List.getElem?_set_self hn]
            exact h2
    | null => simp [gjsonGet, child] at hv
    | bool b => simp [gjsonGet, child] at hv
    | num n => simp [gjsonGet, child] at hv
    | str s => simp [gjsonGet, child] at hv

/-- Deleting below an existing value changes that one only. -/
theorem sjsonDelete_under (q : List String) (hq : q ≠ []) (w : JVal) (p : List String) :
    ∀ v : JVal, gjsonGet v p = some w →
      gjsonGet (sjsonDelete v (p ++ q)) p = some (sjsonDelete w q) := by
  induction p with
  | nil =>
    intro v hv
    simp only [gjsonGet, Option.some.injEq] at hv
    subst hv
    simp [gjsonGet]
  | cons k ks ih =>
    intro v hv
    obtain ⟨k2, r, hr⟩ : ∃ k2 r, ks ++ q = k2 :: r := by
      cases hks : ks ++ q with
      | nil => simp [hq] at hks
      | cons a b => exact ⟨a, b, rfl⟩
    cases v with
    | obj kvs =>
      simp only [gjsonGet, child] at hv
      cases hl : lookupKey k kvs with
      | none => simp [hl] at hv
      | some c =>
        simp only [hl] at hv
        have h2 := ih c hv
        rw [List.cons_append, hr]
        simp only [sjsonDelete, hl, gjsonGet, child]
        rw [lookupKey_replaceKey_self k _ kvs (by simp [hl]), ← hr]
        exact h2
    | arr xs =>
      simp only [gjsonGet, child] at hv
      cases hi : pathIndex k with
      | none => simp [hi] at hv
      | some n =>
        simp only [hi] at hv
        cases hx : xs[n]? with
        | none => simp [hx] at hv
        | some c =>
          simp only [hx] at hv
          have h2 := ih c hv
          have hn : n < xs.length := by
            by_contra hcon
            rw [List.getElem?_eq_none (by omega)] at hx
            cases hx
          rw [List.cons_append, hr]
          simp only [sjsonDelete, hi, hx, gjsonGet, child]
          rw [List.getElem?_set_self hn, ← hr]
          exact h2
    | null => simp [gjsonGet, child] at hv
    | bool b => simp [gjsonGet, child] at hv
    | num n => simp [gjsonGet, child] at hv
    | str s => simp [gjsonGet, child] at hv

theorem trimSpace_length_le (b : List Char) : (trimSpace b).length ≤ b.length := by
  unfold trimSpace
  have h1 : ∀ l : List Char, (l.dropWhile isSpace).length ≤ l.length := by
    intro l
    exact (List.dropWhile_sublist _).length_le
  have h2 := h1 (b.dropWhile isSpace).reverse
  have h3 := h1 b
  simp only [List.length_reverse] at h2 ⊢
  omega

theorem hasPrefix_length (p : List Char) : ∀ b : List Char, hasPrefix b p = true →
    p.length ≤ b.length := by
  induction p with
  | nil => intro b _; simp
  | cons c cs ih =>
    intro b h
    cases b with
    | nil => simp [hasPrefix] at h
    | cons d ds =>
      simp only [hasPrefix, Bool.and_eq_true] at h
      have := ih ds h.2
      simp only [List.length_cons]
      omega

theorem hasPrefix_append (p r : List Char) : hasPrefix (p ++ r) p = true := by
  induction p with
  | nil => cases r <;> simp [hasPrefix]
  | cons c cs ih => simp [hasPrefix, ih]

theorem stripTag_append (tag s : String) : stripTag tag (tag ++ s) = s := by
  unfold stripTag
  rw [String.data_append, if_pos (hasPrefix_append _ _)]
  show String.mk ((tag.data ++ s.data).drop tag.data.length) = s
  rw [List.drop_left]

/-! ## Lemmas on the relay -/

/-- A chunk that holds a `data: ` frame is relayed by the thinking branch. -/
theorem relayLoop_frame (render : Render) (model : Model) (s : Bool) (chunk : Chunk)
    (rest : List RelayEvent) (ending : RelayEnd)
    (hm : model.SupportGoogleThinking = true)
    (hframe : hasPrefix (trimSpace chunk.bytes) TagData = true) :
    relayLoop render model s (.data chunk :: rest) ending =
      (relayLoop render model (relayFrame render s chunk).2 rest ending).after
        (relayFrame render s chunk).1 := by
  have h6 := hasPrefix_length TagData _ hframe
  have hle := trimSpace_length_le chunk.bytes
  have h5 : ¬ chunk.bytes.length < 5 := by
    have : TagData.length = 6 := by decide
    omega
  simp only [relayLoop, hframe, hm, h5]
  simp

/-- The members of the delta after the three edits of the entry branch. -/
theorem thinking_delta_edit (delta : List (String × JVal)) (x : JVal)
    (hnd : (delta.map Prod.fst).Nodup) :
    ∃ delta1, sjsonSet (.obj delta) ["reasoning_content"] x = .ok (.obj delta1) ∧
      lookupKey "reasoning_content"
        (eraseKey "extra_content" (eraseKey "content" delta1)) = some x ∧
      lookupKey "content" (eraseKey "extra_content" (eraseKey "content" delta1)) = none ∧
      lookupKey "extra_content" (eraseKey "extra_content" (eraseKey "content" delta1)) = none := by
  have key : ∀ delta1 : List (String × JVal), (delta1.map Prod.fst).Nodup →
      lookupKey "reasoning_content" delta1 = some x →
      lookupKey "reasoning_content"
        (eraseKey "extra_content" (eraseKey "content" delta1)) = some x ∧
      lookupKey "content" (eraseKey "extra_content" (eraseKey "content" delta1)) = none ∧
      lookupKey "extra_content" (eraseKey "extra_content" (eraseKey "content" delta1)) = none := by
    intro delta1 hnd1 hr
    refine ⟨?_, ?_, ?_⟩
    · rw [lookupKey_eraseKey_ne _ _ _ (by decide), lookupKey_eraseKey_ne _ _ _ (by decide), hr]
    · rw [lookupKey_eraseKey_ne _ _ _ (by decide)]
      exact lookupKey_eraseKey_self _ _ hnd1
    · exact lookupKey_eraseKey_self _ _ ((eraseKey_keys_sublist _ _).nodup hnd1)
  cases hl : lookupKey "reasoning_content" delta with
  | some c =>
    refine ⟨replaceKey "reasoning_content" x delta, by simp [sjsonSet, hl], ?_⟩
    apply key
    · rw [replaceKey_keys]; exact hnd
    · exact lookupKey_replaceKey_self _ _ _ (by simp [hl])
  | none =>
    refine ⟨delta ++ [("reasoning_content", x)], by simp [sjsonSet, hl, jbuild], ?_⟩
    apply key
    · rw [List.map_append, List.nodup_append]
      refine ⟨hnd, by simp, ?_⟩
      intro a ha hb
      simp only [List.map_cons, List.map_nil, List.mem_singleton] at hb
      subst hb
      exact (lookupKey_eq_none_iff _ _).mp hl ha
    · exact lookupKey_append_new _ _ _ hl

/-- A member of the object found at a path. -/
theorem gjsonGet_member (v : JVal) (p : List String) (kvs : List (String × JVal))
    (k : String) (h : gjsonGet v p = some (.obj kvs)) :
    gjsonGet v (p ++ [k]) = lookupKey k kvs := by
  rw [gjsonGet_append, h]
  show gjsonGet (.obj kvs) [k] = lookupKey k kvs
  simp only [gjsonGet, child]
  cases lookupKey k kvs <;> rfl

/-- The entry branch of the relay on a frame whose delta is marked as a thought
and has a string as content. -/
theorem relayThinking_entry (s : Bool) (response : JVal) (content : String)
    (delta : List (String × JVal))
    (hdelta : gjsonGet response deltaPath = some (.obj delta))
    (hnd : (delta.map Prod.fst).Nodup)
    (hthought : gjsonGet response deltaThoughtPath = some (.bool true))
    (hcontent : gjsonGet response deltaContentPath = some (.str content)) :
    ∃ relayed, relayThinking s response = (some relayed, true) ∧
      gjsonGet relayed deltaReasoningPath = some (.str (stripTag "<thought>" content)) ∧
      gjsonGet relayed deltaContentPath = none ∧
      gjsonGet relayed deltaExtraPath = none := by
  obtain ⟨delta1, hset, h1, h2, h3⟩ :=
    thinking_delta_edit delta (.str (stripTag "<thought>" content)) hnd
  obtain ⟨response1, hs1, hg1⟩ := sjsonSet_under _ _ _ _ hset deltaPath response hdelta
  have hg2 := sjsonDelete_under ["content"] (by simp) _ deltaPath response1 hg1
  have hg3 := sjsonDelete_under ["extra_content"] (by simp) _ deltaPath _ hg2
  simp only [sjsonDelete] at hg3
  refine ⟨sjsonDelete (sjsonDelete response1 deltaContentPath) deltaExtraPath, ?_, ?_, ?_, ?_⟩
  · simp only [relayThinking, hthought, hcontent, resultType, JVal.gtype, resultString,
      sjsonSetIgnoreErr, deltaReasoningPath, hs1, if_true]
  · exact (gjsonGet_member _ _ _ _ hg3).trans h1
  · exact (gjsonGet_member _ _ _ _ hg3).trans h2
  · exact (gjsonGet_member _ _ _ _ hg3).trans h3

/-- The exit branch of the relay on a frame that is not marked as a thought and
whose content starts with the closing tag. -/
theorem relayThinking_exit (response : JVal) (Y : String)
    (hthought : resultType (gjsonGet response deltaThoughtPath) ≠ GType.True)
    (hcontent : gjsonGet response deltaContentPath = some (.str ("</thought>" ++ Y))) :
    ∃ relayed, relayThinking true response = (some relayed, false) ∧
      gjsonGet relayed deltaContentPath = some (.str Y) := by
  obtain ⟨response1, hs1, hg1⟩ :=
    sjsonSet_under [] (.str Y) (.str ("</thought>" ++ Y)) (.str Y) (by simp [sjsonSet])
      deltaContentPath response hcontent
  rw [List.append_nil] at hs1
  have hp : hasPrefix ("</thought>" ++ Y).data "</thought>".data = true := by
    rw [String.data_append]; exact hasPrefix_append _ _
  have hd : String.mk (("</thought>" ++ Y).data.drop 10) = Y := by
    rw [String.data_append]
    show String.mk (("</thought>".data ++ Y.data).drop "</thought>".data.length) = Y
    rw [List.drop_left]
  refine ⟨response1, ?_, hg1⟩
  simp only [relayThinking, hthought, hcontent, resultString, hp, hd, sjsonSetIgnoreErr, hs1,
    if_true, if_false]

theorem resultType_true_iff (r : Option JVal) :
    resultType r = GType.True ↔ r = some (.bool true) := by
  cases r with
  | none => simp [resultType]
  | some v =>
    cases v with
    | bool b => cases b <;> simp [resultType, JVal.gtype]
    | null => simp [resultType, JVal.gtype]
    | num n => simp [resultType, JVal.gtype]
    | str s => simp [resultType, JVal.gtype]
    | arr xs => simp [resultType, JVal.gtype]
    | obj kvs => simp [resultType, JVal.gtype]

/-! ## Lemmas on the protocol check of the relay -/

theorem relayLoop_rejected (render : Render) (model : Model) (s : Bool) (chunk : Chunk)
    (rest : List RelayEvent) (ending : RelayEnd) (h : chunkAccepted chunk = false) :
    relayLoop render model s (.data chunk :: rest) ending =
      ⟨[], some ("unexpected response: " ++ String.mk (trimSpace chunk.bytes)), false⟩ := by
  simp only [chunkAccepted, Bool.or_eq_false_iff] at h
  simp [relayLoop, h.1, h.2]

theorem relayLoop_plain (render : Render) (model : Model) (s : Bool) (chunk : Chunk)
    (rest : List RelayEvent) (ending : RelayEnd) (hm : model.SupportGoogleThinking = false)
    (h : chunkAccepted chunk = true) :
    relayLoop render model s (.data chunk :: rest) ending =
      (relayLoop render model s rest ending).after chunk.bytes := by
  simp only [chunkAccepted, Bool.or_eq_true] at h
  rcases h with h | h
  · simp [relayLoop, h, hm]
  · simp [relayLoop, h, hm]

theorem relayLoop_timeout (render : Render) (model : Model) (s : Bool)
    (rest : List RelayEvent) (ending : RelayEnd) :
    relayLoop render model s (.timeout :: rest) ending =
      (relayLoop render model s rest ending).after processingTag := by
  simp [relayLoop]

/-- Everything the relay of a candidate without thinking support writes, and the
error it returns. -/
theorem relayLoop_plain_output (render : Render) (model : Model)
    (hm : model.SupportGoogleThinking = false) :
    ∀ (events : List RelayEvent) (s : Bool) (ending : RelayEnd),
      (relayLoop render model s events ending).written =
          ((events.takeWhile eventAccepted).map eventBytes).flatten ∧
        (relayLoop render model s events ending).panicked = false ∧
        (relayLoop render model s events ending).err =
          match events.dropWhile eventAccepted with
          | .data chunk :: _ =>
            some ("unexpected response: " ++ String.mk (trimSpace chunk.bytes))
          | _ => ending.err := by
  intro events
  induction events with
  | nil =>
    intro s ending
    cases ending <;> simp [relayLoop, RelayEnd.err]
  | cons ev rest ih =>
    intro s ending
    obtain ⟨i1, i2, i3⟩ := ih s ending
    cases ev with
    | timeout =>
      rw [relayLoop_timeout]
      simp only [HandleResult.after, List.takeWhile_cons, List.dropWhile_cons, eventAccepted,
        if_true, List.map_cons, List.flatten_cons, eventBytes, i1, i2, i3]
      exact ⟨trivial, trivial, trivial⟩
    | data chunk =>
      by_cases ha : chunkAccepted chunk = true
      · rw [relayLoop_plain render model s chunk rest ending hm ha]
        simp only [HandleResult.after, List.takeWhile_cons, List.dropWhile_cons, eventAccepted,
          ha, if_true, List.map_cons, List.flatten_cons, eventBytes, i1, i2, i3]
        exact ⟨trivial, trivial, trivial⟩
      · have hf : chunkAccepted chunk = false := by simpa using ha
        rw [relayLoop_rejected render model s chunk rest ending hf]
        simp [List.takeWhile_cons, List.dropWhile_cons, eventAccepted, hf]

/-! ## Lemmas on the pipe and on the reads of a long write -/

theorem splitWrite_of_le (fuel : Nat) (b : List Char) (h : b.length ≤ readBufferSize) :
    splitWrite fuel b = [b] := by
  cases fuel <;> simp [splitWrite, h]

theorem splitWrite_two (fuel : Nat) (b : List Char) (h1 : readBufferSize < b.length)
    (h2 : b.length ≤ 2 * readBufferSize) (hf : 2 ≤ fuel) :
    splitWrite fuel b = [b.take readBufferSize, b.drop readBufferSize] := by
  obtain ⟨k, rfl⟩ : ∃ k, fuel = k + 2 := ⟨fuel - 2, by omega⟩
  have hd : (b.drop readBufferSize).length ≤ readBufferSize := by
    rw [List.length_drop]; omega
  rw [splitWrite, if_neg (by omega), splitWrite_of_le _ _ hd]

/-- The reads of a write return its bytes, in order. -/
theorem splitWrite_flatten : ∀ (fuel : Nat) (b : List Char), (splitWrite fuel b).flatten = b := by
  intro fuel
  induction fuel with
  | zero => intro b; simp [splitWrite]
  | succ fuel ih =>
    intro b
    rw [splitWrite]
    split_ifs
    · simp
    · rw [List.flatten_cons, ih, List.take_append_drop]

/-- No read is longer than the buffer. -/
theorem splitWrite_length_le : ∀ (fuel : Nat) (b : List Char),
    b.length ≤ (fuel + 1) * readBufferSize →
    ∀ r ∈ splitWrite fuel b, r.length ≤ readBufferSize := by
  intro fuel
  induction fuel with
  | zero =>
    intro b hb r hr
    simp only [splitWrite, List.mem_singleton] at hr
    subst hr
    simpa using hb
  | succ fuel ih =>
    intro b hb r hr
    rw [splitWrite] at hr
    split_ifs at hr with hle
    · simp only [List.mem_singleton] at hr
      subst hr
      exact hle
    · rcases List.mem_cons.mp hr with h | h
      · subst h
        rw [List.length_take]
        exact Nat.min_le_left _ _
      · refine ih (b.drop readBufferSize) ?_ r h
        rw [List.length_drop]
        have e : (fuel + 1 + 1) * readBufferSize =
            (fuel + 1) * readBufferSize + readBufferSize := by ring
        omega

theorem pipeReads_flatten (writes : List (List Char)) :
    (pipeReads writes).flatten = writes.flatten := by
  induction writes with
  | nil => rfl
  | cons w rest ih =>
    simp only [pipeReads, List.map_cons, List.flatten_cons, List.flatten_append] at ih ⊢
    rw [splitWrite_flatten, ih]

theorem pipeReads_length_le (writes : List (List Char)) :
    ∀ r ∈ pipeReads writes, r.length ≤ readBufferSize := by
  intro r hr
  simp only [pipeReads, List.mem_flatten, List.mem_map] at hr
  obtain ⟨l, ⟨w, _, rfl⟩, hrl⟩ := hr
  refine splitWrite_length_le w.length w ?_ r hrl
  have : 1 ≤ readBufferSize := by decide
  nlinarith

theorem pipeReads_short (writes : List (List Char))
    (h : ∀ w ∈ writes, w.length ≤ readBufferSize) : pipeReads writes = writes := by
  induction writes with
  | nil => rfl
  | cons w rest ih =>
    have hw := h w (List.mem_cons_self _ _)
    have hr := ih (fun x hx => h x (List.mem_cons_of_mem _ hx))
    simp only [pipeReads, List.map_cons, List.flatten_cons] at hr ⊢
    rw [splitWrite_of_le _ _ hw, hr]
    rfl

theorem pipeReads_two (x y : List Char) (hx : x.length = readBufferSize)
    (hy1 : 0 < y.length) (hy2 : y.length ≤ readBufferSize) :
    pipeReads [x ++ y] = [x, y] := by
  have hlen : (x ++ y).length = readBufferSize + y.length := by
    rw [List.length_append, hx]
  have hb : 2 ≤ readBufferSize := by decide
  simp only [pipeReads, List.map_cons, List.map_nil, List.flatten_cons, List.flatten_nil,
    List.append_nil]
  rw [splitWrite_two _ _ (by omega) (by omega) (by omega), ← hx, List.take_left, List.drop_left]

/-! ## Lemmas on frames and on a frame longer than a read -/

theorem trimSpace_cons_space (c : Char) (l : List Char) (h : isSpace c = true) :
    trimSpace (c :: l) = trimSpace l := by
  simp [trimSpace, List.dropWhile_cons, h]

/-- Bytes that neither start nor end with white space are left as they are. -/
theorem trimSpace_of_ends (b : List Char) (c d : Char) (hc : b.head? = some c)
    (hd : b.getLast? = some d) (hcs : isSpace c = false) (hds : isSpace d = false) :
    trimSpace b = b := by
  have h1 : b.dropWhile isSpace = b := by
    cases b with
    | nil => rfl
    | cons x xs =>
      simp only [List.head?_cons, Option.some.injEq] at hc
      subst hc
      simp [List.dropWhile_cons, hcs]
  have h2 : b.rdropWhile isSpace = b := by
    rw [List.rdropWhile_eq_self_iff]
    intro hne
    have := List.getLast?_eq_getLast b hne
    rw [hd, Option.some.injEq] at this
    rw [← this, hds]
    simp
  show ((b.dropWhile isSpace).rdropWhile isSpace) = b
  rw [h1, h2]

theorem trimSpace_append_blank_line (b : List Char) :
    trimSpace (b ++ "\n\n".data) = trimSpace b := by
  have e : b ++ "\n\n".data = (b ++ ['\n']) ++ ['\n'] := by
    rw [List.append_assoc]; rfl
  rw [e, trimSpace_append_newline, trimSpace_append_newline]

/-- The relay of a thinking-capable candidate finds the payload of a frame in the
bytes after the fifth. -/
theorem trimSpace_drop_dataFrame (payload : List Char) :
    trimSpace ((dataFrame payload).drop 5) = trimSpace payload := by
  have e : (dataFrame payload).drop 5 = ' ' :: (payload ++ "\n\n".data) := by
    simp only [dataFrame, List.append_assoc]
    rfl
  rw [e, trimSpace_cons_space _ _ (by decide), trimSpace_append_blank_line]

theorem streamWrites_line (rewrite : FrameRewrite) (model : Model) (ending : StreamEnd)
    (rest : List Char) :
    ∀ (line acc : List Char), '\n' ∉ line →
      streamWrites rewrite model ending (line ++ '\n' :: rest) acc =
        (if (processLine rewrite model (acc ++ line ++ ['\n'])).1.length = 0 then []
          else [(processLine rewrite model (acc ++ line ++ ['\n'])).1]) ++
        (if (processLine rewrite model (acc ++ line ++ ['\n'])).2
          then streamWrites rewrite model ending rest [] else []) := by
  intro line
  induction line with
  | nil =>
    intro acc _
    simp only [List.nil_append, List.append_nil, streamWrites, if_true]
    split_ifs <;> simp
  | cons c cs ih =>
    intro acc hmem
    have hc : c ≠ '\n' := fun h => hmem (h ▸ List.mem_cons_self _ _)
    have hcs : '\n' ∉ cs := fun h => hmem (List.mem_cons_of_mem _ h)
    rw [List.cons_append, streamWrites, if_neg hc, ih (acc ++ [c]) hcs]
    simp only [List.append_assoc, List.singleton_append]

theorem processLine_frame (rewrite : FrameRewrite) (model : Model) (payload : List Char)
    (htrim : trimSpace ("data: ".data ++ payload) = "data: ".data ++ payload)
    (hdone : payload ≠ TagDataDone) :
    processLine rewrite model ("data: ".data ++ payload ++ ['\n']) =
      ("data: ".data ++ rewrite model.Name payload ++ "\n\n".data, true) := by
  have hlen : ("data: ".data ++ payload).length ≠ 0 := by
    rw [List.length_append]
    have : "data: ".data.length = 6 := by decide
    omega
  have hpre : hasPrefix ("data: ".data ++ payload) TagData = true := hasPrefix_append _ _
  have hdrop : ("data: ".data ++ payload).drop TagData.length = payload := by
    show ("data: ".data ++ payload).drop "data: ".data.length = payload
    rw [List.drop_left]
  unfold processLine
  simp only [trimSpace_append_newline, htrim, hlen, hpre, hdrop, hdone, if_true, if_false]

/-- The goroutine makes one write for a frame of the upstream body. -/
theorem streamWrites_frame (rewrite : FrameRewrite) (model : Model) (ending : StreamEnd)
    (payload rest : List Char) (hline : '\n' ∉ payload)
    (htrim : trimSpace ("data: ".data ++ payload) = "data: ".data ++ payload)
    (hdone : payload ≠ TagDataDone) :
    streamWrites rewrite model ending (dataFrame payload ++ rest) [] =
      dataFrame (rewrite model.Name payload) :: streamWrites rewrite model ending rest [] := by
  have e : dataFrame payload ++ rest = ("data: ".data ++ payload) ++ '\n' :: ('\n' :: rest) := by
    simp only [dataFrame, List.append_assoc]
    rfl
  have hmem : '\n' ∉ "data: ".data ++ payload := by
    rw [List.mem_append]
    rintro (h | h)
    · revert h; decide
    · exact hline h
  have hblank : streamWrites rewrite model ending ('\n' :: rest) [] =
      streamWrites rewrite model ending rest [] := by
    have hp : processLine rewrite model ([] ++ ['\n']) = ([], true) := by rfl
    rw [streamWrites, if_pos rfl]
    simp only [hp]
    simp
  have hne : ("data: ".data ++ rewrite model.Name payload ++ "\n\n".data).length ≠ 0 := by
    rw [List.length_append, List.length_append]
    have : "data: ".data.length = 6 := by decide
    omega
  rw [e, streamWrites_line rewrite model ending _ _ [] hmem, List.nil_append,
    processLine_frame rewrite model payload htrim hdone]
  simp only [hne, if_false, if_true, hblank]
  rfl

theorem dataFrame_long (k m : Nat) :
    dataFrame (demoLongPayload (k + m)) =
      ("data: ".data ++ demoLongHead ++ List.replicate k 'a') ++
        (List.replicate m 'a' ++ demoLongTail ++ "\n\n".data) := by
  simp only [dataFrame, demoLongPayload, List.replicate_add, List.append_assoc]

theorem long_first_read_length (k : Nat) :
    ("data: ".data ++ demoLongHead ++ List.replicate k 'a').length = 63 + k := by
  have h : ("data: ".data ++ demoLongHead).length = 63 := by decide
  rw [List.length_append, h, List.length_replicate]

theorem long_second_read_length (m : Nat) :
    (List.replicate m 'a' ++ demoLongTail ++ "\n\n".data).length = m + 7 := by
  have h1 : demoLongTail.length = 5 := by decide
  have h2 : "\n\n".data.length = 2 := by decide
  rw [List.length_append, List.length_append, h1, h2, List.length_replicate]

/-- A first read that ends inside the text of the delta is accepted by the relay. -/
theorem long_first_read_accepted (k : Nat) (payload : JVal) :
    chunkAccepted ⟨"data: ".data ++ demoLongHead ++ List.replicate k 'a', payload⟩ = true := by
  have hhead : ("data: ".data ++ demoLongHead ++ List.replicate k 'a').head? = some 'd' := by
    rfl
  have hlast : ∃ d, ("data: ".data ++ demoLongHead ++ List.replicate k 'a').getLast? = some d ∧
      isSpace d = false := by
    rw [List.getLast?_append, List.getLast?_replicate]
    by_cases hk : k = 0
    · refine ⟨'"', ?_, by decide⟩
      rw [if_pos hk]
      rfl
    · refine ⟨'a', ?_, by decide⟩
      rw [if_neg hk]
      rfl
  obtain ⟨d, hd, hds⟩ := hlast
  have ht := trimSpace_of_ends _ 'd' d hhead hd (by decide) hds
  have hp : hasPrefix ("data: ".data ++ demoLongHead ++ List.replicate k 'a') TagData = true := by
    rw [List.append_assoc]
    exact hasPrefix_append _ _
  simp only [chunkAccepted, ht, hp, Bool.or_true]

theorem long_second_read_trimmed (m : Nat) :
    trimSpace (List.replicate (m + 1) 'a' ++ demoLongTail ++ "\n\n".data) =
      List.replicate (m + 1) 'a' ++ demoLongTail := by
  rw [trimSpace_append_blank_line]
  refine trimSpace_of_ends _ 'a' '\x7d' ?_ ?_ (by decide) (by decide)
  · rfl
  · rw [List.getLast?_append]
    rfl

/-- A second read that starts inside the text of the delta is rejected. -/
theorem long_second_read_rejected (m : Nat) (payload : JVal) :
    chunkAccepted ⟨List.replicate (m + 1) 'a' ++ demoLongTail ++ "\n\n".data, payload⟩ =
      false := by
  show (hasPrefix (trimSpace (List.replicate (m + 1) 'a' ++ demoLongTail ++ "\n\n".data))
      TagNoData ||
    hasPrefix (trimSpace (List.replicate (m + 1) 'a' ++ demoLongTail ++ "\n\n".data))
      TagData) = false
  rw [long_second_read_trimmed]
  rfl

/-- The write of the long frame reaches the relay in two reads. -/
theorem pipeReads_long (k m : Nat) (hk : 63 + k = readBufferSize)
    (hm : m + 1 + 7 ≤ readBufferSize) :
    pipeReads [dataFrame (demoLongPayload (k + (m + 1)))] =
      ["data: ".data ++ demoLongHead ++ List.replicate k 'a',
        List.replicate (m + 1) 'a' ++ demoLongTail ++ "\n\n".data] := by
  rw [dataFrame_long]
  refine pipeReads_two _ _ ?_ ?_ ?_
  · rw [long_first_read_length, hk]
  · rw [long_second_read_length]; omega
  · rw [long_second_read_length]; exact hm

/-- The relay of a candidate without thinking support on a chunk it accepts
followed by a chunk it rejects. -/
theorem relayLoop_accept_reject (render : Render) (model : Model) (s : Bool)
    (first second : Chunk) (rest : List RelayEvent) (ending : RelayEnd)
    (hm : model.SupportGoogleThinking = false) (h1 : chunkAccepted first = true)
    (h2 : chunkAccepted second = false) :
    relayLoop render model s (.data first :: .data second :: rest) ending =
      ⟨first.bytes, some ("unexpected response: " ++ String.mk (trimSpace second.bytes)),
        false⟩ := by
  rw [relayLoop_plain render model s first _ ending hm h1,
    relayLoop_rejected render model s second rest ending h2]
  simp [HandleResult.after]

/-- Lines 394-422 for a chunk of at least five bytes that passes the check. -/
theorem relayLoop_thinking (render : Render) (model : Model) (s : Bool) (chunk : Chunk)
    (rest : List RelayEvent) (ending : RelayEnd)
    (hm : model.SupportGoogleThinking = true) (ha : chunkAccepted chunk = true)
    (h5 : 5 ≤ chunk.bytes.length) :
    relayLoop render model s (.data chunk :: rest) ending =
      (relayLoop render model (relayFrame render s chunk).2 rest ending).after
        (relayFrame render s chunk).1 := by
  have h5n : ¬ chunk.bytes.length < 5 := by omega
  simp only [chunkAccepted, Bool.or_eq_true] at ha
  rcases ha with h | h
  · simp [relayLoop, h, hm, h5n]
  · simp [relayLoop, h, hm, h5n]

/-- The flag after a frame. -/
theorem relayThinking_flag (s : Bool) (response : JVal) :
    (relayThinking s response).2 =
      if markedThought response then true
      else if s && closesThought response then false else s := by
  unfold relayThinking markedThought closesThought
  by_cases h1 : resultType (gjsonGet response deltaThoughtPath) = GType.True
  · simp only [h1, if_true, decide_True]
    split_ifs <;> rfl
  · simp only [h1, if_false, decide_False]
    cases s
    · simp
    · simp only [if_true, Bool.true_and]
      split_ifs <;> simp_all

/-- A frame that triggers neither rewrite leaves the bytes and the flag as they
are. -/
theorem relayThinking_idle (s : Bool) (response : JVal)
    (hthought : markedThought response = false)
    (hclose : s = false ∨ closesThought response = false) :
    relayThinking s response = (none, s) := by
  unfold markedThought at hthought
  unfold closesThought at hclose
  have h1 : ¬ resultType (gjsonGet response deltaThoughtPath) = GType.True := by
    simpa using hthought
  unfold relayThinking
  simp only [h1, if_false]
  rcases hclose with h | h
  · subst h
    simp
  · cases s
    · simp
    · simp [h]

/-- The goroutine makes one write of the long frame. -/
theorem streamWrites_long (n : Nat) (model : Model) :
    streamWrites demoKeepBytes model .eof (dataFrame (demoLongPayload n)) [] =
      [dataFrame (demoLongPayload n)] := by
  have hline : '\n' ∉ demoLongPayload n := by
    unfold demoLongPayload
    simp only [List.mem_append, List.mem_replicate, not_or]
    refine ⟨by decide, ?_, by decide⟩
    rintro ⟨_, h⟩
    revert h
    decide
  have hlast : ("data: ".data ++ demoLongPayload n).getLast? = some '\x7d' := by
    unfold demoLongPayload
    rw [List.getLast?_append, List.getLast?_append, List.getLast?_append]
    rfl
  have htrim : trimSpace ("data: ".data ++ demoLongPayload n) =
      "data: ".data ++ demoLongPayload n :=
    trimSpace_of_ends _ 'd' '\x7d' rfl hlast (by decide) (by decide)
  have hdone : demoLongPayload n ≠ TagDataDone := by
    intro h
    have hl := congrArg List.length h
    have h1 : demoLongHead.length = 57 := by decide
    have h2 : TagDataDone.length = 6 := by decide
    rw [demoLongPayload, List.length_append, h1, h2] at hl
    omega
  have h := streamWrites_frame demoKeepBytes model .eof (demoLongPayload n) [] hline htrim hdone
  rw [List.append_nil] at h
  rw [h]
  rfl

theorem dataFrame_long_length (n : Nat) : (dataFrame (demoLongPayload n)).length = n + 70 := by
  have h0 : "data: ".data.length = 6 := by decide
  have h1 : demoLongHead.length = 57 := by decide
  have h2 : demoLongTail.length = 5 := by decide
  have h3 : "\n\n".data.length = 2 := by decide
  simp only [dataFrame, demoLongPayload, List.length_append, List.length_replicate, h0, h1, h2,
    h3]
  omega

/-- The relay of a candidate without thinking support on the two reads of the long
frame. -/
theorem relay_long_frame (render : Render) (view : View) (model : Model)
    (hm : model.SupportGoogleThinking = false) (k m : Nat) :
    handleStreamingChatCompletion render model
        (.opened (readEvents view ["data: ".data ++ demoLongHead ++ List.replicate k 'a',
          List.replicate (m + 1) 'a' ++ demoLongTail ++ "\n\n".data]) .eof) none =
      ⟨"data: ".data ++ demoLongHead ++ List.replicate k 'a',
        some ("unexpected response: " ++ String.mk (List.replicate (m + 1) 'a' ++ demoLongTail)),
        false⟩ := by
  have h := relayLoop_accept_reject render model false
    ⟨"data: ".data ++ demoLongHead ++ List.replicate k 'a',
      view (trimSpace (("data: ".data ++ demoLongHead ++ List.replicate k 'a').drop 5))⟩
    ⟨List.replicate (m + 1) 'a' ++ demoLongTail ++ "\n\n".data,
      view (trimSpace ((List.replicate (m + 1) 'a' ++ demoLongTail ++ "\n\n".data).drop 5))⟩
    [] .eof hm (long_first_read_accepted k _) (long_second_read_rejected m _)
  rw [long_second_read_trimmed] at h
  exact h

/-- The relay of a candidate without thinking support on a frame that arrives in
one read. -/
theorem relay_short_frame (render : Render) (view : View) (model : Model)
    (hm : model.SupportGoogleThinking = false) :
    handleStreamingChatCompletion render model
        (.opened (readEvents view [dataFrame demoShortPayload]) .eof) none =
      ⟨dataFrame demoShortPayload, none, false⟩ := by
  have h := relayLoop_plain render model false
    ⟨dataFrame demoShortPayload, view (trimSpace ((dataFrame demoShortPayload).drop 5))⟩
    [] .eof hm rfl
  show relayLoop render model false
    [.data ⟨dataFrame demoShortPayload, view (trimSpace ((dataFrame demoShortPayload).drop 5))⟩]
    .eof = _
  rw [h]
  simp [relayLoop, HandleResult.after]

/-! ## Lemmas on the handler functions -/

/-- After an upstream answer with a status other than 200 the streaming handler
writes the error body and returns the error of that write. -/
theorem handleStreaming_rejected (render : Render) (model : Model) (request : JVal)
    (StatusCode : Nat) (Status : String) (body : List Char) (events : List RelayEvent)
    (ending : RelayEnd) (writeErr : Option String) (hcode : StatusCode ≠ 200)
    (hreq : arrayOnPath request ["stream_options", "include_usage"] = false) :
    handleStreamingChatCompletion render model
      (CreateChatCompletionStream.returns request (.response StatusCode Status body)
        events ending) writeErr = ⟨body, writeErr, false⟩ := by
  obtain ⟨v, hset, _⟩ :=
    sjsonSet_get ["stream_options", "include_usage"] (.bool true) (by decide) request hreq
  simp [handleStreamingChatCompletion, CreateChatCompletionStream.returns, hset, hcode]

/-- After an upstream error the non-streaming handler writes the error body and
returns the error. -/
theorem handleNonStreaming_error (render : Render) (model : Model) (timeouts : Nat)
    (result : CompletionResult) (err : String) (h : result.err = some err) :
    handleNonStreamingChatCompletion render model timeouts result =
      ⟨List.replicate timeouts '\n' ++ (result.errBody.map String.data).getD [], some err,
        false⟩ := by
  simp [handleNonStreamingChatCompletion, h]

/-! ## Lemmas on the conversion of a number to `int` -/

theorem intOfFloat_of_range (v : Int) (h1 : -9223372036854775808 ≤ v)
    (h2 : v < 9223372036854775808) : intOfFloat v = v := by
  unfold intOfFloat
  rw [if_pos ⟨h1, h2⟩]

theorem intOfFloat_nonneg_iff (v : Int) :
    ¬ intOfFloat v < 0 ↔ 0 ≤ v ∧ v < 9223372036854775808 := by
  unfold intOfFloat
  split_ifs with h
  · omega
  · constructor
    · intro h0; omega
    · intro h0; omega

/-- The fragments that have an index: objects whose `index` is a number from 0 to
2^63 - 1. -/
theorem fragmentIndex_obj (toolCall : List (String × JVal)) (n : Nat) :
    fragmentIndex (.obj toolCall) = some n ↔
      ∃ index : Int, asNumber (mapIndex toolCall "index") = some index ∧ 0 ≤ index ∧
        index < 9223372036854775808 ∧ index.toNat = n := by
  simp only [fragmentIndex]
  cases hidx : asNumber (mapIndex toolCall "index") with
  | none => simp
  | some index =>
    by_cases hneg : intOfFloat index < 0
    · have h := (intOfFloat_nonneg_iff index).not.mp (not_not.mpr hneg)
      simp only [hneg, if_true, Option.some.injEq, false_iff, not_exists, not_and]
      simp only [reduceCtorEq, false_iff, not_exists, not_and]
      intro index1 h1 h2 h3 _
      subst h1
      exact h ⟨h2, h3⟩
    · have h := (intOfFloat_nonneg_iff index).mp hneg
      have he := intOfFloat_of_range index (by omega) h.2
      have hneg1 : ¬ index < 0 := by omega
      simp only [he, hneg1, if_false, Option.some.injEq]
      constructor
      · intro hn
        exact ⟨index, rfl, h.1, h.2, hn⟩
      · rintro ⟨index1, h1, _, _, h4⟩
        rw [h1]
        exact h4

/-- A fragment whose index is 2^63 or more makes the merge panic. -/
theorem mergeToolCall_beyond_int (toolCalls : List ToolCall) (toolCall : List (String × JVal))
    (index : Int) (hidx : asNumber (mapIndex toolCall "index") = some index)
    (hbig : 9223372036854775808 ≤ index) :
    mergeToolCall toolCalls (.obj toolCall) = .error "index out of range" := by
  have hneg : intOfFloat index < 0 := by
    by_contra h
    have := (intOfFloat_nonneg_iff index).mp h
    omega
  simp only [mergeToolCall, hidx, hneg, if_true]

/-! ## Lemmas on the merging of tool calls -/

theorem updateToolCall_arguments (e : ToolCall) (toolCall : List (String × JVal)) :
    (updateToolCall e toolCall).arguments = e.arguments ++ fragmentArguments (.obj toolCall) := by
  simp only [fragmentArguments]
  unfold updateToolCall
  generalize asString (mapIndex toolCall "id") = oid
  generalize asString (mapIndex toolCall "type") = otype
  cases asMap (mapIndex toolCall "function") with
  | none =>
    cases oid <;> cases otype <;> simp only [String.append_empty] <;> split_ifs <;> rfl
  | some function =>
    dsimp only
    generalize asString (mapIndex function "name") = oname
    generalize asString (mapIndex function "arguments") = oargs
    cases oid <;> cases otype <;> cases oname <;> cases oargs <;>
      simp only [Option.getD_none, Option.getD_some, String.append_empty] <;>
      split_ifs <;> rfl

theorem argumentsAt_grow (toolCalls : List ToolCall) (n i : Nat) :
    argumentsAt (growToolCalls toolCalls n) i = argumentsAt toolCalls i := by
  unfold argumentsAt growToolCalls
  by_cases hi : i < toolCalls.length
  · rw [List.getElem?_append_left hi]
  · rw [List.getElem?_append_right (by omega), List.getElem?_eq_none (Nat.le_of_not_lt hi)]
    cases h : ((List.range (n + 1 - toolCalls.length)).map
        (fun j => placeholderToolCall (toolCalls.length + j)))[i - toolCalls.length]? with
    | none => rfl
    | some e =>
      rw [List.getElem?_map] at h
      cases hr : (List.range (n + 1 - toolCalls.length))[i - toolCalls.length]? with
      | none => simp [hr] at h
      | some j =>
        simp only [hr, Option.map_some', Option.some.injEq] at h
        subst h
        rfl

theorem growToolCalls_length (toolCalls : List ToolCall) (n : Nat) :
    (growToolCalls toolCalls n).length = max toolCalls.length (n + 1) := by
  simp only [growToolCalls, List.length_append, List.length_map, List.length_range]
  omega

/-- One fragment with an index is merged without panic: the list reaches past the
index, and the arguments of the fragment are appended to those of its entry. -/
theorem mergeToolCall_ok (toolCalls : List ToolCall) (tc : JVal) (n : Nat)
    (hn : fragmentIndex tc = some n) :
    ∃ merged, mergeToolCall toolCalls tc = .ok merged ∧
      merged.length = max toolCalls.length (n + 1) ∧
      ∀ i, argumentsAt merged i =
        argumentsAt toolCalls i ++ (if i = n then fragmentArguments tc else "") := by
  cases tc with
  | obj toolCall =>
    simp only [fragmentIndex] at hn
    cases hidx : asNumber (mapIndex toolCall "index") with
    | none => simp [hidx] at hn
    | some index =>
      simp only [hidx] at hn
      by_cases hneg : intOfFloat index < 0
      · simp [hneg] at hn
      · simp only [hneg, if_false, Option.some.injEq] at hn
        have hlen := growToolCalls_length toolCalls n
        have hlt : n < (growToolCalls toolCalls n).length := by omega
        refine ⟨(growToolCalls toolCalls n).set n
          (updateToolCall ((growToolCalls toolCalls n).getD n (placeholderToolCall n)) toolCall),
          by simp only [mergeToolCall, hidx, hneg, if_false, hn], ?_, ?_⟩
        · rw [List.length_set, hlen]
        · intro i
          by_cases hi : i = n
          · subst hi
            simp only [argumentsAt, List.getElem?_set, if_true, hlt]
            rw [updateToolCall_arguments, List.getD_eq_getElem?_getD,
              List.getElem?_eq_getElem hlt, Option.getD_some]
            have := argumentsAt_grow toolCalls i i
            simp only [argumentsAt, List.getElem?_eq_getElem hlt] at this
            rw [this]
          · have hne : ¬ n = i := fun h => hi h.symm
            have := argumentsAt_grow toolCalls n i
            simp only [argumentsAt] at this
            simp only [argumentsAt, List.getElem?_set, hne, if_false, hi, this,
              String.append_empty]
  | null => simp [fragmentIndex] at hn
  | bool b => simp [fragmentIndex] at hn
  | num k => simp [fragmentIndex] at hn
  | str s => simp [fragmentIndex] at hn
  | arr xs => simp [fragmentIndex] at hn

/-- Fragments that all have an index are merged without panic, and the arguments
of every entry grow by those of its fragments, in order. -/
theorem mergeToolCalls_ok (fragments : List JVal) :
    ∀ toolCalls : List ToolCall,
      (∀ tc ∈ fragments, (fragmentIndex tc).isSome = true) →
      ∃ merged, mergeToolCalls toolCalls fragments = .ok merged ∧
        toolCalls.length ≤ merged.length ∧
        (∀ tc ∈ fragments, ∀ n, fragmentIndex tc = some n → n < merged.length) ∧
        ∀ i, argumentsAt merged i = argumentsAt toolCalls i ++
          concatStrings ((fragments.filter (fun tc => decide (fragmentIndex tc = some i))).map
            fragmentArguments) := by
  induction fragments with
  | nil =>
    intro toolCalls _
    exact ⟨toolCalls, rfl, Nat.le_refl _, by simp, by simp [concatStrings]⟩
  | cons tc rest ih =>
    intro toolCalls hwf
    obtain ⟨n, hn⟩ := Option.isSome_iff_exists.mp (hwf tc (List.mem_cons_self _ _))
    obtain ⟨m1, h1, hl1, ha1⟩ := mergeToolCall_ok toolCalls tc n hn
    obtain ⟨m2, h2, hl2, hi2, ha2⟩ := ih m1 (fun t ht => hwf t (List.mem_cons_of_mem _ ht))
    refine ⟨m2, by simp only [mergeToolCalls, h1, h2], by omega, ?_, ?_⟩
    · intro t ht k hk
      rcases List.mem_cons.mp ht with rfl | ht
      · rw [hn] at hk
        cases hk
        omega
      · exact hi2 t ht k hk
    · intro i
      rw [ha2 i, ha1 i, String.append_assoc]
      congr 1
      by_cases hi : i = n
      · subst hi
        simp [List.filter_cons, hn, concatStrings]
      · have hne : ¬ fragmentIndex tc = some i := by
          rw [hn]; intro h; cases h; exact hi rfl
        simp [List.filter_cons, hne, hi, concatStrings]

/-- Merging a sequence of fragments in two parts is merging it whole. -/
theorem mergeToolCalls_append (xs ys : List JVal) :
    ∀ toolCalls : List ToolCall,
      mergeToolCalls toolCalls (xs ++ ys) =
        match mergeToolCalls toolCalls xs with
        | .ok merged => mergeToolCalls merged ys
        | .error reason => .error reason := by
  induction xs with
  | nil => intro toolCalls; rfl
  | cons tc rest ih =>
    intro toolCalls
    simp only [List.cons_append, mergeToolCalls]
    cases mergeToolCall toolCalls tc with
    | ok merged => exact ih merged
    | error reason => rfl

/-! ## Lemmas on the shape of the tool-call accumulator -/

theorem updateToolCall_index (e : ToolCall) (toolCall : List (String × JVal)) :
    (updateToolCall e toolCall).index = e.index := by
  unfold updateToolCall
  generalize asString (mapIndex toolCall "id") = oid
  generalize asString (mapIndex toolCall "type") = otype
  cases asMap (mapIndex toolCall "function") with
  | none =>
    cases oid <;> cases otype <;> dsimp only <;> split_ifs <;> rfl
  | some function =>
    dsimp only
    generalize asString (mapIndex function "name") = oname
    generalize asString (mapIndex function "arguments") = oargs
    cases oid <;> cases otype <;> cases oname <;> cases oargs <;> dsimp only <;>
      split_ifs <;> rfl

theorem updateToolCall_id (e : ToolCall) (toolCall : List (String × JVal)) :
    (updateToolCall e toolCall).id = (fragmentId (.obj toolCall)).getD e.id := by
  simp only [fragmentId]
  unfold updateToolCall
  generalize asString (mapIndex toolCall "id") = oid
  generalize asString (mapIndex toolCall "type") = otype
  cases asMap (mapIndex toolCall "function") with
  | none =>
    cases oid <;> cases otype <;> dsimp only <;> (try split_ifs) <;> simp_all
  | some function =>
    dsimp only
    generalize asString (mapIndex function "name") = oname
    generalize asString (mapIndex function "arguments") = oargs
    cases oid <;> cases otype <;> cases oname <;> cases oargs <;> dsimp only <;>
      (try split_ifs) <;> simp_all

theorem updateToolCall_type (e : ToolCall) (toolCall : List (String × JVal)) :
    (updateToolCall e toolCall).type = (fragmentType (.obj toolCall)).getD e.type := by
  simp only [fragmentType]
  unfold updateToolCall
  generalize asString (mapIndex toolCall "id") = oid
  generalize asString (mapIndex toolCall "type") = otype
  cases asMap (mapIndex toolCall "function") with
  | none =>
    cases oid <;> cases otype <;> dsimp only <;> (try split_ifs) <;> simp_all
  | some function =>
    dsimp only
    generalize asString (mapIndex function "name") = oname
    generalize asString (mapIndex function "arguments") = oargs
    cases oid <;> cases otype <;> cases oname <;> cases oargs <;> dsimp only <;>
      (try split_ifs) <;> simp_all

theorem updateToolCall_name (e : ToolCall) (toolCall : List (String × JVal)) :
    (updateToolCall e toolCall).name = (fragmentName (.obj toolCall)).getD e.name := by
  simp only [fragmentName]
  unfold updateToolCall
  generalize asString (mapIndex toolCall "id") = oid
  generalize asString (mapIndex toolCall "type") = otype
  cases asMap (mapIndex toolCall "function") with
  | none =>
    cases oid <;> cases otype <;> dsimp only <;> (try split_ifs) <;> simp_all
  | some function =>
    dsimp only
    generalize asString (mapIndex function "name") = oname
    generalize asString (mapIndex function "arguments") = oargs
    cases oid <;> cases otype <;> cases oname <;> cases oargs <;> dsimp only <;>
      (try split_ifs) <;> simp_all

theorem fieldAt_grow (proj : ToolCall → String) (hph : ∀ k, proj (placeholderToolCall k) = "")
    (toolCalls : List ToolCall) (n i : Nat) :
    fieldAt proj (growToolCalls toolCalls n) i = fieldAt proj toolCalls i := by
  unfold fieldAt growToolCalls
  by_cases hi : i < toolCalls.length
  · rw [List.getElem?_append_left hi]
  · rw [List.getElem?_append_right (by omega), List.getElem?_eq_none (Nat.le_of_not_lt hi)]
    cases h : ((List.range (n + 1 - toolCalls.length)).map
        (fun j => placeholderToolCall (toolCalls.length + j)))[i - toolCalls.length]? with
    | none => rfl
    | some e =>
      rw [List.getElem?_map] at h
      cases hr : (List.range (n + 1 - toolCalls.length))[i - toolCalls.length]? with
      | none => simp [hr] at h
      | some j =>
        simp only [hr, Option.map_some', Option.some.injEq] at h
        subst h
        exact hph _

/-- The accumulator after one fragment with an index. -/
theorem mergeToolCall_shape (toolCalls : List ToolCall) (tc : JVal) (n : Nat)
    (hn : fragmentIndex tc = some n) :
    ∃ toolCall, tc = .obj toolCall ∧
      mergeToolCall toolCalls tc = .ok ((growToolCalls toolCalls n).set n
        (updateToolCall ((growToolCalls toolCalls n).getD n (placeholderToolCall n))
          toolCall)) := by
  cases tc with
  | obj toolCall =>
    simp only [fragmentIndex] at hn
    cases hidx : asNumber (mapIndex toolCall "index") with
    | none => simp [hidx] at hn
    | some index =>
      simp only [hidx] at hn
      by_cases hneg : intOfFloat index < 0
      · simp [hneg] at hn
      · simp only [hneg, if_false, Option.some.injEq] at hn
        exact ⟨toolCall, rfl, by simp only [mergeToolCall, hidx, hneg, if_false, hn]⟩
  | null => simp [fragmentIndex] at hn
  | bool b => simp [fragmentIndex] at hn
  | num k => simp [fragmentIndex] at hn
  | str s => simp [fragmentIndex] at hn
  | arr xs => simp [fragmentIndex] at hn

/-- One fragment changes a string member of its own entry only, and only when it
carries a value for it. -/
theorem mergeToolCall_field (proj : ToolCall → String) (val : JVal → Option String)
    (hph : ∀ k, proj (placeholderToolCall k) = "")
    (hupd : ∀ e m, proj (updateToolCall e m) = (val (.obj m)).getD (proj e))
    (toolCalls merged : List ToolCall) (tc : JVal) (n : Nat)
    (hn : fragmentIndex tc = some n) (hm : mergeToolCall toolCalls tc = .ok merged) (i : Nat) :
    fieldAt proj merged i =
      if i = n then (val tc).getD (fieldAt proj toolCalls i) else fieldAt proj toolCalls i := by
  obtain ⟨toolCall, rfl, hshape⟩ := mergeToolCall_shape toolCalls tc n hn
  rw [hshape] at hm
  cases hm
  have hlen := growToolCalls_length toolCalls n
  have hlt : n < (growToolCalls toolCalls n).length := by omega
  by_cases hi : i = n
  · subst hi
    simp only [fieldAt, List.getElem?_set, if_true, hlt]
    rw [hupd, List.getD_eq_getElem?_getD, List.getElem?_eq_getElem hlt, Option.getD_some]
    have := fieldAt_grow proj hph toolCalls i i
    simp only [fieldAt, List.getElem?_eq_getElem hlt] at this
    rw [this]
  · have hne : ¬ n = i := fun h => hi h.symm
    have := fieldAt_grow proj hph toolCalls n i
    simp only [fieldAt] at this
    simp only [fieldAt, List.getElem?_set, hne, if_false, hi, this]

/-- After fragments with indices, a string member of an entry is the last value
its fragments carried for it. -/
theorem mergeToolCalls_field (proj : ToolCall → String) (val : JVal → Option String)
    (hph : ∀ k, proj (placeholderToolCall k) = "")
    (hupd : ∀ e m, proj (updateToolCall e m) = (val (.obj m)).getD (proj e))
    (fragments : List JVal) :
    ∀ toolCalls merged : List ToolCall,
      (∀ tc ∈ fragments, (fragmentIndex tc).isSome = true) →
      mergeToolCalls toolCalls fragments = .ok merged →
      ∀ i, fieldAt proj merged i =
        (((fragments.filter (fun tc => decide (fragmentIndex tc = some i))).filterMap
          val).getLast?).getD (fieldAt proj toolCalls i) := by
  induction fragments with
  | nil =>
    intro toolCalls merged _ hm i
    simp only [mergeToolCalls, Except.ok.injEq] at hm
    subst hm
    simp
  | cons tc rest ih =>
    intro toolCalls merged hwf hm i
    obtain ⟨n, hn⟩ := Option.isSome_iff_exists.mp (hwf tc (List.mem_cons_self _ _))
    simp only [mergeToolCalls] at hm
    cases h1 : mergeToolCall toolCalls tc with
    | error e => simp [h1] at hm
    | ok m1 =>
      simp only [h1] at hm
      rw [ih m1 merged (fun t ht => hwf t (List.mem_cons_of_mem _ ht)) hm i,
        mergeToolCall_field proj val hph hupd toolCalls m1 tc n hn h1 i]
      by_cases hi : i = n
      · subst hi
        simp only [List.filter_cons, hn, decide_True, if_true, List.filterMap_cons]
        cases hv : val tc with
        | none => simp
        | some v =>
          simp only [List.getLast?_cons, Option.getD_some]
      · have hne : ¬ fragmentIndex tc = some i := by
          rw [hn]; intro h; cases h; exact hi rfl
        simp [List.filter_cons, hne, hi]

/-- Every entry carries its position as index. -/
theorem mergeToolCall_index (toolCalls merged : List ToolCall) (tc : JVal)
    (hok : ∀ (k : Nat) (e : ToolCall), toolCalls[k]? = some e → e.index = k)
    (hm : mergeToolCall toolCalls tc = .ok merged) :
    ∀ (k : Nat) (e : ToolCall), merged[k]? = some e → e.index = k := by
  have hsome : ∃ n, fragmentIndex tc = some n := by
    cases tc with
    | obj toolCall =>
      simp only [mergeToolCall] at hm
      cases hidx : asNumber (mapIndex toolCall "index") with
      | none => simp [hidx] at hm
      | some index =>
        by_cases hneg : intOfFloat index < 0
        · simp [hidx, hneg] at hm
        · exact ⟨(intOfFloat index).toNat, by simp [fragmentIndex, hidx, hneg]⟩
    | null => simp [mergeToolCall] at hm
    | bool b => simp [mergeToolCall] at hm
    | num k => simp [mergeToolCall] at hm
    | str s => simp [mergeToolCall] at hm
    | arr xs => simp [mergeToolCall] at hm
  obtain ⟨n, hn⟩ := hsome
  obtain ⟨toolCall, rfl, hshape⟩ := mergeToolCall_shape toolCalls _ n hn
  rw [hshape] at hm
  cases hm
  have hgrown : ∀ (k : Nat) (e : ToolCall),
      (growToolCalls toolCalls n)[k]? = some e → e.index = k := by
    intro k e hk
    unfold growToolCalls at hk
    by_cases hkl : k < toolCalls.length
    · rw [List.getElem?_append_left hkl] at hk
      exact hok k e hk
    · rw [List.getElem?_append_right (by omega), List.getElem?_map] at hk
      cases hr : (List.range (n + 1 - toolCalls.length))[k - toolCalls.length]? with
      | none => simp [hr] at hk
      | some j =>
        simp only [hr, Option.map_some', Option.some.injEq] at hk
        have hj : j = k - toolCalls.length := by
          have hlt : k - toolCalls.length < (List.range (n + 1 - toolCalls.length)).length := by
            by_contra hcon
            rw [List.getElem?_eq_none (by omega)] at hr
            cases hr
          rw [List.getElem?_eq_getElem hlt, List.getElem_range] at hr
          exact (Option.some.inj hr).symm
        rw [← hk, hj]
        simp only [placeholderToolCall]
        omega
  have hlen := growToolCalls_length toolCalls n
  have hlt : n < (growToolCalls toolCalls n).length := by omega
  intro k e hk
  rw [List.getElem?_set] at hk
  by_cases hnk : n = k
  · subst hnk
    simp only [if_true, hlt, Option.some.injEq] at hk
    rw [← hk, updateToolCall_index, List.getD_eq_getElem?_getD, List.getElem?_eq_getElem hlt,
      Option.getD_some]
    exact hgrown n _ (List.getElem?_eq_getElem hlt)
  · simp only [hnk, if_false] at hk
    exact hgrown k e hk

theorem mergeToolCalls_index (fragments : List JVal) :
    ∀ toolCalls merged : List ToolCall,
      (∀ (k : Nat) (e : ToolCall), toolCalls[k]? = some e → e.index = k) →
      mergeToolCalls toolCalls fragments = .ok merged →
      ∀ (k : Nat) (e : ToolCall), merged[k]? = some e → e.index = k := by
  induction fragments with
  | nil =>
    intro toolCalls merged hok hm
    simp only [mergeToolCalls, Except.ok.injEq] at hm
    subst hm
    exact hok
  | cons tc rest ih =>
    intro toolCalls merged hok hm
    simp only [mergeToolCalls] at hm
    cases h1 : mergeToolCall toolCalls tc with
    | error e => simp [h1] at hm
    | ok m1 =>
      simp only [h1] at hm
      exact ih m1 merged (mergeToolCall_index toolCalls m1 tc hok h1) hm

/-- The length of the accumulator after fragments with indices. -/
theorem mergeToolCalls_length (fragments : List JVal) :
    ∀ toolCalls merged : List ToolCall,
      (∀ tc ∈ fragments, (fragmentIndex tc).isSome = true) →
      mergeToolCalls toolCalls fragments = .ok merged →
      merged.length = max toolCalls.length (neededLength fragments) := by
  induction fragments with
  | nil =>
    intro toolCalls merged _ hm
    simp only [mergeToolCalls, Except.ok.injEq] at hm
    subst hm
    simp [neededLength]
  | cons tc rest ih =>
    intro toolCalls merged hwf hm
    obtain ⟨n, hn⟩ := Option.isSome_iff_exists.mp (hwf tc (List.mem_cons_self _ _))
    simp only [mergeToolCalls] at hm
    obtain ⟨m1, h1, hl1, _⟩ := mergeToolCall_ok toolCalls tc n hn
    simp only [h1] at hm
    rw [ih m1 merged (fun t ht => hwf t (List.mem_cons_of_mem _ ht)) hm, hl1]
    simp only [neededLength, List.filterMap_cons, hn, List.foldr_cons]
    omega

theorem neededLength_attained (fragments : List JVal)
    (hwf : ∀ tc ∈ fragments, (fragmentIndex tc).isSome = true) (hne : fragments ≠ []) :
    ∃ tc ∈ fragments, ∃ n, fragmentIndex tc = some n ∧ neededLength fragments = n + 1 := by
  induction fragments with
  | nil => exact absurd rfl hne
  | cons tc rest ih =>
    obtain ⟨n, hn⟩ := Option.isSome_iff_exists.mp (hwf tc (List.mem_cons_self _ _))
    have hstep : neededLength (tc :: rest) = max (n + 1) (neededLength rest) := by
      simp only [neededLength, List.filterMap_cons, hn, List.foldr_cons]
    by_cases hrest : rest = []
    · subst hrest
      exact ⟨tc, List.mem_cons_self _ _, n, hn, by rw [hstep]; simp [neededLength]⟩
    · obtain ⟨t, ht, k, hk, hkl⟩ := ih (fun t ht => hwf t (List.mem_cons_of_mem _ ht)) hrest
      by_cases hcmp : neededLength rest ≤ n + 1
      · exact ⟨tc, List.mem_cons_self _ _, n, hn, by rw [hstep]; omega⟩
      · exact ⟨t, List.mem_cons_of_mem _ ht, k, hk, by rw [hstep]; omega⟩

/-! ## Lemmas on the stream aggregation -/

/-- The response after the finish reason of a frame, if it has one, was stored. -/
theorem mergeChoice_sound (fullResponse : ChatCompletionResponse) (content : String)
    (toolCalls : List ToolCall) (chunk : List (String × JVal))
    (r : ChatCompletionResponse × String × List ToolCall)
    (h : mergeChoice fullResponse content toolCalls chunk = .ok r) :
    mergeToolCalls toolCalls (frameToolCalls chunk) = .ok r.2.2 ∧
      r.2.1 = content ++ frameContent chunk ∧
      r.1 = (match frameFinishReason chunk with
        | some finishReason =>
          { fullResponse with Choices := setFinishReason fullResponse.Choices finishReason }
        | none => fullResponse) := by
  unfold mergeChoice at h
  unfold frameToolCalls frameContent frameFinishReason choiceWithDelta
  cases hc : asSlice (mapIndex chunk "choices") with
  | none =>
    simp only [hc, Except.ok.injEq] at h
    subst h
    simp [mergeToolCalls]
  | some choices =>
    cases choices with
    | nil =>
      simp only [hc, Except.ok.injEq] at h
      subst h
      simp [mergeToolCalls]
    | cons first rest =>
      cases first with
      | obj choice =>
        simp only [hc] at h
        cases hd : asMap (mapIndex choice "delta") with
        | none =>
          simp only [hd, Except.ok.injEq] at h
          subst h
          simp [hd, mergeToolCalls]
        | some delta =>
          simp only [hd] at h
          have hm : ∃ t1, (match asSlice (mapIndex delta "tool_calls") with
              | some deltaToolCalls => mergeToolCalls toolCalls deltaToolCalls
              | none => Except.ok toolCalls) = .ok t1 := by
            cases hmm : (match asSlice (mapIndex delta "tool_calls") with
              | some deltaToolCalls => mergeToolCalls toolCalls deltaToolCalls
              | none => Except.ok toolCalls) with
            | ok t1 => exact ⟨t1, rfl⟩
            | error e => simp [hmm] at h
          obtain ⟨t1, ht1⟩ := hm
          simp only [ht1, Except.ok.injEq] at h
          subst h
          simp only [hd]
          refine ⟨?_, ?_, ?_⟩
          · cases hs : asSlice (mapIndex delta "tool_calls") with
            | none => simpa [hs, mergeToolCalls] using ht1
            | some tcs => simpa [hs] using ht1
          · cases hs : asString (mapIndex delta "content") with
            | none => simp
            | some s => by_cases he : s = "" <;> simp [he]
          · cases hs : asString (mapIndex choice "finish_reason") with
            | none => simp
            | some s => by_cases he : s = "" <;> simp [he]
      | null => simp [hc] at h
      | bool b => simp [hc] at h
      | num n => simp [hc] at h
      | str s => simp [hc] at h
      | arr xs => simp [hc] at h

/-- A well-formed frame is merged without panic. -/
theorem mergeChoice_total (fullResponse : ChatCompletionResponse) (content : String)
    (toolCalls : List ToolCall) (chunk : List (String × JVal))
    (hwf : wellFormedFrame chunk = true) :
    ∃ r, mergeChoice fullResponse content toolCalls chunk = .ok r := by
  unfold wellFormedFrame frameToolCalls choiceWithDelta at hwf
  unfold mergeChoice
  cases hc : asSlice (mapIndex chunk "choices") with
  | none => exact ⟨_, rfl⟩
  | some choices =>
    cases choices with
    | nil => exact ⟨_, rfl⟩
    | cons first rest =>
      cases first with
      | obj choice =>
        simp only [hc, Bool.true_and] at hwf
        cases hd : asMap (mapIndex choice "delta") with
        | none => simp only [hd]; exact ⟨_, rfl⟩
        | some delta =>
          simp only [hd] at hwf ⊢
          cases hs : asSlice (mapIndex delta "tool_calls") with
          | none => simp only [hs]; exact ⟨_, rfl⟩
          | some tcs =>
            simp only [hs, Option.getD_some, List.all_eq_true] at hwf
            obtain ⟨t1, ht1, _⟩ := mergeToolCalls_ok tcs toolCalls hwf
            simp only [hs, ht1]
            exact ⟨_, rfl⟩
      | null => simp [hc] at hwf
      | bool b => simp [hc] at hwf
      | num n => simp [hc] at hwf
      | str s => simp [hc] at hwf
      | arr xs => simp [hc] at hwf

theorem initResponse_sound (chunk : List (String × JVal)) (fullResponse : ChatCompletionResponse)
    (h : initResponse chunk = .ok fullResponse) : fullResponse.Choices = [] := by
  unfold initResponse at h
  cases h1 : asString (mapIndex chunk "id") with
  | none => simp [h1] at h
  | some id =>
    cases h2 : asNumber (mapIndex chunk "created") with
    | none => simp [h1, h2] at h
    | some created =>
      cases h3 : asString (mapIndex chunk "model") with
      | none => simp [h1, h2, h3] at h
      | some model =>
        cases h4 : mapIndex chunk "system_fingerprint" with
        | none =>
          simp only [h1, h2, h3, h4, Except.ok.injEq] at h
          rw [← h]
        | some fp =>
          cases fp with
          | str s =>
            simp only [h1, h2, h3, h4, Except.ok.injEq] at h
            rw [← h]
          | null => simp [h1, h2, h3, h4] at h
          | bool b => simp [h1, h2, h3, h4] at h
          | num n => simp [h1, h2, h3, h4] at h
          | arr xs => simp [h1, h2, h3, h4] at h
          | obj kvs => simp [h1, h2, h3, h4] at h

theorem initResponse_total (chunk : List (String × JVal)) (hwf : wellFormedFirst chunk = true) :
    ∃ fullResponse, initResponse chunk = .ok fullResponse := by
  unfold wellFormedFirst at hwf
  simp only [Bool.and_eq_true] at hwf
  obtain ⟨⟨⟨h1, h2⟩, h3⟩, h4⟩ := hwf
  obtain ⟨id, h1⟩ := Option.isSome_iff_exists.mp h1
  obtain ⟨created, h2⟩ := Option.isSome_iff_exists.mp h2
  obtain ⟨model, h3⟩ := Option.isSome_iff_exists.mp h3
  unfold initResponse
  cases h5 : mapIndex chunk "system_fingerprint" with
  | none => simp only [h1, h2, h3]; exact ⟨_, rfl⟩
  | some fp =>
    cases fp with
    | str s => simp only [h1, h2, h3]; exact ⟨_, rfl⟩
    | null => simp [h5] at h4
    | bool b => simp [h5] at h4
    | num n => simp [h5] at h4
    | arr xs => simp [h5] at h4
    | obj kvs => simp [h5] at h4

/-- What one frame changes in the state, when it is merged without panic. -/
theorem processChunk_sound (st st1 : AggState) (chunk : List (String × JVal))
    (h : processChunk st chunk = .ok st1) :
    st1.fullResponse ≠ none ∧
      st1.content = st.content ++ frameContent chunk ∧
      mergeToolCalls st.toolCalls (frameToolCalls chunk) = .ok st1.toolCalls ∧
      st1.choices = stepFinishReason st.choices chunk := by
  unfold processChunk at h
  have key : ∀ fullResponse : ChatCompletionResponse, fullResponse.Choices = st.choices →
      (match mergeChoice fullResponse st.content st.toolCalls chunk with
        | .error reason => Except.error reason
        | .ok r => Except.ok (⟨some r.1, r.2.1, r.2.2, mergeUsage chunk st.usage⟩ : AggState)) =
        .ok st1 →
      st1.fullResponse ≠ none ∧
        st1.content = st.content ++ frameContent chunk ∧
        mergeToolCalls st.toolCalls (frameToolCalls chunk) = .ok st1.toolCalls ∧
        st1.choices = stepFinishReason st.choices chunk := by
    intro fullResponse hch hm
    cases hmc : mergeChoice fullResponse st.content st.toolCalls chunk with
    | error e => simp [hmc] at hm
    | ok r =>
      simp only [hmc, Except.ok.injEq] at hm
      obtain ⟨h1, h2, h3⟩ := mergeChoice_sound _ _ _ _ _ hmc
      subst hm
      refine ⟨by simp, h2, h1, ?_⟩
      simp only [AggState.choices, stepFinishReason, h3]
      cases frameFinishReason chunk with
      | none => simpa [AggState.choices] using hch
      | some fr =>
        have : st.choices = fullResponse.Choices := hch.symm
        simp [AggState.choices] at this
        simp [this]
  cases hfr : st.fullResponse with
  | some fullResponse =>
    simp only [hfr] at h
    exact key fullResponse (by simp [AggState.choices, hfr]) h
  | none =>
    simp only [hfr] at h
    cases hi : initResponse chunk with
    | error e => simp [hi] at h
    | ok fullResponse =>
      simp only [hi] at h
      exact key fullResponse
        (by simp [AggState.choices, hfr, initResponse_sound chunk fullResponse hi]) h

/-- A well-formed frame is merged into the state without panic. -/
theorem processChunk_total (st : AggState) (chunk : List (String × JVal))
    (hwf : wellFormedFrame chunk = true)
    (hfirst : st.fullResponse = none → wellFormedFirst chunk = true) :
    ∃ st1, processChunk st chunk = .ok st1 := by
  unfold processChunk
  cases hfr : st.fullResponse with
  | some fullResponse =>
    obtain ⟨r, hr⟩ := mergeChoice_total fullResponse st.content st.toolCalls chunk hwf
    simp only [hr]
    exact ⟨_, rfl⟩
  | none =>
    obtain ⟨fullResponse, hi⟩ := initResponse_total chunk (hfirst hfr)
    obtain ⟨r, hr⟩ := mergeChoice_total fullResponse st.content st.toolCalls chunk hwf
    simp only [hi, hr]
    exact ⟨_, rfl⟩

/-- What the loop has merged when it ends without panic. -/
theorem aggregateLines_sound : ∀ (lines : List StreamLine) (st st1 : AggState),
    aggregateLines st lines = .ok st1 →
      st1.content = st.content ++ concatStrings ((framesBeforeDone lines).map frameContent) ∧
      mergeToolCalls st.toolCalls ((framesBeforeDone lines).map frameToolCalls).flatten =
        .ok st1.toolCalls ∧
      st1.choices = (framesBeforeDone lines).foldl stepFinishReason st.choices ∧
      (st1.fullResponse = none ↔ st.fullResponse = none ∧ framesBeforeDone lines = []) ∧
      (framesBeforeDone lines = [] → st1 = st) := by
  intro lines
  induction lines with
  | nil =>
    intro st st1 h
    simp only [aggregateLines, Except.ok.injEq] at h
    subst h
    simp [framesBeforeDone, concatStrings, mergeToolCalls]
  | cons line rest ih =>
    intro st st1 h
    cases line with
    | skipped =>
      simp only [aggregateLines] at h
      simpa [framesBeforeDone] using ih st st1 h
    | done =>
      simp only [aggregateLines, Except.ok.injEq] at h
      subst h
      simp [framesBeforeDone, concatStrings, mergeToolCalls]
    | data payload =>
      simp only [aggregateLines] at h
      cases hu : unmarshalMap payload with
      | none =>
        simp only [hu] at h
        simpa [framesBeforeDone, hu] using ih st st1 h
      | some chunk =>
        simp only [hu] at h
        cases hp : processChunk st chunk with
        | error e => simp [hp] at h
        | ok st2 =>
          simp only [hp] at h
          obtain ⟨p1, p2, p3, p4⟩ := processChunk_sound st st2 chunk hp
          obtain ⟨i1, i2, i3, i4, _⟩ := ih st2 st1 h
          simp only [framesBeforeDone, hu, List.map_cons, List.flatten_cons, List.foldl_cons,
            concatStrings]
          refine ⟨?_, ?_, ?_, ?_, ?_⟩
          · rw [i1, p2, String.append_assoc]
          · rw [mergeToolCalls_append, p3]
            exact i2
          · rw [i3, p4]
          · constructor
            · intro hn
              exact absurd (i4.mp hn).1 p1
            · intro hn
              simp at hn
          · intro hn
            simp at hn

/-- Well-formed frames, the first of them fit to be the first one, are merged
without panic. -/
theorem aggregateLines_total : ∀ (lines : List StreamLine) (st : AggState),
    (∀ f ∈ framesBeforeDone lines, wellFormedFrame f = true) →
    (st.fullResponse = none →
      ∀ f, (framesBeforeDone lines).head? = some f → wellFormedFirst f = true) →
    ∃ st1, aggregateLines st lines = .ok st1 := by
  intro lines
  induction lines with
  | nil => intro st _ _; exact ⟨st, rfl⟩
  | cons line rest ih =>
    intro st hwf hfirst
    cases line with
    | skipped =>
      simp only [aggregateLines]
      exact ih st (by simpa [framesBeforeDone] using hwf) (by simpa [framesBeforeDone] using hfirst)
    | done => exact ⟨st, rfl⟩
    | data payload =>
      simp only [aggregateLines]
      cases hu : unmarshalMap payload with
      | none =>
        simp only [framesBeforeDone, hu] at hwf hfirst
        exact ih st hwf hfirst
      | some chunk =>
        simp only [framesBeforeDone, hu] at hwf hfirst
        obtain ⟨st2, hp⟩ := processChunk_total st chunk (hwf chunk (List.mem_cons_self _ _))
          (fun hn => hfirst hn chunk rfl)
        have hne := (processChunk_sound st st2 chunk hp).1
        simp only [hp]
        exact ih st2 (fun f hf => hwf f (List.mem_cons_of_mem _ hf))
          (fun hn => absurd hn hne)

/-- The choices after the frames: one choice with the last finish reason when a
frame carried one. -/
theorem choices_fold (frames : List (List (String × JVal))) :
    ∀ cs : List ChatCompletionChoice,
      (cs = [] ∨ ∃ r, cs = [⟨0, ⟨"", "", "", none⟩, r⟩]) →
      frames.foldl stepFinishReason cs =
        match (frames.filterMap frameFinishReason).getLast? with
        | some r => [⟨0, ⟨"", "", "", none⟩, r⟩]
        | none => cs := by
  induction frames with
  | nil => intro cs _; simp
  | cons f fs ih =>
    intro cs hcs
    simp only [List.foldl_cons, List.filterMap_cons, stepFinishReason]
    cases hf : frameFinishReason f with
    | none => simpa using ih cs hcs
    | some r0 =>
      have hset : setFinishReason cs r0 = [⟨0, ⟨"", "", "", none⟩, r0⟩] := by
        rcases hcs with rfl | ⟨r, rfl⟩ <;> rfl
      simp only [hset, List.getLast?_cons]
      rw [ih _ (Or.inr ⟨r0, rfl⟩)]
      cases (List.filterMap frameFinishReason fs).getLast? <;> rfl

theorem concatStrings_filter (l : List String) :
    concatStrings (l.filter (fun s => !decide (s = ""))) = concatStrings l := by
  induction l with
  | nil => rfl
  | cons s rest ih =>
    by_cases hs : s = ""
    · simp [List.filter_cons, hs, concatStrings, ih]
    · simp [List.filter_cons, hs, concatStrings, ih]

theorem marshal_choices (r : ChatCompletionResponse) :
    gjsonGet r.marshal ["choices"] = some (.arr (r.Choices.map ChatCompletionChoice.marshal)) := by
  unfold ChatCompletionResponse.marshal
  by_cases h : r.SystemFingerprint = ""
  · simp [h, gjsonGet, child, lookupKey]
  · simp [h, gjsonGet, child, lookupKey]

/-- The members of the only choice in the text of a response. -/
theorem marshal_choice_fields (r : ChatCompletionResponse) (c : ChatCompletionChoice)
    (h : r.Choices = [c]) :
    gjsonGet r.marshal ["choices"] = some (.arr [c.marshal]) ∧
      gjsonGet r.marshal ["choices", "0", "message", "role"] = some (.str c.Message.Role) ∧
      gjsonGet r.marshal ["choices", "0", "message", "content"] =
        some (.str c.Message.Content) ∧
      gjsonGet r.marshal ["choices", "0", "finish_reason"] = some (.str c.FinishReason) ∧
      gjsonGet r.marshal ["choices", "1"] = none := by
  have h0 : pathIndex "0" = some 0 := by decide
  have h1 : pathIndex "1" = some 1 := by decide
  have hc := marshal_choices r
  rw [h] at hc
  have step : ∀ q : List String, gjsonGet r.marshal ("choices" :: q) =
      gjsonGet (.arr [c.marshal]) q := by
    intro q
    have := gjsonGet_append ["choices"] q r.marshal
    rw [hc] at this
    simpa using this
  refine ⟨hc, ?_, ?_, ?_, ?_⟩
  · rw [step]
    simp [gjsonGet, child, h0, ChatCompletionChoice.marshal, Message.marshal, lookupKey]
  · rw [step]
    simp [gjsonGet, child, h0, ChatCompletionChoice.marshal, Message.marshal, lookupKey]
  · rw [step]
    simp [gjsonGet, child, h0, ChatCompletionChoice.marshal, lookupKey]
  · rw [step]
    simp [gjsonGet, child, h1]

/-- The text of a message never has a member `tool_calls`. -/
theorem marshal_no_tool_calls (r : ChatCompletionResponse) :
    gjsonGet r.marshal ["choices", "0", "message", "tool_calls"] = none := by
  have h0 : pathIndex "0" = some 0 := by decide
  have hc := marshal_choices r
  have := gjsonGet_append ["choices"] ["0", "message", "tool_calls"] r.marshal
  rw [hc] at this
  simp only [List.cons_append, List.nil_append, Option.bind_some] at this
  rw [this]
  cases hch : r.Choices with
  | nil => simp [gjsonGet, child, h0]
  | cons c cs =>
    by_cases hn : c.Message.Name = ""
    · simp [gjsonGet, child, h0, ChatCompletionChoice.marshal, Message.marshal, lookupKey, hn]
    · simp [gjsonGet, child, h0, ChatCompletionChoice.marshal, Message.marshal, lookupKey, hn]

/-- Without a `null` payload, the loop decodes a frame exactly when a frame with
an object as payload comes before `[DONE]` or the end. -/
theorem framesBeforeDone_nil_iff : ∀ lines : List StreamLine,
    (∀ l ∈ lines, l ≠ .data (some .null)) →
    (framesBeforeDone lines = [] ↔ objectFrameSeen lines = false) := by
  intro lines
  induction lines with
  | nil => intro _; simp [framesBeforeDone, objectFrameSeen]
  | cons line rest ih =>
    intro hnull
    have ih1 := ih (fun l hl => hnull l (List.mem_cons_of_mem _ hl))
    cases line with
    | skipped => simpa [framesBeforeDone, objectFrameSeen] using ih1
    | done => simp [framesBeforeDone, objectFrameSeen]
    | data payload =>
      cases payload with
      | none => simpa [framesBeforeDone, objectFrameSeen, unmarshalMap] using ih1
      | some v =>
        cases v with
        | obj kvs => simp [framesBeforeDone, objectFrameSeen, unmarshalMap]
        | null => exact absurd rfl (hnull _ (List.mem_cons_self _ _))
        | bool b => simpa [framesBeforeDone, objectFrameSeen, unmarshalMap] using ih1
        | num n => simpa [framesBeforeDone, objectFrameSeen, unmarshalMap] using ih1
        | str s => simpa [framesBeforeDone, objectFrameSeen, unmarshalMap] using ih1
        | arr xs => simpa [framesBeforeDone, objectFrameSeen, unmarshalMap] using ih1

/-- The payload of a frame is never `null` once the upstream client has set its
member `model` (lines 304-307 of the stream goroutine). -/
theorem rewritten_payload_ne_null (d : JVal) (name : String) :
    sjsonSetIgnoreErr (sjsonDelete d ["provider"]) ["model"] (.str name) ≠ .null := by
  have hp : pathIndex "provider" = none := by decide
  have hm : pathIndex "model" = none := by decide
  cases d with
  | obj kvs =>
    obtain ⟨kvs1, h, _⟩ := rewrite_object kvs name
    rw [h]
    simp
  | arr xs => simp [sjsonDelete, sjsonSetIgnoreErr, sjsonSet, hp, hm]
  | null => simp [sjsonDelete, sjsonSetIgnoreErr, sjsonSet, jbuild, hm]
  | bool b => simp [sjsonDelete, sjsonSetIgnoreErr, sjsonSet, jbuild, hm]
  | num n => simp [sjsonDelete, sjsonSetIgnoreErr, sjsonSet, jbuild, hm]
  | str s => simp [sjsonDelete, sjsonSetIgnoreErr, sjsonSet, jbuild, hm]

theorem frameFinishReason_eq (chunk : List (String × JVal)) :
    frameFinishReason chunk = if hasDelta chunk = true then choiceFinishReason chunk else none := by
  unfold frameFinishReason hasDelta choiceFinishReason choiceWithDelta
  cases hc : asSlice (mapIndex chunk "choices") with
  | none => simp
  | some choices =>
    cases choices with
    | nil => simp
    | cons first rest =>
      cases first with
      | obj choice =>
        cases hd : asMap (mapIndex choice "delta") with
        | none => simp [hd]
        | some delta => simp [hd]
      | null => simp
      | bool b => simp
      | num n => simp
      | str s => simp
      | arr xs => simp

theorem getLast?_filterMap_last {α β : Type} (g : α → Option β) (pre post : List α) (f : α)
    (r : β) (hf : g f = some r) (hpost : ∀ x ∈ post, g x = none) :
    ((pre ++ f :: post).filterMap g).getLast? = some r := by
  have hnil : post.filterMap g = [] := List.filterMap_eq_nil_iff.mpr hpost
  rw [List.filterMap_append, List.filterMap_cons, hf, hnil]
  exact List.getLast?_concat _

/-- The response the aggregator returns for well-formed frames, at least one. -/
theorem aggregate_of_frames (usage : Usage) (lines : List StreamLine)
    (first : List (String × JVal)) (others : List (List (String × JVal)))
    (hframes : framesBeforeDone lines = first :: others)
    (hfirst : wellFormedFirst first = true)
    (hwf : ∀ f ∈ first :: others, wellFormedFrame f = true) :
    ∃ (fullResponse : ChatCompletionResponse) (st1 : AggState),
      aggregateLines ⟨none, "", [], usage⟩ lines = .ok st1 ∧
      st1.content = concatStrings ((first :: others).map frameContent) ∧
      aggregate usage lines = .returned ⟨some
        ({ fullResponse with
            Choices := [⟨0, ⟨"assistant", st1.content, "",
              if st1.toolCalls.length > 0 then some st1.toolCalls else none⟩,
              (((first :: others).filterMap frameFinishReason).getLast?).getD ""⟩],
            Usage := st1.usage } : ChatCompletionResponse).marshal, none, none, st1.usage⟩ := by
  obtain ⟨st1, hagg⟩ := aggregateLines_total lines ⟨none, "", [], usage⟩
    (by rw [hframes]; exact hwf)
    (by
      intro _ f hf
      rw [hframes] at hf
      simp only [List.head?_cons, Option.some.injEq] at hf
      rw [← hf]; exact hfirst)
  obtain ⟨s1, _, s3, s4, _⟩ := aggregateLines_sound lines _ st1 hagg
  rw [hframes] at s1 s3 s4
  have hne : st1.fullResponse ≠ none := by
    intro hn
    have := (s4.mp hn).2
    simp at this
  obtain ⟨fullResponse, hfr⟩ := Option.ne_none_iff_exists'.mp hne
  have hch : fullResponse.Choices =
      match ((first :: others).filterMap frameFinishReason).getLast? with
      | some r => [⟨0, ⟨"", "", "", none⟩, r⟩]
      | none => [] := by
    have hfold := choices_fold (first :: others) [] (Or.inl rfl)
    have hs3 : st1.choices = fullResponse.Choices := by simp [AggState.choices, hfr]
    rw [← hs3, s3]
    exact hfold
  have hfin : finishResponse st1 =
      some { fullResponse with
        Choices := [⟨0, ⟨"assistant", st1.content, "",
          if st1.toolCalls.length > 0 then some st1.toolCalls else none⟩,
          (((first :: others).filterMap frameFinishReason).getLast?).getD ""⟩],
        Usage := st1.usage } := by
    simp only [finishResponse, hfr, hch]
    cases hg : ((first :: others).filterMap frameFinishReason).getLast? <;> simp
  refine ⟨fullResponse, st1, hagg, ?_, ?_⟩
  · rw [s1]; exact String.empty_append _
  · simp only [aggregate, hagg, hfin]

/-! ## Lemmas on the order of dispatch -/

theorem reorderModels_getElem? (L : List Model) (s i : Nat) (hi : i < L.length) :
    (reorderModels L s)[i]? = L[(s + i) % L.length]? := by
  rw [reorderModels_eq_rotate, List.getElem?_rotate hi, Nat.add_comm]

theorem mem_take_enumFrom_lt (l : List Model) (k : Nat) (p : Nat × Model)
    (h : p ∈ (l.enumFrom 0).take k) : p.1 < k := by
  obtain ⟨j, hj, hp⟩ := List.mem_iff_getElem.mp h
  have hjk : j < k := by
    have := hj
    simp only [List.length_take] at this
    omega
  have hjl : j < (l.enumFrom 0).length := by
    have := hj
    simp only [List.length_take] at this
    omega
  rw [List.getElem_take] at hp
  have h2 : (l.enumFrom 0)[j]? = some p := by
    rw [List.getElem?_eq_getElem hjl, hp]
  rw [List.getElem?_enumFrom] at h2
  cases hl : l[j]? with
  | none => simp [hl] at h2
  | some m =>
    simp only [hl, Option.map_some', Option.some.injEq] at h2
    rw [← h2]
    simpa using hjk

/-- When every position of the list has a failed attempt, the attempts are the
candidates of the list, each one once and in list order. -/
theorem dispatchLoop_all_positions (factory : FactoryLookup) (attempt : Attempt)
    (cands : List Model) (rawJson : JVal)
    (h : ∀ i, i < cands.length →
      ∃ a ∈ (dispatchLoop factory attempt cands 0 rawJson none ⟨[], []⟩).attempts,
        a.position = i) :
    (dispatchLoop factory attempt cands 0 rawJson none ⟨[], []⟩).attempts.map
        (fun a => (a.position, a.model)) = cands.enum ∧
    (dispatchLoop factory attempt cands 0 rawJson none ⟨[], []⟩).attempts.map
        (fun a => a.model) = cands := by
  have htr := (dispatchLoop_trace factory attempt cands 0 rawJson none).1
  have hle := dispatchLoop_attempts_le factory attempt cands 0 rawJson none
  have hlen : (dispatchLoop factory attempt cands 0 rawJson none ⟨[], []⟩).attempts.length =
      cands.length := by
    by_contra hne
    have hlt : (dispatchLoop factory attempt cands 0 rawJson none ⟨[], []⟩).attempts.length <
        cands.length := by omega
    obtain ⟨a, ha, hpos⟩ := h _ hlt
    have hmem : (a.position, a.model) ∈
        (dispatchLoop factory attempt cands 0 rawJson none ⟨[], []⟩).attempts.map
          (fun a => (a.position, a.model)) := List.mem_map.mpr ⟨a, ha, rfl⟩
    rw [htr] at hmem
    have := mem_take_enumFrom_lt _ _ _ hmem
    simp only [hpos] at this
    omega
  have henum : (dispatchLoop factory attempt cands 0 rawJson none ⟨[], []⟩).attempts.map
      (fun a => (a.position, a.model)) = cands.enum := by
    rw [htr, hlen, List.enum]
    exact List.take_of_length_le (by simp)
  refine ⟨henum, ?_⟩
  have := congrArg (List.map Prod.snd) henum
  simpa [List.map_map, Function.comp, List.enum_map_snd] using this

/-- Round robin for requests that name one model: N + 1 consecutive requests for
`modelName` under one load-balance key K, whose candidate list has N >= 1 entries
and whose cursor is c < N, use the start indices (c + k) mod N for k = 0, ..., N
whatever the attempts do; the first N start indices are the numbers 0..N-1, each
exactly once; the (N+1)th request reads c again and runs over the candidate list
rotated by c, as the first one does. -/
theorem serveAll_round_robin (cfg : Config) (factory : FactoryLookup)
    (modelName K : String) (cursors : CursorMap) (reqs : List ChatRequest)
    (hN : 1 ≤ (filterModels cfg.Models modelName []).length)
    (hc : cursors K < (filterModels cfg.Models modelName []).length)
    (hname : ∀ rq ∈ reqs, gjsonGet rq.rawJson ["model"] = some (.str modelName))
    (hkey : ∀ rq ∈ reqs, loadBalanceKey modelName rq.customProviderNames = K)
    (hlen : reqs.length = (filterModels cfg.Models modelName []).length + 1) :
    (∀ k, k ≤ (filterModels cfg.Models modelName []).length →
      ((serveAll cfg factory cursors reqs)[k]?).map (fun r => r.startIndex) =
        some (some ((cursors K + k) % (filterModels cfg.Models modelName []).length))) ∧
    (((serveAll cfg factory cursors reqs).take
        (filterModels cfg.Models modelName []).length).filterMap (fun r => r.startIndex)).Perm
      (List.range (filterModels cfg.Models modelName []).length) ∧
    ((serveAll cfg factory cursors reqs)[(filterModels cfg.Models modelName []).length]?).map
        (fun r => r.startIndex) = some (some (cursors K)) ∧
    ((serveAll cfg factory cursors reqs)[(filterModels cfg.Models modelName []).length]?).map
        (fun r => r.order) =
      some ((filterModels cfg.Models modelName []).rotate (cursors K)) ∧
    ((serveAll cfg factory cursors reqs)[0]?).map (fun r => r.order) =
      some ((filterModels cfg.Models modelName []).rotate (cursors K)) := by
  have hne : (filterModels cfg.Models modelName []).length ≠ 0 := by omega
  have hrot := serveAll_rotation cfg factory modelName K hne reqs cursors hc hname hkey
  generalize (filterModels cfg.Models modelName []) = cands at *
  generalize serveAll cfg factory cursors reqs = results at *
  have hidx : ∀ k, k ≤ cands.length →
      (results[k]?).map (fun r => (r.startIndex, r.order)) =
        some (some ((cursors K + k) % cands.length),
          reorderModels cands ((cursors K + k) % cands.length)) := by
    intro k hk
    rw [← List.getElem?_map, hrot, List.getElem?_map, hlen,
      List.getElem?_range (by omega)]
    rfl
  have hfst : ∀ k, k ≤ cands.length →
      (results[k]?).map (fun r => r.startIndex) =
        some (some ((cursors K + k) % cands.length)) := by
    intro k hk
    have := congrArg (Option.map Prod.fst) (hidx k hk)
    simpa [Option.map_map, Function.comp_def] using this
  have hsnd : ∀ k, k ≤ cands.length →
      (results[k]?).map (fun r => r.order) =
        some (reorderModels cands ((cursors K + k) % cands.length)) := by
    intro k hk
    have := congrArg (Option.map Prod.snd) (hidx k hk)
    simpa [Option.map_map, Function.comp_def] using this
  refine ⟨hfst, ?_, ?_, ?_, ?_⟩
  · have hmap : (results.take cands.length).map (fun r => r.startIndex) =
        (List.range cands.length).map (fun k => some ((cursors K + k) % cands.length)) := by
      have h2 := congrArg (fun l => (l.take cands.length).map Prod.fst) hrot
      simp only [← List.map_take, List.map_map, hlen, List.take_range] at h2
      simpa [Function.comp_def] using h2
    have hfm : (results.take cands.length).filterMap (fun r => r.startIndex) =
        ((results.take cands.length).map (fun r => r.startIndex)).filterMap id := by
      rw [List.filterMap_map]; rfl
    rw [hfm, hmap, List.filterMap_map]
    have : (List.range cands.length).filterMap
        (id ∘ fun k => some ((cursors K + k) % cands.length)) =
        (List.range cands.length).map (fun k => (cursors K + k) % cands.length) := by
      rw [← List.filterMap_eq_map]; rfl
    rw [this]
    exact shifted_range_perm _ _
  · have := hfst cands.length (le_refl _)
    rw [this, Nat.add_mod_right, Nat.mod_eq_of_lt hc]
  · have := hsnd cands.length (le_refl _)
    rw [this, Nat.add_mod_right, Nat.mod_eq_of_lt hc, reorderModels_eq_rotate]
  · have := hsnd 0 (Nat.zero_le _)
    rw [this, Nat.add_zero, Nat.mod_eq_of_lt hc, reorderModels_eq_rotate]

/-! ## Claims -/

/-- Claim C1 at failing inputs: requests under the load-balance key `gpt-4o-mini`,
which the name `gpt-4o-mini` without provider filter and the name `gpt-4o` with
the filter `mini` both get, with the cursor at 0.  Over the table with three
backends for `gpt-4o-mini` and two for `gpt-4o`, four consecutive requests under
the key use the start indices 0, 1, 0, 1: among the first three the index 2 is
not used and 0 is used twice, and the fourth does not start at 0 again.  Over the
table with two backends for each name, the third of three consecutive requests
under the key starts at 0 again but runs over the backends of `gpt-4o`, which is
not the candidate order of the first request. -/
theorem round_robin_broken_by_shared_key :
    loadBalanceKey "gpt-4o-mini" [] = "gpt-4o-mini" ∧
    loadBalanceKey "gpt-4o" ["mini"] = "gpt-4o-mini" ∧
    (filterModels demoConfigUneven.Models "gpt-4o-mini" []).length = 3 ∧
    (serveAll demoConfigUneven .working noCursors
        [demoRequestMini, demoRequestFiltered, demoRequestMini, demoRequestMini]).map
        (fun r => (r.startIndex, r.order.map (fun m => m.ID))) =
      [(some 0, [3, 4, 5]), (some 1, [2, 1]), (some 0, [3, 4, 5]), (some 1, [4, 5, 3])] ∧
    (filterModels demoConfigMini.Models "gpt-4o-mini" []).length = 2 ∧
    (serveAll demoConfigMini .working noCursors
        [demoRequestMini, demoRequestMini, demoRequestFiltered]).map
        (fun r => (r.startIndex, r.order.map (fun m => m.ID))) =
      [(some 0, [3, 4]), (some 1, [4, 3]), (some 0, [1, 2])] := by
  refine ⟨by decide, by decide, by decide, by decide, by decide, by decide⟩

/-- C2 (amended). First success wins: the loop attempts the candidates of the rotated
list in list order from the first one on, without gap or repetition; every attempt
but the last returned an error, so an attempt that returns no error is the last
one; each recorded outcome is the outcome of that attempt; and the loop stops
before the end of the list only after an attempt that returned no error, or at a
candidate for which the envelope cannot be translated (answered with status 500),
or when no provider instance can be created (then nothing is attempted). -/
theorem first_success_wins (factory : FactoryLookup) (attempt : Attempt)
    (cands : List Model) (rawJson : JVal) :
    ((dispatchLoop factory attempt cands 0 rawJson none ⟨[], []⟩).attempts.map
        (fun a => (a.position, a.model)) =
      cands.enum.take (dispatchLoop factory attempt cands 0 rawJson none ⟨[], []⟩).attempts.length) ∧
    (∀ a ∈ (dispatchLoop factory attempt cands 0 rawJson none ⟨[], []⟩).attempts.dropLast,
      a.err ≠ none) ∧
    (∀ a ∈ (dispatchLoop factory attempt cands 0 rawJson none ⟨[], []⟩).attempts,
      a.err = (attempt a.position a.stream a.model a.request).err) ∧
    ((dispatchLoop factory attempt cands 0 rawJson none ⟨[], []⟩).attempts.length = cands.length ∨
      (∃ a, (dispatchLoop factory attempt cands 0 rawJson none ⟨[], []⟩).attempts.getLast? = some a ∧
        a.err = none) ∨
      (dispatchLoop factory attempt cands 0 rawJson none ⟨[], []⟩).actions.getLast? =
        some (.json 500 (errorBody "request body error" 500)) ∨
      factory ≠ .working) := by
  obtain ⟨h1, h2, h3⟩ := dispatchLoop_trace factory attempt cands 0 rawJson none
  exact ⟨h1, h2, h3, dispatchLoop_progress factory attempt cands 0 rawJson none⟩

/-- C2 counterexample: backends that would all succeed are not attempted at all
when no provider factory is registered (the answer is 503), nor when the envelope
cannot be translated for the first candidate (the answer is 500). -/
theorem first_success_wins_counterexample :
    (∀ i s m j, (alwaysSucceeds i s m j).err = none) ∧
    dispatchLoop .missing alwaysSucceeds [demoModelA, demoModelB] 0 demoEnvelope none ⟨[], []⟩ =
      ⟨[], [.json 503
        (nestedErrorBody ("All providers failed: " ++ "provider factory not found") 503)]⟩ ∧
    dispatchLoop .working alwaysSucceeds [demoModelB, demoModelA] 0 demoEnvelopeArrayBody none
        ⟨[], []⟩ =
      ⟨[], [.json 500 (errorBody "request body error" 500)]⟩ := by
  refine ⟨fun _ _ _ _ => rfl, by rfl, ?_⟩
  have h : applyThinking demoModelB demoEnvelopeArrayBody =
      .error "cannot set array element for non-numeric key 'google'" := by
    simp [applyThinking, demoModelB, translateReasoningEffort, demoEnvelopeArrayBody, gjsonGet,
      child, lookupKey, resultType, JVal.gtype, resultString, setThinkingConfig, sjsonDelete,
      eraseKey, sjsonSet, thinkingBudgetPath, pathIndex, digitsToNat]
  exact dispatchLoop_step_abort alwaysSucceeds demoModelB [demoModelA] 0
    demoEnvelopeArrayBody none _ h

/-- C3 (amended). When every candidate of the non-empty rotated list has been
attempted and has failed, the response is the bytes the failed attempts wrote
followed by the answer `c.JSON` with status 503 and the message
"All providers failed: " followed by the error of the last candidate attempted,
which is the last candidate of the list. -/
theorem all_failed_gives_503 (cfg : Config) (factory : FactoryLookup) (attempt : Attempt)
    (cursors : CursorMap) (rawJson : JVal) (names : List String)
    (hne : (ChatCompletionHandler cfg factory attempt cursors rawJson names).order ≠ [])
    (hall : (ChatCompletionHandler cfg factory attempt cursors rawJson names).attempts.length =
      (ChatCompletionHandler cfg factory attempt cursors rawJson names).order.length)
    (hfail : ∀ a ∈ (ChatCompletionHandler cfg factory attempt cursors rawJson names).attempts,
      a.err ≠ none) :
    ∃ a e,
      (ChatCompletionHandler cfg factory attempt cursors rawJson names).attempts.getLast? = some a ∧
      a.position + 1 =
        (ChatCompletionHandler cfg factory attempt cursors rawJson names).order.length ∧
      (attempt a.position a.stream a.model a.request).err = some e ∧
      (ChatCompletionHandler cfg factory attempt cursors rawJson names).actions =
        (ChatCompletionHandler cfg factory attempt cursors rawJson names).attempts.map
            (fun a => ResponseAction.write (attempt a.position a.stream a.model a.request).written) ++
          [.json 503 (nestedErrorBody ("All providers failed: " ++ e) 503)] ∧
      gjsonGet (nestedErrorBody ("All providers failed: " ++ e) 503) ["error", "message"] =
        some (.str ("All providers failed: " ++ e)) := by
  rcases handler_runs_loop cfg factory attempt cursors rawJson names with h | ⟨hatt, hact⟩
  · exact absurd h hne
  · generalize (ChatCompletionHandler cfg factory attempt cursors rawJson names).order = cands at *
    generalize (ChatCompletionHandler cfg factory attempt cursors rawJson names).attempts = atts
      at *
    generalize (ChatCompletionHandler cfg factory attempt cursors rawJson names).actions = acts
      at *
    obtain ⟨ht1, -, ht3⟩ := dispatchLoop_trace factory attempt cands 0 rawJson none
    have hfin := dispatchLoop_all_failed factory attempt cands 0 rawJson none
      (by rw [← hatt]; exact hall) (by rw [← hatt]; exact hfail)
    rw [← hatt] at ht1 ht3 hfin
    rw [← hact] at hfin
    have hpos : atts ≠ [] := by
      intro h0; rw [h0] at hall; exact hne (List.length_eq_zero.mp hall.symm)
    obtain ⟨a, ha⟩ : ∃ a, atts.getLast? = some a := by
      cases hl : atts.getLast? with
      | none => exact absurd (List.getLast?_eq_none_iff.mp hl) hpos
      | some a => exact ⟨a, rfl⟩
    have hmem : a ∈ atts := List.mem_of_getLast?_eq_some ha
    obtain ⟨e, he⟩ : ∃ e, a.err = some e := by
      cases h : a.err with
      | none => exact absurd h (hfail a hmem)
      | some e => exact ⟨e, rfl⟩
    refine ⟨a, e, ha, ?_, ?_, ?_, ?_⟩
    · have h1 := congrArg List.getLast? ht1
      rw [hall, List.take_of_length_le (by simp)] at h1
      have h2 : (atts.map (fun a => (a.position, a.model))).getLast? =
          some (a.position, a.model) := by
        rw [List.getLast?_eq_getElem?] at ha ⊢
        rw [List.getElem?_map, List.length_map, ha]; rfl
      rw [h2, List.getLast?_eq_getElem?, List.getElem?_enumFrom] at h1
      simp only [List.enumFrom_length, Nat.zero_add] at h1
      cases hc : cands[cands.length - 1]? with
      | none => rw [hc] at h1; simp at h1
      | some m =>
        rw [hc] at h1
        simp only [Option.map_some', Option.some.injEq, Prod.mk.injEq] at h1
        have : 0 < cands.length := List.length_pos.mpr hne
        omega
    · rw [← ht3 a hmem, he]
    · rw [hfin, ha]; simp [he]
    · simp [nestedErrorBody, gjsonGet, child, lookupKey]

/-- C3 witness: both backends of `gpt` fail; the answer is the 503 of the last one. -/
theorem all_failed_gives_503_witness :
    ∃ a e,
      (ChatCompletionHandler demoConfig .working alwaysFails noCursors demoEnvelope
        []).attempts.getLast? = some a ∧
      a.position + 1 =
        (ChatCompletionHandler demoConfig .working alwaysFails noCursors demoEnvelope
          []).order.length ∧
      (alwaysFails a.position a.stream a.model a.request).err = some e ∧
      (ChatCompletionHandler demoConfig .working alwaysFails noCursors demoEnvelope
        []).actions =
        (ChatCompletionHandler demoConfig .working alwaysFails noCursors demoEnvelope
          []).attempts.map
            (fun a => ResponseAction.write
              (alwaysFails a.position a.stream a.model a.request).written) ++
          [.json 503 (nestedErrorBody ("All providers failed: " ++ e) 503)] ∧
      gjsonGet (nestedErrorBody ("All providers failed: " ++ e) 503) ["error", "message"] =
        some (.str ("All providers failed: " ++ e)) :=
  all_failed_gives_503 demoConfig .working alwaysFails noCursors demoEnvelope []
    (by decide) (by decide) (by decide)

/-- C3 counterexample: both backends of `gpt` fail after their error body has been
passed on to the caller, and the 503 answer comes third, behind bytes that went out
under the status line 200; and when the envelope cannot be translated for the
second backend, the answer after the failure of the first is 500. -/
theorem all_failed_gives_503_counterexample :
    (ChatCompletionHandler demoConfig .working failsAfterWriting noCursors demoEnvelope
      []).attempts.length = 2 ∧
    (∀ a ∈ (ChatCompletionHandler demoConfig .working failsAfterWriting noCursors demoEnvelope
      []).attempts, a.err ≠ none) ∧
    (ChatCompletionHandler demoConfig .working failsAfterWriting noCursors demoEnvelope
      []).actions =
      [.write "upstream error".data, .write "upstream error".data,
        .json 503 (nestedErrorBody
          ("All providers failed: " ++ "unexpected status code: 500 Internal Server Error")
          503)] ∧
    clientStatus (ChatCompletionHandler demoConfig .working failsAfterWriting noCursors
      demoEnvelope []).actions = some 200 ∧
    clientStatus (ChatCompletionHandler demoConfig .working failsAfterWriting noCursors
      demoEnvelope []).actions ≠ some 503 ∧
    (∀ i s m j, (alwaysFails i s m j).err ≠ none) ∧
    (ChatCompletionHandler demoConfig .working alwaysFails noCursors demoEnvelopeArrayBody
      []).actions = [.write [], .json 500 (errorBody "request body error" 500)] := by
  have hact : (ChatCompletionHandler demoConfig .working failsAfterWriting noCursors
      demoEnvelope []).actions =
      [.write "upstream error".data, .write "upstream error".data,
        .json 503 (nestedErrorBody
          ("All providers failed: " ++ "unexpected status code: 500 Internal Server Error")
          503)] := by rfl
  refine ⟨by decide, by decide, hact, ?_, ?_, ?_, by rfl⟩
  · rw [hact]; rfl
  · rw [hact]; simp [clientStatus]
  · intro i s m j; simp [alwaysFails]

/-- C4. When no entry of the model table has the requested name with the enabled
flag set, the handler answers with status 404 (the status line the caller
receives) and the message "Model NAME not found or not available.", which
contains the requested name, attempts no candidate and leaves the cursor map as it
was. -/
theorem no_candidate_gives_404 (cfg : Config) (factory : FactoryLookup) (attempt : Attempt)
    (cursors : CursorMap) (rawJson : JVal) (names : List String) (modelName : String)
    (hname : gjsonGet rawJson ["model"] = some (.str modelName))
    (hnone : ∀ m ∈ cfg.Models, ¬ (m.Name = modelName ∧ m.Enabled = true)) :
    (ChatCompletionHandler cfg factory attempt cursors rawJson names).actions =
      [.json 404 (nestedErrorBody ("Model " ++ modelName ++ " not found or not available.") 404)] ∧
    clientStatus (ChatCompletionHandler cfg factory attempt cursors rawJson names).actions =
      some 404 ∧
    gjsonGet (nestedErrorBody ("Model " ++ modelName ++ " not found or not available.") 404)
      ["error", "message"] =
      some (.str ("Model " ++ modelName ++ " not found or not available.")) ∧
    modelName.data <:+: ("Model " ++ modelName ++ " not found or not available.").data ∧
    (ChatCompletionHandler cfg factory attempt cursors rawJson names).attempts = [] ∧
    (ChatCompletionHandler cfg factory attempt cursors rawJson names).cursors = cursors := by
  have hempty : filterModels cfg.Models modelName names = [] := by
    rw [filterModels_eq_filter, List.filter_eq_nil_iff]
    intro m hm
    simpa using hnone m hm
  have hact : (ChatCompletionHandler cfg factory attempt cursors rawJson names).actions =
      [.json 404
        (nestedErrorBody ("Model " ++ modelName ++ " not found or not available.") 404)] := by
    simp [ChatCompletionHandler, hname, resultType, JVal.gtype, resultString, hempty]
  refine ⟨hact, ?_, ?_, ?_, ?_, ?_⟩
  · rw [hact]; rfl
  · simp [nestedErrorBody, gjsonGet, child, lookupKey]
  · refine ⟨"Model ".data, " not found or not available.".data, ?_⟩
    simp [String.data_append]
  · simp [ChatCompletionHandler, hname, resultType, JVal.gtype, resultString, hempty]
  · simp [ChatCompletionHandler, hname, resultType, JVal.gtype, resultString, hempty]

/-- C4 witness: the only entry named `old` is disabled. -/
theorem no_candidate_gives_404_witness :
    (ChatCompletionHandler demoConfig .working alwaysFails noCursors demoEnvelopeOld []).actions =
      [.json 404 (nestedErrorBody ("Model " ++ "old" ++ " not found or not available.") 404)] ∧
    clientStatus (ChatCompletionHandler demoConfig .working alwaysFails noCursors
      demoEnvelopeOld []).actions = some 404 ∧
    gjsonGet (nestedErrorBody ("Model " ++ "old" ++ " not found or not available.") 404)
      ["error", "message"] =
      some (.str ("Model " ++ "old" ++ " not found or not available.")) ∧
    "old".data <:+: ("Model " ++ "old" ++ " not found or not available.").data ∧
    (ChatCompletionHandler demoConfig .working alwaysFails noCursors demoEnvelopeOld
      []).attempts = [] ∧
    (ChatCompletionHandler demoConfig .working alwaysFails noCursors demoEnvelopeOld
      []).cursors = noCursors :=
  no_candidate_gives_404 demoConfig .working alwaysFails noCursors demoEnvelopeOld [] "old"
    (by simp [demoEnvelopeOld, gjsonGet, child, lookupKey]) (by decide)

/-- C5. Candidate selection: whatever the provider filter, the candidate list is the
sub-sequence of the model table, in table order, of the entries whose name equals
the requested name and whose enabled flag is set. -/
theorem candidate_list_is_filter (allModels : List Model) (modelName : String)
    (customProviderNames : List String) :
    filterModels allModels modelName customProviderNames =
      allModels.filter (fun m => decide (m.Name = modelName) && m.Enabled) ∧
    (filterModels allModels modelName customProviderNames).Sublist allModels ∧
    (∀ m, m ∈ filterModels allModels modelName customProviderNames ↔
      m ∈ allModels ∧ m.Name = modelName ∧ m.Enabled = true) ∧
    filterModels allModels modelName customProviderNames = filterModels allModels modelName [] := by
  have h : filterModels allModels modelName customProviderNames =
      allModels.filter (fun m => decide (m.Name = modelName) && m.Enabled) := by
    rw [filterModels_eq_filter]
    congr 1
    funext m
    simp [Bool.decide_and]
  refine ⟨h, ?_, ?_, filterModels_names_irrelevant _ _ _ _⟩
  · rw [h]; exact List.filter_sublist _
  · intro m
    rw [h, List.mem_filter]
    simp

/-- C6 (amended). For a candidate that supports vendor thinking and an envelope with
distinct member names whose reasoning_effort is one of the strings none, auto, low,
medium, high: when none of extra_body, extra_body.google and
extra_body.google.thinking_config is an array, the translation succeeds, the
translated envelope (and the envelope handed to the backend) has no
reasoning_effort field, has thinking_budget 0, -1, 1024, 8192, 24576 respectively
and include_thoughts false for none and true for the other four; when one of the
three is an array the translation fails and the handler answers with status 500
without attempting the candidate or any later one. -/
theorem reasoning_effort_mapping (model : Model) (rawJson : JVal) (hint : String)
    (budget : Int) (includeThoughts : Bool)
    (hthink : model.SupportGoogleThinking = true)
    (htable : (hint, budget, includeThoughts) ∈ effortTable)
    (heffort : gjsonGet rawJson ["reasoning_effort"] = some (.str hint))
    (hdistinct : rawJson.DistinctKeys) :
    (arrayOnPath rawJson thinkingBudgetPath = false →
      ∃ rawJson', applyThinking model rawJson = .ok rawJson' ∧
        gjsonGet rawJson' ["reasoning_effort"] = none ∧
        gjsonGet rawJson' thinkingBudgetPath = some (.num budget) ∧
        gjsonGet rawJson' includeThoughtsPath = some (.bool includeThoughts) ∧
        gjsonGet (prepareRequest model rawJson').2 ["reasoning_effort"] = none ∧
        gjsonGet (prepareRequest model rawJson').2 thinkingBudgetPath = some (.num budget) ∧
        gjsonGet (prepareRequest model rawJson').2 includeThoughtsPath =
          some (.bool includeThoughts)) ∧
    (arrayOnPath rawJson thinkingBudgetPath = true →
      (∃ e, applyThinking model rawJson = .error e) ∧
      ∀ (attempt : Attempt) (rest : List Model) (i : Nat) (fe : Option String),
        dispatchLoop .working attempt (model :: rest) i rawJson fe ⟨[], []⟩ =
          ⟨[], [.json 500 (errorBody "request body error" 500)]⟩) := by
  have htr := translate_of_table rawJson hint budget includeThoughts htable heffort
  constructor
  · intro hna
    obtain ⟨r, hok, h1, h2, h3, -⟩ :=
      setThinkingConfig_ok rawJson budget includeThoughts hdistinct hna
    refine ⟨r, by simp [applyThinking, hthink, htr, hok], h1, h2, h3, ?_, ?_, ?_⟩
    · rw [prepareRequest_frame model r _ _ (by decide) (by decide)]; exact h1
    · rw [thinkingBudgetPath, prepareRequest_frame model r _ _ (by decide) (by decide)]
      exact h2
    · rw [includeThoughtsPath, prepareRequest_frame model r _ _ (by decide) (by decide)]
      exact h3
  · intro hna
    obtain ⟨e, he⟩ := setThinkingConfig_error rawJson budget includeThoughts hna
    have happ : applyThinking model rawJson = .error e := by
      simp [applyThinking, hthink, htr, he]
    exact ⟨⟨e, happ⟩, fun attempt rest i fe =>
      dispatchLoop_step_abort attempt model rest i rawJson fe e happ⟩

/-- C6 witness: the hint `medium` on the thinking-capable backend of `gpt`. -/
theorem reasoning_effort_mapping_witness :
    ∃ rawJson', applyThinking demoModelB demoEnvelopeMedium = .ok rawJson' ∧
      gjsonGet rawJson' ["reasoning_effort"] = none ∧
      gjsonGet rawJson' thinkingBudgetPath = some (.num 8192) ∧
      gjsonGet rawJson' includeThoughtsPath = some (.bool true) ∧
      gjsonGet (prepareRequest demoModelB rawJson').2 ["reasoning_effort"] = none ∧
      gjsonGet (prepareRequest demoModelB rawJson').2 thinkingBudgetPath = some (.num 8192) ∧
      gjsonGet (prepareRequest demoModelB rawJson').2 includeThoughtsPath =
        some (.bool true) :=
  (reasoning_effort_mapping demoModelB demoEnvelopeMedium "medium" 8192 true rfl
    (by decide) (by simp [demoEnvelopeMedium, gjsonGet, child, lookupKey])
    (by simp [JVal.DistinctKeys, JVal.keys, demoEnvelopeMedium])).1
    (by simp [arrayOnPath, thinkingBudgetPath, demoEnvelopeMedium, child, lookupKey])

/-- C6 counterexample: with the hint `medium` and an `extra_body` that is an array
the translation fails and the handler answers 500 without any attempt; and with
two members named reasoning_effort the translated envelope still has one. -/
theorem reasoning_effort_mapping_counterexample :
    demoModelB.SupportGoogleThinking = true ∧
    gjsonGet demoEnvelopeArrayBody ["reasoning_effort"] = some (.str "medium") ∧
    applyThinking demoModelB demoEnvelopeArrayBody =
      .error "cannot set array element for non-numeric key 'google'" ∧
    dispatchLoop .working alwaysFails [demoModelB] 0 demoEnvelopeArrayBody none ⟨[], []⟩ =
      ⟨[], [.json 500 (errorBody "request body error" 500)]⟩ ∧
    gjsonGet demoEnvelopeTwoHints ["reasoning_effort"] = some (.str "medium") ∧
    ∃ rawJson', applyThinking demoModelB demoEnvelopeTwoHints = .ok rawJson' ∧
      gjsonGet rawJson' ["reasoning_effort"] = some (.str "high") := by
  have h : applyThinking demoModelB demoEnvelopeArrayBody =
      .error "cannot set array element for non-numeric key 'google'" := by
    simp [applyThinking, demoModelB, translateReasoningEffort, demoEnvelopeArrayBody, gjsonGet,
      child, lookupKey, resultType, JVal.gtype, resultString, setThinkingConfig, sjsonDelete,
      eraseKey, sjsonSet, thinkingBudgetPath, pathIndex, digitsToNat]
  refine ⟨rfl, by simp [demoEnvelopeArrayBody, gjsonGet, child, lookupKey], h, ?_,
    by simp [demoEnvelopeTwoHints, gjsonGet, child, lookupKey], ?_⟩
  · exact dispatchLoop_step_abort alwaysFails demoModelB [] 0 demoEnvelopeArrayBody none _ h
  · refine ⟨.obj [("model", .str "gpt"), ("reasoning_effort", .str "high"),
      ("extra_body", .obj [("google", .obj [("thinking_config",
        .obj [("thinking_budget", .num 8192), ("include_thoughts", .bool true)])])])], ?_, ?_⟩
    · simp [applyThinking, demoModelB, translateReasoningEffort, demoEnvelopeTwoHints, gjsonGet,
        child, lookupKey, resultType, JVal.gtype, resultString, setThinkingConfig, sjsonDelete,
        eraseKey, sjsonSet, thinkingBudgetPath, includeThoughtsPath, jbuild, pathIndex,
        digitsToNat, replaceKey]
    · simp [gjsonGet, child, lookupKey]

/-- C7 (amended). For a candidate that supports vendor thinking and an envelope with
distinct member names whose reasoning_effort is a string other than the five
recognised hints, the translation only deletes that member: the translated
envelope (and the envelope handed to the backend) has no reasoning_effort field,
and thinking_budget and include_thoughts are as they were in the caller's
envelope; an envelope whose reasoning_effort is absent or not a string is left as
it is. -/
theorem unrecognised_effort_removed (model : Model) (rawJson : JVal) (hint : String)
    (hthink : model.SupportGoogleThinking = true)
    (heffort : gjsonGet rawJson ["reasoning_effort"] = some (.str hint))
    (hhint : hint ∉ recognisedHints)
    (hdistinct : rawJson.DistinctKeys) :
    applyThinking model rawJson = .ok (sjsonDelete rawJson ["reasoning_effort"]) ∧
    gjsonGet (sjsonDelete rawJson ["reasoning_effort"]) ["reasoning_effort"] = none ∧
    (∀ k' t, k' ≠ "reasoning_effort" →
      gjsonGet (sjsonDelete rawJson ["reasoning_effort"]) (k' :: t) = gjsonGet rawJson (k' :: t)) ∧
    gjsonGet (prepareRequest model (sjsonDelete rawJson ["reasoning_effort"])).2
      ["reasoning_effort"] = none ∧
    gjsonGet (prepareRequest model (sjsonDelete rawJson ["reasoning_effort"])).2
      thinkingBudgetPath = gjsonGet rawJson thinkingBudgetPath ∧
    gjsonGet (prepareRequest model (sjsonDelete rawJson ["reasoning_effort"])).2
      includeThoughtsPath = gjsonGet rawJson includeThoughtsPath ∧
    (∀ other : JVal, resultType (gjsonGet other ["reasoning_effort"]) ≠ GType.String →
      applyThinking model other = .ok other) := by
  have hre : pathIndex "reasoning_effort" = none := by decide
  simp only [recognisedHints, List.mem_cons, List.mem_singleton, List.not_mem_nil, or_false,
    not_or] at hhint
  obtain ⟨h1, h2, h3, h4, h5⟩ := hhint
  have hself := gjsonGet_delete_self rawJson "reasoning_effort" hre hdistinct
  refine ⟨?_, hself, fun k' t hk => gjsonGet_delete_ne rawJson _ k' t hre hk, ?_, ?_, ?_,
    fun other hother => by simp [applyThinking, hthink, translateReasoningEffort, hother]⟩
  · simp [applyThinking, hthink, translateReasoningEffort, heffort, resultType, JVal.gtype,
      resultString, h1, h2, h3, h4, h5]
  · rw [prepareRequest_frame model _ _ _ (by decide) (by decide)]; exact hself
  · rw [thinkingBudgetPath, prepareRequest_frame model _ _ _ (by decide) (by decide)]
    exact gjsonGet_delete_ne rawJson _ _ _ hre (by decide)
  · rw [includeThoughtsPath, prepareRequest_frame model _ _ _ (by decide) (by decide)]
    exact gjsonGet_delete_ne rawJson _ _ _ hre (by decide)

/-- C7 witness: the hint `extreme` on the thinking-capable backend of `gpt`. -/
theorem unrecognised_effort_removed_witness :
    applyThinking demoModelB demoEnvelopeExtreme =
      .ok (sjsonDelete demoEnvelopeExtreme ["reasoning_effort"]) ∧
    gjsonGet (sjsonDelete demoEnvelopeExtreme ["reasoning_effort"]) ["reasoning_effort"] = none ∧
    (∀ k' t, k' ≠ "reasoning_effort" →
      gjsonGet (sjsonDelete demoEnvelopeExtreme ["reasoning_effort"]) (k' :: t) =
        gjsonGet demoEnvelopeExtreme (k' :: t)) ∧
    gjsonGet (prepareRequest demoModelB (sjsonDelete demoEnvelopeExtreme ["reasoning_effort"])).2
      ["reasoning_effort"] = none ∧
    gjsonGet (prepareRequest demoModelB (sjsonDelete demoEnvelopeExtreme ["reasoning_effort"])).2
      thinkingBudgetPath = gjsonGet demoEnvelopeExtreme thinkingBudgetPath ∧
    gjsonGet (prepareRequest demoModelB (sjsonDelete demoEnvelopeExtreme ["reasoning_effort"])).2
      includeThoughtsPath = gjsonGet demoEnvelopeExtreme includeThoughtsPath ∧
    (∀ other : JVal, resultType (gjsonGet other ["reasoning_effort"]) ≠ GType.String →
      applyThinking demoModelB other = .ok other) :=
  unrecognised_effort_removed demoModelB demoEnvelopeExtreme "extreme" rfl
    (by simp [demoEnvelopeExtreme, gjsonGet, child, lookupKey]) (by decide)
    (by simp [JVal.DistinctKeys, JVal.keys, demoEnvelopeExtreme])

/-- C7 counterexample: a reasoning_effort that is the number 7 is not one of the
five hints, and the translation leaves it in the envelope, also in the one handed
to the backend; and with two members named reasoning_effort the translated
envelope still has one. -/
theorem unrecognised_effort_removed_counterexample :
    demoModelB.SupportGoogleThinking = true ∧
    gjsonGet demoEnvelopeNumber ["reasoning_effort"] = some (.num 7) ∧
    applyThinking demoModelB demoEnvelopeNumber = .ok demoEnvelopeNumber ∧
    gjsonGet (prepareRequest demoModelB demoEnvelopeNumber).2 ["reasoning_effort"] =
      some (.num 7) ∧
    gjsonGet demoEnvelopeTwoExtremes ["reasoning_effort"] = some (.str "extreme") ∧
    ∃ rawJson', applyThinking demoModelB demoEnvelopeTwoExtremes = .ok rawJson' ∧
      gjsonGet rawJson' ["reasoning_effort"] = some (.str "extreme") := by
  refine ⟨rfl, by simp [demoEnvelopeNumber, gjsonGet, child, lookupKey], ?_, ?_,
    by simp [demoEnvelopeTwoExtremes, gjsonGet, child, lookupKey], ?_⟩
  · simp [applyThinking, demoModelB, translateReasoningEffort, demoEnvelopeNumber, gjsonGet,
      child, lookupKey, resultType, JVal.gtype]
  · rw [prepareRequest_frame demoModelB _ _ _ (by decide) (by decide)]
    simp [demoEnvelopeNumber, gjsonGet, child, lookupKey]
  · refine ⟨.obj [("model", .str "gpt"), ("reasoning_effort", .str "extreme")], ?_, ?_⟩
    · simp [applyThinking, demoModelB, translateReasoningEffort, demoEnvelopeTwoExtremes,
        gjsonGet, child, lookupKey, resultType, JVal.gtype, resultString, sjsonDelete, eraseKey]
    · simp [gjsonGet, child, lookupKey]

/-- C8 (amended). Non-streaming Invoke on a candidate that is not stream-only, once
the upstream response has been read: with a status other than 200 it fails with
the error "unexpected status code: STATUS" and carries the raw body; with status
200 it fails if and only if neither `id` nor `object` is a member with a value
other than `null` (then with "unexpected response: BODY", carrying the raw body),
and otherwise it returns a body and no error. -/
theorem invoke_fails_iff (model : Model) (usage : Usage) (StatusCode : Nat)
    (Status body : String) (data : JVal) (viaStream : CompletionResult)
    (hdirect : model.StreamOnly = false) :
    (StatusCode ≠ 200 →
      (CreateChatCompletion model usage (.response StatusCode Status body data) viaStream).data =
        none ∧
      (CreateChatCompletion model usage (.response StatusCode Status body data) viaStream).err =
        some ("unexpected status code: " ++ Status) ∧
      (CreateChatCompletion model usage (.response StatusCode Status body data) viaStream).errBody =
        some body) ∧
    (StatusCode = 200 →
      ((CreateChatCompletion model usage (.response StatusCode Status body data) viaStream).err ≠
          none ↔
        ¬ hasNonNullField data "id" ∧ ¬ hasNonNullField data "object") ∧
      ((CreateChatCompletion model usage (.response StatusCode Status body data) viaStream).err ≠
          none →
        (CreateChatCompletion model usage (.response StatusCode Status body data) viaStream).data =
          none ∧
        (CreateChatCompletion model usage (.response StatusCode Status body data) viaStream).err =
          some ("unexpected response: " ++ body) ∧
        (CreateChatCompletion model usage (.response StatusCode Status body data)
          viaStream).errBody = some body) ∧
      ((CreateChatCompletion model usage (.response StatusCode Status body data) viaStream).err =
          none →
        ∃ out, (CreateChatCompletion model usage (.response StatusCode Status body data)
          viaStream).data = some out)) := by
  constructor
  · intro hs
    simp [CreateChatCompletion, hdirect, hs]
  · intro hs
    subst hs
    by_cases hnull : resultType (gjsonGet data ["id"]) = GType.Null ∧
        resultType (gjsonGet data ["object"]) = GType.Null
    · have h2 : ¬ hasNonNullField data "id" ∧ ¬ hasNonNullField data "object" :=
        ⟨(resultType_null_iff data "id").mp hnull.1, (resultType_null_iff data "object").mp hnull.2⟩
      simp [CreateChatCompletion, hdirect, hnull, h2]
    · have h2 : ¬ (¬ hasNonNullField data "id" ∧ ¬ hasNonNullField data "object") := by
        intro h
        exact hnull ⟨(resultType_null_iff data "id").mpr h.1,
          (resultType_null_iff data "object").mpr h.2⟩
      simp only [CreateChatCompletion, hdirect, hnull, if_false, ne_eq, not_true_eq_false,
        Bool.false_eq_true]
      simp [h2]

/-- C8 witness: a completion with `id` and `object` answered with status 200 is
accepted. -/
theorem invoke_fails_iff_witness :
    ∃ out, (CreateChatCompletion demoModelA zeroUsage
      (.response 200 "200 OK" demoCompletionText demoCompletion) demoViaStream).data = some out :=
  ((invoke_fails_iff demoModelA zeroUsage 200 "200 OK" demoCompletionText demoCompletion demoViaStream
    rfl).2 rfl).2.2 rfl

/-- C8 counterexample: a body answered with status 200 that has an `id` member,
with value `null`, is rejected, so failure is not equivalent to having neither an
`id` nor an `object` field. -/
theorem invoke_fails_iff_counterexample :
    hasField demoNullIdBody "id" ∧
    (CreateChatCompletion demoModelA zeroUsage (.response 200 "200 OK" demoNullIdText demoNullIdBody)
      demoViaStream).err = some ("unexpected response: " ++ demoNullIdText) ∧
    ¬ ((CreateChatCompletion demoModelA zeroUsage (.response 200 "200 OK" demoNullIdText demoNullIdBody)
        demoViaStream).err ≠ none ↔
      (¬ hasField demoNullIdBody "id" ∧ ¬ hasField demoNullIdBody "object")) := by
  have h1 : hasField demoNullIdBody "id" := by
    simp [hasField, demoNullIdBody, gjsonGet, child, lookupKey]
  have h2 : (CreateChatCompletion demoModelA zeroUsage
      (.response 200 "200 OK" demoNullIdText demoNullIdBody) demoViaStream).err =
      some ("unexpected response: " ++ demoNullIdText) := by
    simp [CreateChatCompletion, demoModelA, demoNullIdBody, gjsonGet, child, lookupKey,
      resultType, JVal.gtype]
  refine ⟨h1, h2, ?_⟩
  intro h
  have := h.mp (by rw [h2]; simp)
  exact this.1 h1

/-- C9 (amended). On a successful non-streaming Invoke whose upstream body has
distinct member names, the returned body is an object without `provider` member,
whose `model` member is the caller-facing name of the candidate, in which every
other member of the upstream body has its value unchanged, and which has no
member besides `model` that the upstream body did not have. -/
theorem invoke_success_body (model : Model) (usage : Usage) (StatusCode : Nat)
    (Status body : String) (data : JVal) (viaStream : CompletionResult)
    (hdirect : model.StreamOnly = false)
    (hok : (CreateChatCompletion model usage (.response StatusCode Status body data)
      viaStream).err = none)
    (hdistinct : data.DistinctKeys) :
    ∃ kvs kvs', data = .obj kvs ∧
      (CreateChatCompletion model usage (.response StatusCode Status body data) viaStream).data =
        some (.obj kvs') ∧
      gjsonGet (.obj kvs') ["provider"] = none ∧
      gjsonGet (.obj kvs') ["model"] = some (.str model.Name) ∧
      (∀ k, k ≠ "provider" → k ≠ "model" →
        gjsonGet (.obj kvs') [k] = gjsonGet (.obj kvs) [k]) ∧
      kvs'.filter (fun kv => !decide (kv.1 = "model")) =
        kvs.filter (fun kv => !decide (kv.1 = "provider") && !decide (kv.1 = "model")) := by
  by_cases hs : StatusCode = 200
  · subst hs
    by_cases hnull : resultType (gjsonGet data ["id"]) = GType.Null ∧
        resultType (gjsonGet data ["object"]) = GType.Null
    · simp [CreateChatCompletion, hdirect, hnull] at hok
    · have hfield : gjsonGet data ["id"] ≠ none ∨ gjsonGet data ["object"] ≠ none := by
        by_contra hcon
        push_neg at hcon
        exact hnull ⟨by rw [hcon.1]; rfl, by rw [hcon.2]; rfl⟩
      obtain ⟨kvs, rfl⟩ : ∃ kvs, data = .obj kvs := by
        rcases hfield with h | h
        · exact object_of_field data "id" (by decide) h
        · exact object_of_field data "object" (by decide) h
      obtain ⟨kvs', hout, hmodel, hother, hfilter⟩ := rewrite_object kvs model.Name
      have hnd : (kvs.map Prod.fst).Nodup := hdistinct
      refine ⟨kvs, kvs', rfl, ?_, ?_, ?_, ?_, ?_⟩
      · simp [CreateChatCompletion, hdirect, hnull, hout]
      · have := hother "provider" (by decide)
        simp [gjsonGet, child, this, lookupKey_eraseKey_self "provider" kvs hnd]
      · simp [gjsonGet, child, hmodel]
      · intro k hk1 hk2
        simp [gjsonGet, child, hother k hk2, lookupKey_eraseKey_ne k "provider" kvs hk1]
      · rw [hfilter, eraseKey_eq_filter "provider" kvs hnd, List.filter_filter]
        congr 1
        funext kv
        simp [Bool.and_comm]
  · simp [CreateChatCompletion, hdirect, hs] at hok

/-- C9 witness: the demo completion loses `provider` and gets the caller-facing
model name. -/
theorem invoke_success_body_witness :
    ∃ kvs kvs', demoCompletion = .obj kvs ∧
      (CreateChatCompletion demoModelA zeroUsage (.response 200 "200 OK" demoCompletionText demoCompletion)
        demoViaStream).data = some (.obj kvs') ∧
      gjsonGet (.obj kvs') ["provider"] = none ∧
      gjsonGet (.obj kvs') ["model"] = some (.str demoModelA.Name) ∧
      (∀ k, k ≠ "provider" → k ≠ "model" →
        gjsonGet (.obj kvs') [k] = gjsonGet (.obj kvs) [k]) ∧
      kvs'.filter (fun kv => !decide (kv.1 = "model")) =
        kvs.filter (fun kv => !decide (kv.1 = "provider") && !decide (kv.1 = "model")) :=
  invoke_success_body demoModelA zeroUsage 200 "200 OK" demoCompletionText demoCompletion demoViaStream rfl
    (by simp [CreateChatCompletion, demoModelA, demoCompletion, gjsonGet, child, lookupKey,
      resultType, JVal.gtype])
    (by simp [JVal.DistinctKeys, JVal.keys, demoCompletion])

/-- C9 counterexample: an upstream body with two members named `provider` is
accepted and the returned body still has a `provider` member. -/
theorem invoke_success_body_counterexample :
    (CreateChatCompletion demoModelA zeroUsage (.response 200 "200 OK" demoTwoProvidersText demoTwoProviders)
      demoViaStream).err = none ∧
    ∃ out, (CreateChatCompletion demoModelA zeroUsage
        (.response 200 "200 OK" demoTwoProvidersText demoTwoProviders) demoViaStream).data = some out ∧
      gjsonGet out ["provider"] = some (.str "other") := by
  refine ⟨?_, .obj [("id", .str "chatcmpl-1"), ("provider", .str "other"),
    ("model", .str "gpt")], ?_, ?_⟩
  · simp [CreateChatCompletion, demoModelA, demoTwoProviders, gjsonGet, child, lookupKey,
      resultType, JVal.gtype]
  · simp [CreateChatCompletion, demoModelA, demoTwoProviders, gjsonGet, child, lookupKey,
      resultType, JVal.gtype, sjsonSetIgnoreErr, sjsonDelete, sjsonSet, eraseKey, jbuild]
  · simp [gjsonGet, child, lookupKey]

/-- C10 (behaviour at the failing inputs). When the upstream body ends without a
line feed, the last line is written to the stream as it is: a last `data: ` frame
is neither rewritten nor followed by the blank line, and a last `[DONE]` frame is
not followed by the blank line, whereas the stream described by the specification
carries the rewritten frame and `data: [DONE]` each followed by a blank line. -/
theorem stream_last_line_written_raw :
    ∀ rewrite : FrameRewrite,
      CreateChatCompletionStream rewrite demoModelA .eof demoUnterminated = demoUnterminated ∧
      specStream rewrite demoModelA demoUnterminated =
        "data: ".data ++ rewrite "gpt" demoPayload ++ "\n\n".data ∧
      CreateChatCompletionStream rewrite demoModelA .eof demoUnterminated ≠
        specStream rewrite demoModelA demoUnterminated ∧
      CreateChatCompletionStream rewrite demoModelA .eof demoUnterminatedDone =
        "data: ".data ++ rewrite "gpt" demoPayload ++ "\n\n".data ++ "data: [DONE]".data ∧
      specStream rewrite demoModelA demoUnterminatedDone =
        "data: ".data ++ rewrite "gpt" demoPayload ++ "\n\n".data ++ "data: [DONE]\n\n".data := by
  intro rewrite
  have h1 : CreateChatCompletionStream rewrite demoModelA .eof demoUnterminated =
      demoUnterminated := by rfl
  have h2 : specStream rewrite demoModelA demoUnterminated =
      "data: ".data ++ rewrite "gpt" demoPayload ++ "\n\n".data := by
    have h : specStream rewrite demoModelA demoUnterminated =
        "data: ".data ++ rewrite "gpt" demoPayload ++ "\n\n".data ++ [] := by rfl
    rw [h, List.append_nil]
  refine ⟨h1, h2, ?_, by rfl, by rfl⟩
  rw [h1, h2]
  intro h
  have := congrArg (fun l => l.reverse.head?) h
  simp [demoUnterminated, demoPayload, List.reverse_append] at this


/-- Claim C11 (thinking-block entry), amended.  For a thinking-capable candidate,
take a chunk that holds one `data: ` frame whose `choices[0].delta` is an object
with pairwise distinct member names, marked as a thought
(`extra_content.google.thought` is `true`) and whose `content` is the string
`<thought>` followed by `X`.  The relay writes a frame that has
`choices[0].delta.reasoning_content` equal to `X`, no `choices[0].delta.content`
and no `choices[0].delta.extra_content`, and goes on in the thinking state. -/
theorem thinking_block_entry (render : Render) (model : Model) (startGoogleThinking : Bool)
    (chunk : Chunk) (rest : List RelayEvent) (ending : RelayEnd) (X : String)
    (delta : List (String × JVal))
    (hm : model.SupportGoogleThinking = true)
    (hframe : hasPrefix (trimSpace chunk.bytes) TagData = true)
    (hdelta : gjsonGet chunk.payload deltaPath = some (.obj delta))
    (hnd : (JVal.obj delta).DistinctKeys)
    (hthought : gjsonGet chunk.payload deltaThoughtPath = some (.bool true))
    (hcontent : gjsonGet chunk.payload deltaContentPath = some (.str ("<thought>" ++ X))) :
    ∃ relayed,
      relayLoop render model startGoogleThinking (.data chunk :: rest) ending =
        (relayLoop render model true rest ending).after
          ("data: ".data ++ render relayed ++ "\n\n".data) ∧
      gjsonGet relayed deltaReasoningPath = some (.str X) ∧
      gjsonGet relayed deltaContentPath = none ∧
      gjsonGet relayed deltaExtraPath = none := by
  obtain ⟨relayed, h0, h1, h2, h3⟩ :=
    relayThinking_entry startGoogleThinking chunk.payload _ delta hdelta hnd hthought hcontent
  rw [stripTag_append] at h1
  refine ⟨relayed, ?_, h1, h2, h3⟩
  rw [relayLoop_frame render model _ chunk rest ending hm hframe]
  simp only [relayFrame, h0]

/-- Claim C11 on the frame that opens a thinking block with the text `plan`, sent
to the thinking-capable backend of `gpt`. -/
theorem thinking_block_entry_witness :
    ∃ relayed,
      relayLoop (fun _ => []) demoModelB false [.data demoThoughtChunk] .eof =
        (relayLoop (fun _ => []) demoModelB true [] .eof).after
          ("data: ".data ++ (fun _ => []) relayed ++ "\n\n".data) ∧
      gjsonGet relayed deltaReasoningPath = some (.str "plan") ∧
      gjsonGet relayed deltaContentPath = none ∧
      gjsonGet relayed deltaExtraPath = none :=
  thinking_block_entry (fun _ => []) demoModelB false demoThoughtChunk [] .eof "plan"
    [("content", .str "<thought>plan"),
      ("extra_content", .obj [("google", .obj [("thought", .bool true)])])]
    rfl (by decide) rfl (by simp [JVal.DistinctKeys, JVal.keys]) rfl
    (by rw [show ("<thought>" ++ "plan" : String) = "<thought>plan" by decide]; rfl)

/-- Claim C11 as first stated fails on a delta that has the member `content`
twice: the relay removes the first one only, and the frame it writes for the
thinking-capable backend still has a `choices[0].delta.content`. -/
theorem thinking_block_entry_counterexample :
    gjsonGet demoThoughtFrameTwice deltaThoughtPath = some (.bool true) ∧
    gjsonGet demoThoughtFrameTwice deltaContentPath = some (.str ("<thought>" ++ "plan")) ∧
    ∃ relayed, (∀ render : Render,
      relayLoop render demoModelB false [.data demoThoughtChunkTwice] .eof =
        ⟨"data: ".data ++ render relayed ++ "\n\n".data, none, false⟩) ∧
      gjsonGet relayed deltaReasoningPath = some (.str "plan") ∧
      gjsonGet relayed deltaContentPath = some (.str "left over") := by
  refine ⟨rfl, by rw [show ("<thought>" ++ "plan" : String) = "<thought>plan" by decide]; rfl,
    ?_⟩
  refine ⟨.obj [("id", .str "c1"),
    ("choices", .arr [.obj [("index", .num 0),
      ("delta", .obj [("content", .str "left over"),
        ("reasoning_content", .str "plan")])]])], ?_, rfl, rfl⟩
  intro render
  rw [relayLoop_frame render demoModelB _ _ _ _ rfl (by decide)]
  have h : relayThinking false demoThoughtChunkTwice.payload =
      (some (.obj [("id", .str "c1"),
        ("choices", .arr [.obj [("index", .num 0),
          ("delta", .obj [("content", .str "left over"),
            ("reasoning_content", .str "plan")])]])]), true) := rfl
  simp only [relayFrame, h, relayLoop, HandleResult.after, List.append_nil]

/-- Claim C12 (thinking-block exit).  For a thinking-capable candidate whose relay
is in the thinking state, take a chunk that holds one `data: ` frame that is not
marked as a thought and whose `choices[0].delta.content` is the string
`</thought>` followed by `Y`.  The relay writes a frame whose
`choices[0].delta.content` is `Y`, and goes on in the not-thinking state. -/
theorem thinking_block_exit (render : Render) (model : Model) (chunk : Chunk)
    (rest : List RelayEvent) (ending : RelayEnd) (Y : String)
    (hm : model.SupportGoogleThinking = true)
    (hframe : hasPrefix (trimSpace chunk.bytes) TagData = true)
    (hthought : gjsonGet chunk.payload deltaThoughtPath ≠ some (.bool true))
    (hcontent : gjsonGet chunk.payload deltaContentPath = some (.str ("</thought>" ++ Y))) :
    ∃ relayed,
      relayLoop render model true (.data chunk :: rest) ending =
        (relayLoop render model false rest ending).after
          ("data: ".data ++ render relayed ++ "\n\n".data) ∧
      gjsonGet relayed deltaContentPath = some (.str Y) := by
  obtain ⟨relayed, h0, h1⟩ :=
    relayThinking_exit chunk.payload Y
      (fun h => hthought ((resultType_true_iff _).mp h)) hcontent
  refine ⟨relayed, ?_, h1⟩
  rw [relayLoop_frame render model _ chunk rest ending hm hframe]
  simp only [relayFrame, h0]

/-- Claim C12 on the frame that closes the thinking block and starts the answer
with the text `answer`. -/
theorem thinking_block_exit_witness :
    ∃ relayed,
      relayLoop (fun _ => []) demoModelB true [.data demoCloseChunk] .eof =
        (relayLoop (fun _ => []) demoModelB false [] .eof).after
          ("data: ".data ++ (fun _ => []) relayed ++ "\n\n".data) ∧
      gjsonGet relayed deltaContentPath = some (.str "answer") :=
  thinking_block_exit (fun _ => []) demoModelB demoCloseChunk [] .eof "answer"
    rfl (by decide)
    (by rw [show gjsonGet demoCloseChunk.payload deltaThoughtPath = none from rfl]; simp)
    (by rw [show ("</thought>" ++ "answer" : String) = "</thought>answer" by decide]; rfl)

/-- Claim C13 (stream aggregation of content).  When the frames merged before
`[DONE]` or the end of the stream are well-formed (which includes that every
tool-call index is a number from 0 to 2^63 - 1) and there is at least one, the
aggregator returns a response without panic.  It has exactly one choice, whose
message has the role `assistant` and as content the non-empty strings
`choices[0].delta.content` of the frames written one after the other in arrival
order, and whose finish reason is the last non-empty `finish_reason` carried by a
frame with a delta (empty when no frame carries one); the text of the response
shows the same. -/
theorem stream_aggregation_content (usage : Usage) (lines : List StreamLine)
    (first : List (String × JVal)) (others : List (List (String × JVal)))
    (hframes : framesBeforeDone lines = first :: others)
    (hfirst : wellFormedFirst first = true)
    (hwf : ∀ f ∈ first :: others, wellFormedFrame f = true) :
    ∃ (response : ChatCompletionResponse) (choice : ChatCompletionChoice) (usage1 : Usage),
      aggregate usage lines = .returned ⟨some response.marshal, none, none, usage1⟩ ∧
      response.Choices = [choice] ∧
      choice.Message.Role = "assistant" ∧
      choice.Message.Content =
        concatStrings (((first :: others).map frameContent).filter
          (fun s => !decide (s = ""))) ∧
      choice.FinishReason =
        (((first :: others).filterMap frameFinishReason).getLast?).getD "" ∧
      gjsonGet response.marshal ["choices"] = some (.arr [choice.marshal]) ∧
      gjsonGet response.marshal ["choices", "0", "message", "role"] =
        some (.str "assistant") ∧
      gjsonGet response.marshal ["choices", "0", "message", "content"] =
        some (.str (concatStrings (((first :: others).map frameContent).filter
          (fun s => !decide (s = ""))))) ∧
      gjsonGet response.marshal ["choices", "0", "finish_reason"] =
        some (.str ((((first :: others).filterMap frameFinishReason).getLast?).getD "")) := by
  obtain ⟨st1, hagg⟩ := aggregateLines_total lines ⟨none, "", [], usage⟩
    (by rw [hframes]; exact hwf)
    (by
      intro _ f hf
      rw [hframes] at hf
      simp only [List.head?_cons, Option.some.injEq] at hf
      rw [← hf]; exact hfirst)
  obtain ⟨s1, _, s3, s4, _⟩ := aggregateLines_sound lines _ st1 hagg
  rw [hframes] at s1 s3 s4
  have hne : st1.fullResponse ≠ none := by
    intro hn
    have := (s4.mp hn).2
    simp at this
  obtain ⟨fullResponse, hfr⟩ := Option.ne_none_iff_exists'.mp hne
  have hch : fullResponse.Choices =
      match ((first :: others).filterMap frameFinishReason).getLast? with
      | some r => [⟨0, ⟨"", "", "", none⟩, r⟩]
      | none => [] := by
    have hfold := choices_fold (first :: others) [] (Or.inl rfl)
    have hs3 : st1.choices = fullResponse.Choices := by simp [AggState.choices, hfr]
    rw [← hs3, s3]
    exact hfold
  have hcontent : st1.content =
      concatStrings (((first :: others).map frameContent).filter
        (fun s => !decide (s = ""))) := by
    rw [concatStrings_filter, s1]
    exact String.empty_append _
  let message : Message :=
    ⟨"assistant", st1.content, "", if st1.toolCalls.length > 0 then some st1.toolCalls else none⟩
  let choice : ChatCompletionChoice :=
    ⟨0, message, (((first :: others).filterMap frameFinishReason).getLast?).getD ""⟩
  have hfin : finishResponse st1 =
      some { fullResponse with Choices := [choice], Usage := st1.usage } := by
    simp only [finishResponse, hfr, hch]
    cases hg : ((first :: others).filterMap frameFinishReason).getLast? <;>
      simp [choice, message, hg]
  have hfields := marshal_choice_fields
    { fullResponse with Choices := [choice], Usage := st1.usage } choice rfl
  refine ⟨{ fullResponse with Choices := [choice], Usage := st1.usage }, choice, st1.usage,
    ?_, rfl, rfl, hcontent, rfl, hfields.1, hfields.2.1, ?_, hfields.2.2.2.1⟩
  · simp only [aggregate, hagg, hfin]
  · rw [← hcontent]
    exact hfields.2.2.1

/-- Claim C13 on the stream with the content deltas `Hel` and `lo` and the finish
reason `stop`: one choice, content `Hello`, finish reason `stop`. -/
theorem stream_aggregation_content_witness :
    ∃ (response : ChatCompletionResponse) (choice : ChatCompletionChoice) (usage1 : Usage),
      aggregate zeroUsage demoHelloLines = .returned ⟨some response.marshal, none, none, usage1⟩ ∧
      response.Choices = [choice] ∧
      choice.Message.Role = "assistant" ∧
      choice.Message.Content = "Hello" ∧
      choice.FinishReason = "stop" ∧
      gjsonGet response.marshal ["choices", "0", "message", "content"] = some (.str "Hello") ∧
      gjsonGet response.marshal ["choices", "0", "finish_reason"] = some (.str "stop") := by
  obtain ⟨response, choice, usage1, h1, h2, h3, h4, h5, _, _, h8, h9⟩ :=
    stream_aggregation_content zeroUsage demoHelloLines
      [("id", .str "c1"), ("created", .num 1), ("model", .str "gpt"),
        ("choices", .arr [.obj [("index", .num 0),
          ("delta", .obj [("role", .str "assistant"), ("content", .str "Hel")])]])]
      [[("id", .str "c1"), ("created", .num 1), ("model", .str "gpt"),
        ("choices", .arr [.obj [("index", .num 0), ("delta", .obj [("content", .str "lo")])]])],
       [("id", .str "c1"), ("created", .num 1), ("model", .str "gpt"),
        ("choices", .arr [.obj [("index", .num 0), ("delta", .obj []),
          ("finish_reason", .str "stop")]])]]
      rfl (by decide) (by decide)
  exact ⟨response, choice, usage1, h1, h2, h3, h4, h5, h8, h9⟩

/-- Claim C14 (tool-call argument merging appends), amended.  When every fragment
is an object whose `index` is a number from 0 to 2^63 - 1 (the values that
`int(...)` keeps), the fragments are merged without panic, every index that
occurs has an entry, and the accumulated arguments of entry `i` are the
`function.arguments` strings of the fragments for index `i` written one after the
other in arrival order.  Merging the sequence split at any point gives the same
accumulator as merging it whole, and the accumulator of the aggregator is the one
obtained from the fragments of all frames in arrival order. -/
theorem tool_call_arguments_append (fragments : List JVal)
    (hwf : ∀ tc ∈ fragments, (fragmentIndex tc).isSome = true) :
    ∃ toolCalls, mergeToolCalls [] fragments = .ok toolCalls ∧
      (∀ tc ∈ fragments, ∀ i, fragmentIndex tc = some i → i < toolCalls.length) ∧
      (∀ i, argumentsAt toolCalls i =
        concatStrings ((fragments.filter (fun tc => decide (fragmentIndex tc = some i))).map
          fragmentArguments)) ∧
      (∀ xs ys, fragments = xs ++ ys →
        ∃ part, mergeToolCalls [] xs = .ok part ∧ mergeToolCalls part ys = .ok toolCalls) ∧
      (∀ (usage : Usage) (lines : List StreamLine) (st : AggState),
        ((framesBeforeDone lines).map frameToolCalls).flatten = fragments →
        aggregateLines ⟨none, "", [], usage⟩ lines = .ok st → st.toolCalls = toolCalls) := by
  obtain ⟨toolCalls, h1, _, h3, h4⟩ := mergeToolCalls_ok fragments [] hwf
  refine ⟨toolCalls, h1, h3, ?_, ?_, ?_⟩
  · intro i
    rw [h4 i]
    simp [argumentsAt]
  · intro xs ys hxy
    have happ := mergeToolCalls_append xs ys []
    rw [← hxy, h1] at happ
    cases hx : mergeToolCalls [] xs with
    | ok part =>
      rw [hx] at happ
      exact ⟨part, rfl, happ.symm⟩
    | error e =>
      rw [hx] at happ
      cases happ
  · intro usage lines st hfr hagg
    have h := (aggregateLines_sound lines _ st hagg).2.1
    rw [hfr] at h
    have heq : (Except.ok toolCalls : Except String (List ToolCall)) = .ok st.toolCalls := by
      rw [← h1]; exact h
    cases heq
    rfl

/-- Claim C14 on the fragments `ab` then `cd` for entry 0: the accumulated
arguments are `abcd`, whole or split between the two. -/
theorem tool_call_arguments_append_witness :
    ∃ toolCalls, mergeToolCalls [] [demoFragmentAb, demoFragmentCd] = .ok toolCalls ∧
      argumentsAt toolCalls 0 = "abcd" ∧
      (∃ part, mergeToolCalls [] [demoFragmentAb] = .ok part ∧
        mergeToolCalls part [demoFragmentCd] = .ok toolCalls) ∧
      ∀ st, aggregateLines ⟨none, "", [], zeroUsage⟩ demoToolLines = .ok st →
        st.toolCalls = toolCalls := by
  obtain ⟨toolCalls, h1, _, h3, h4, h5⟩ :=
    tool_call_arguments_append [demoFragmentAb, demoFragmentCd] (by decide)
  refine ⟨toolCalls, h1, ?_, h4 [demoFragmentAb] [demoFragmentCd] rfl, ?_⟩
  · rw [h3 0]
    decide
  · intro st hst
    exact h5 zeroUsage demoToolLines st rfl hst

/-- Claim C14 as first stated fails for the index 2^63: the fragment is an object
with a numeric index and the arguments `ab`, but `int(...)` does not keep an index
outside the range of `int`, and the merge panics instead of leaving an entry with
the arguments `ab`; so does the aggregator on a stream that carries the
fragment. -/
theorem tool_call_arguments_append_counterexample :
    asNumber (mapIndex [("index", JVal.num 9223372036854775808),
      ("function", JVal.obj [("arguments", JVal.str "ab")])] "index") =
      some 9223372036854775808 ∧
    fragmentArguments demoFragmentBeyondInt = "ab" ∧
    mergeToolCalls [] [demoFragmentBeyondInt] = .error "index out of range" ∧
    aggregate zeroUsage
        [.data (some (demoFrame [("tool_calls", .arr [demoFragmentBeyondInt])] [])), .done] =
      .panicked "index out of range" :=
  ⟨rfl, rfl, rfl, rfl⟩

/-- Claim C15 at a failing input: a stream whose two frames carry the fragments
`ab` and `cd` of one tool call.  The aggregator accumulates the tool call and puts
it into the field `Meta` of the message, but the response it returns is the text
of the envelope, in which a message has the members `role` and `content` only:
no response the aggregator can return carries a `tool_calls` member in the
message of its first choice, and this one carries none. -/
theorem tool_calls_not_serialized :
    (∀ r : ChatCompletionResponse,
      gjsonGet r.marshal ["choices", "0", "message", "tool_calls"] = none) ∧
    aggregateLines ⟨none, "", [], zeroUsage⟩ demoToolLines =
      .ok ⟨some ⟨"c1", "chat.completion", 1, "gpt", "",
          [⟨0, ⟨"", "", "", none⟩, "tool_calls"⟩], zeroUsage⟩,
        "", [⟨0, "call_1", "function", "lookup", "abcd"⟩], zeroUsage⟩ ∧
    aggregate zeroUsage demoToolLines =
      .returned ⟨some (.obj [("id", .str "c1"), ("object", .str "chat.completion"),
        ("created", .num 1), ("model", .str "gpt"),
        ("choices", .arr [.obj [("index", .num 0),
          ("message", .obj [("role", .str "assistant"), ("content", .str "")]),
          ("finish_reason", .str "tool_calls")]]),
        ("usage", zeroUsage.marshal)]), none, none, zeroUsage⟩ := by
  exact ⟨marshal_no_tool_calls, rfl, rfl⟩

/-- Claim C16 (empty stream).  On a stream in which no frame has the payload
`null` (the upstream client emits none), the aggregator fails with an error
exactly when the stream reaches `[DONE]` or its end before any `data: ` frame
whose payload is a JSON object; the error is "failed to parse streaming response"
and no response is returned with it. -/
theorem empty_stream_error (usage : Usage) (lines : List StreamLine)
    (hnull : ∀ l ∈ lines, l ≠ .data (some .null)) :
    ((∃ result, aggregate usage lines = .returned result ∧ result.err ≠ none) ↔
      objectFrameSeen lines = false) ∧
    (objectFrameSeen lines = false →
      aggregate usage lines =
        .returned ⟨none, some "failed to parse streaming response", none, usage⟩) := by
  have hiff := framesBeforeDone_nil_iff lines hnull
  have hback : objectFrameSeen lines = false →
      aggregate usage lines =
        .returned ⟨none, some "failed to parse streaming response", none, usage⟩ := by
    intro hseen
    have hnil := hiff.mpr hseen
    obtain ⟨st1, hagg⟩ := aggregateLines_total lines ⟨none, "", [], usage⟩
      (by rw [hnil]; simp) (by rw [hnil]; simp)
    have hst := (aggregateLines_sound lines _ st1 hagg).2.2.2.2 hnil
    subst hst
    simp only [aggregate, hagg, finishResponse]
  refine ⟨⟨?_, ?_⟩, hback⟩
  · rintro ⟨result, hres, herr⟩
    apply hiff.mp
    unfold aggregate at hres
    cases hagg : aggregateLines ⟨none, "", [], usage⟩ lines with
    | error e => simp [hagg] at hres
    | ok st1 =>
      simp only [hagg] at hres
      have hs := (aggregateLines_sound lines _ st1 hagg).2.2.2.1
      cases hfr : st1.fullResponse with
      | none => exact (hs.mp hfr).2
      | some fullResponse =>
        simp only [finishResponse, hfr, UseStreamResult.returned.injEq] at hres
        rw [← hres] at herr
        simp at herr
  · intro hseen
    exact ⟨_, hback hseen, by simp⟩

/-- Claim C16 on a stream that reaches `[DONE]` after an empty line, a payload
that is not JSON and an array: the aggregator fails with the error and returns no
response, although a frame with an object follows `[DONE]`. -/
theorem empty_stream_error_witness :
    objectFrameSeen demoEmptyLines = false ∧
      aggregate zeroUsage demoEmptyLines =
        .returned ⟨none, some "failed to parse streaming response", none, zeroUsage⟩ := by
  have hnull : ∀ l ∈ demoEmptyLines, l ≠ .data (some .null) := by
    intro l hl
    simp only [demoEmptyLines, List.mem_cons, List.mem_singleton, List.not_mem_nil,
      or_false] at hl
    rcases hl with rfl | rfl | rfl | rfl | rfl <;> simp [demoFrame]
  exact ⟨rfl, (empty_stream_error zeroUsage demoEmptyLines hnull).2 rfl⟩

/-- Claim C17 (key rotation).  For a model with a pool of `K ≥ 1` keys whose
counter is `c`, `getAPIKey` returns the key at the in-bounds position `c mod K`
and leaves the counter of the model at `c + 1` and every other counter as it was,
so `K` calls made one after the other return the pool rotated by `c mod K` (every
key once, in the cyclic order of the pool; the pool itself when `K` divides `c`)
and leave the counter at `c + K`.  For an empty pool it returns the empty string
and leaves the counters unchanged. -/
theorem key_rotation (counters : KeyCounters) (model : Model) :
    (0 < model.ProviderAPIKey.length →
      counters model.ID % model.ProviderAPIKey.length < model.ProviderAPIKey.length ∧
      model.ProviderAPIKey[counters model.ID % model.ProviderAPIKey.length]? =
        some (getAPIKey counters model).1 ∧
      (getAPIKey counters model).2 model.ID = counters model.ID + 1 ∧
      (∀ id, id ≠ model.ID → (getAPIKey counters model).2 id = counters id) ∧
      (getAPIKeys model model.ProviderAPIKey.length counters).1 =
        model.ProviderAPIKey.rotate (counters model.ID % model.ProviderAPIKey.length) ∧
      ((getAPIKeys model model.ProviderAPIKey.length counters).1).Perm model.ProviderAPIKey ∧
      (counters model.ID % model.ProviderAPIKey.length = 0 →
        (getAPIKeys model model.ProviderAPIKey.length counters).1 = model.ProviderAPIKey) ∧
      (getAPIKeys model model.ProviderAPIKey.length counters).2 model.ID =
        counters model.ID + model.ProviderAPIKey.length) ∧
    (model.ProviderAPIKey = [] → getAPIKey counters model = ("", counters)) := by
  constructor
  · intro hK
    have hlt : counters model.ID % model.ProviderAPIKey.length < model.ProviderAPIKey.length :=
      Nat.mod_lt _ hK
    obtain ⟨h1, h2⟩ := getAPIKeys_trace model hK model.ProviderAPIKey.length counters
    have hrot : (getAPIKeys model model.ProviderAPIKey.length counters).1 =
        model.ProviderAPIKey.rotate (counters model.ID % model.ProviderAPIKey.length) := by
      rw [h1, keys_of_full_round]
    refine ⟨hlt, ?_, ?_, ?_, hrot, ?_, ?_, ?_⟩
    · rw [getAPIKey_of_keys counters model hK, List.getElem?_eq_getElem hlt,
        List.getD_eq_getElem _ _ hlt]
    · simp [getAPIKey_of_keys counters model hK, KeyCounters.store]
    · intro id hid
      simp [getAPIKey_of_keys counters model hK, KeyCounters.store, hid]
    · rw [hrot]
      exact List.rotate_perm _ _
    · intro h0
      rw [hrot, h0, List.rotate_zero]
    · rw [h2 model.ID, if_pos rfl]
  · intro h
    simp [getAPIKey, h]

/-- Claim C17 at the first backend of `gpt`, whose pool is `ka1`, `ka2`, with its
counter at 1: the call returns `ka2`, and two calls return `ka2` then `ka1`. -/
theorem key_rotation_witness :
    0 < demoModelA.ProviderAPIKey.length ∧
      (getAPIKey (fun _ => 1) demoModelA).1 = "ka2" ∧
      (getAPIKeys demoModelA 2 (fun _ => 1)).1 = ["ka2", "ka1"] ∧
      (getAPIKeys demoModelA 2 (fun _ => 1)).2 demoModelA.ID = 3 := by
  have h := (key_rotation (fun _ => 1) demoModelA).1 (by decide)
  refine ⟨by decide, by decide, ?_, ?_⟩
  · exact h.2.2.2.2.1
  · exact h.2.2.2.2.2.2.2


/-- Claim C18 at a failing input: a streaming request for `gpt` while the first
backend answers with status 500 and the second one would answer with status 200.
The attempt on the first backend writes the error body to the caller and returns
no error, so the loop ends there: one attempt is made, the second candidate is
never tried, and the caller receives the error body as the whole response. -/
theorem stream_rejection_ends_dispatch :
    ∀ render : Render,
      handleStreamingChatCompletion render demoModelA
        (CreateChatCompletionStream.returns demoEnvelopeStream
          (.response 500 "500 Internal Server Error" demoErrorText.data) [] .eof) none =
        ⟨demoErrorText.data, none, false⟩ ∧
      (ChatCompletionHandler demoConfig .working (attemptThrough render demoRejectThenServe)
        noCursors demoEnvelopeStream []).order = [demoModelA, demoModelB] ∧
      (ChatCompletionHandler demoConfig .working (attemptThrough render demoRejectThenServe)
        noCursors demoEnvelopeStream []).attempts.map
          (fun a => (a.position, a.model, a.stream, a.err)) =
        [(0, demoModelA, true, none)] ∧
      (ChatCompletionHandler demoConfig .working (attemptThrough render demoRejectThenServe)
        noCursors demoEnvelopeStream []).actions = [.write demoErrorText.data] := by
  intro render
  exact ⟨rfl, rfl, rfl, rfl⟩

/-- Claim C19 at a failing input: a non-streaming request for `gpt` while the
first backend answers with status 500 and an error body and the second one with
status 200 and a completion.  Both candidates are attempted, and the bytes written
to the caller are the error body of the first candidate followed by the rewritten
body of the second one, not that body alone. -/
theorem failover_body_keeps_error_body :
    ∀ render : Render,
      handleNonStreamingChatCompletion render demoModelA 0
          (CreateChatCompletion demoModelA zeroUsage (demoRejectThenServe 0).http
            demoViaStream) =
        ⟨demoErrorText.data, some "unexpected status code: 500 Internal Server Error", false⟩ ∧
      handleNonStreamingChatCompletion render demoModelB 0
          (CreateChatCompletion demoModelB zeroUsage (demoRejectThenServe 1).http
            demoViaStream) =
        ⟨trimSpace (render demoCompletionServed), none, false⟩ ∧
      (ChatCompletionHandler demoConfig .working (attemptThrough render demoRejectThenServe)
        noCursors demoEnvelope []).attempts.map (fun a => (a.position, a.model, a.stream, a.err)) =
        [(0, demoModelA, false, some "unexpected status code: 500 Internal Server Error"),
         (1, demoModelB, false, none)] ∧
      (ChatCompletionHandler demoConfig .working (attemptThrough render demoRejectThenServe)
        noCursors demoEnvelope []).actions =
        [.write demoErrorText.data, .write (trimSpace (render demoCompletionServed))] ∧
      writtenBytes (ChatCompletionHandler demoConfig .working
        (attemptThrough render demoRejectThenServe) noCursors demoEnvelope []).actions =
        demoErrorText.data ++ trimSpace (render demoCompletionServed) ∧
      writtenBytes (ChatCompletionHandler demoConfig .working
        (attemptThrough render demoRejectThenServe) noCursors demoEnvelope []).actions ≠
        trimSpace (render demoCompletionServed) := by
  intro render
  have h : (ChatCompletionHandler demoConfig .working (attemptThrough render demoRejectThenServe)
        noCursors demoEnvelope []).actions =
        [.write demoErrorText.data, .write (trimSpace (render demoCompletionServed))] := rfl
  refine ⟨rfl, rfl, rfl, h, ?_, ?_⟩
  · rw [h]; simp [writtenBytes]
  · rw [h]
    intro hcon
    have := congrArg List.length hcon
    simp [writtenBytes, demoErrorText] at this
    omega


/-- Claim C20 at failing inputs: the requested name `gpt-4o-mini` without provider
filter and the requested name `gpt-4o` with the filter `mini` get the same
load-balance key, and so do the filters `a-b` and `a`, `b` for one name.  The two
requests share one cursor: served after the request for `gpt-4o-mini`, the first
request for `gpt-4o` with the filter `mini` starts at position 1 instead of 0 and
reaches the second backend of `gpt-4o` first. -/
theorem load_balance_keys_collide :
    ("gpt-4o-mini", ([] : List String)) ≠ ("gpt-4o", ["mini"]) ∧
    loadBalanceKey "gpt-4o-mini" [] = "gpt-4o-mini" ∧
    loadBalanceKey "gpt-4o" ["mini"] = "gpt-4o-mini" ∧
    loadBalanceKey "gpt" ["a-b"] = loadBalanceKey "gpt" ["a", "b"] ∧
    (serveAll demoConfigMini .working noCursors [demoRequestFiltered]).map
        (fun r => (r.startIndex, r.order.map (fun m => m.ID))) = [(some 0, [1, 2])] ∧
    (serveAll demoConfigMini .working noCursors [demoRequestMini, demoRequestFiltered]).map
        (fun r => (r.startIndex, r.order.map (fun m => m.ID))) =
      [(some 0, [3, 4]), (some 1, [2, 1])] := by
  refine ⟨by decide, by decide, by decide, by decide, by decide, by decide⟩


/-- Claim C21 at a failing input: over a fixed model table with two backends for
`gpt-4o` and three for `gpt-4o-mini`, two requests for `gpt-4o-mini` without
provider filter are followed by a request for `gpt-4o` with the filter `mini`.
All three use the load-balance key `gpt-4o-mini`; the third one reads the cursor
value 2 while its candidate list has length 2, so the value read is not below the
length of the list of that request (the rotation takes it modulo the length and
starts at position 0). -/
theorem cursor_read_out_of_range :
    loadBalanceKey "gpt-4o" ["mini"] = loadBalanceKey "gpt-4o-mini" [] ∧
    (serveAll demoConfigUneven .working noCursors
        [demoRequestMini, demoRequestMini, demoRequestFiltered]).map
        (fun r => (r.startIndex, r.order.length, r.order.map (fun m => m.ID))) =
      [(some 0, 3, [3, 4, 5]), (some 1, 3, [4, 5, 3]), (some 2, 2, [1, 2])] ∧
    ¬ (2 < ((serveAll demoConfigUneven .working noCursors
        [demoRequestMini, demoRequestMini, demoRequestFiltered]).map
        (fun r => r.order.length)).getD 2 0) := by
  refine ⟨by decide, by decide, by decide⟩

/-- Claim C22 at a failing input: a request for `gpt` with the hint `medium` whose
rotation starts at the thinking-capable backend, while every backend fails.  The
translation made for the first candidate stays in the envelope: the second
candidate, which does not support vendor thinking, is sent an envelope without
`reasoning_effort` and with the thinking budget 8192 and `include_thoughts`.  When
the same candidate is the first one attempted, its envelope carries the hint and
no thinking field. -/
theorem thinking_translation_leaks :
    gjsonGet demoEnvelopeMedium ["reasoning_effort"] = some (.str "medium") ∧
    (ChatCompletionHandler demoConfig .working alwaysFails demoCursorsAtOne
      demoEnvelopeMedium []).attempts.map
        (fun a => (a.position, a.model.ID, a.model.SupportGoogleThinking)) =
      [(0, 3, true), (1, 1, false)] ∧
    (ChatCompletionHandler demoConfig .working alwaysFails demoCursorsAtOne
      demoEnvelopeMedium []).attempts.map
        (fun a => (gjsonGet a.request ["reasoning_effort"],
          gjsonGet a.request thinkingBudgetPath, gjsonGet a.request includeThoughtsPath)) =
      [(none, some (.num 8192), some (.bool true)),
       (none, some (.num 8192), some (.bool true))] ∧
    (ChatCompletionHandler demoConfig .working alwaysFails noCursors
      demoEnvelopeMedium []).attempts.map
        (fun a => (a.model.ID, gjsonGet a.request ["reasoning_effort"],
          gjsonGet a.request thinkingBudgetPath, gjsonGet a.request includeThoughtsPath)) =
      [(1, some (.str "medium"), none, none),
       (3, none, some (.num 8192), some (.bool true))] := by
  refine ⟨rfl, by decide, rfl, rfl⟩


/-- Claim C23 (finish reason), amended.  When the frames merged before `[DONE]` or
the end of the stream are well-formed (which includes that every tool-call index
is a number from 0 to 2^63 - 1) and there is at least one, the response the
aggregator returns has one choice, and its `finish_reason` is the non-empty
`choices[0].finish_reason` of the last frame that carries one together with an
object `choices[0].delta`.  A finish reason in a frame without a delta is not
recorded; when no frame with a delta carries one the `finish_reason` is empty. -/
theorem finish_reason_with_delta (usage : Usage) (lines : List StreamLine)
    (first : List (String × JVal)) (others : List (List (String × JVal)))
    (hframes : framesBeforeDone lines = first :: others)
    (hfirst : wellFormedFirst first = true)
    (hwf : ∀ f ∈ first :: others, wellFormedFrame f = true) :
    ∃ (response : ChatCompletionResponse) (choice : ChatCompletionChoice) (usage1 : Usage),
      aggregate usage lines = .returned ⟨some response.marshal, none, none, usage1⟩ ∧
      response.Choices = [choice] ∧
      gjsonGet response.marshal ["choices", "0", "finish_reason"] =
        some (.str choice.FinishReason) ∧
      (∀ pre f post r, first :: others = pre ++ f :: post →
        hasDelta f = true → choiceFinishReason f = some r →
        (∀ g ∈ post, hasDelta g = true → choiceFinishReason g = none) →
        choice.FinishReason = r) ∧
      ((∀ f ∈ first :: others, hasDelta f = true → choiceFinishReason f = none) →
        choice.FinishReason = "") := by
  obtain ⟨fullResponse, st1, _, _, hres⟩ :=
    aggregate_of_frames usage lines first others hframes hfirst hwf
  have hfields := marshal_choice_fields _ _
    (rfl : ({ fullResponse with
        Choices := [⟨0, ⟨"assistant", st1.content, "",
          if st1.toolCalls.length > 0 then some st1.toolCalls else none⟩,
          (((first :: others).filterMap frameFinishReason).getLast?).getD ""⟩],
        Usage := st1.usage } : ChatCompletionResponse).Choices = _)
  refine ⟨_, _, _, hres, rfl, hfields.2.2.2.1, ?_, ?_⟩
  · intro pre f post r hsplit hd hr hpost
    have hf : frameFinishReason f = some r := by
      rw [frameFinishReason_eq, if_pos hd, hr]
    have hp : ∀ g ∈ post, frameFinishReason g = none := by
      intro g hg
      rw [frameFinishReason_eq]
      by_cases hgd : hasDelta g = true
      · rw [if_pos hgd]; exact hpost g hg hgd
      · rw [if_neg hgd]
    show (((first :: others).filterMap frameFinishReason).getLast?).getD "" = r
    rw [hsplit, getLast?_filterMap_last frameFinishReason pre post f r hf hp]
    rfl
  · intro hnone
    have hnil : (first :: others).filterMap frameFinishReason = [] := by
      apply List.filterMap_eq_nil_iff.mpr
      intro g hg
      rw [frameFinishReason_eq]
      by_cases hgd : hasDelta g = true
      · rw [if_pos hgd]; exact hnone g hg hgd
      · rw [if_neg hgd]
    show (((first :: others).filterMap frameFinishReason).getLast?).getD "" = ""
    rw [hnil]
    rfl

/-- Claim C23 on the stream with the content deltas `Hel` and `lo` and a last
frame with an empty delta and the finish reason `stop`: the finish reason of the
response is `stop`. -/
theorem finish_reason_with_delta_witness :
    ∃ (response : ChatCompletionResponse) (choice : ChatCompletionChoice) (usage1 : Usage),
      aggregate zeroUsage demoHelloLines = .returned ⟨some response.marshal, none, none, usage1⟩ ∧
      response.Choices = [choice] ∧
      gjsonGet response.marshal ["choices", "0", "finish_reason"] =
        some (.str choice.FinishReason) ∧
      choice.FinishReason = "stop" := by
  obtain ⟨response, choice, usage1, h1, h2, h3, h4, _⟩ :=
    finish_reason_with_delta zeroUsage demoHelloLines
      [("id", .str "c1"), ("created", .num 1), ("model", .str "gpt"),
        ("choices", .arr [.obj [("index", .num 0),
          ("delta", .obj [("role", .str "assistant"), ("content", .str "Hel")])]])]
      [[("id", .str "c1"), ("created", .num 1), ("model", .str "gpt"),
        ("choices", .arr [.obj [("index", .num 0), ("delta", .obj [("content", .str "lo")])]])],
       [("id", .str "c1"), ("created", .num 1), ("model", .str "gpt"),
        ("choices", .arr [.obj [("index", .num 0), ("delta", .obj []),
          ("finish_reason", .str "stop")]])]]
      rfl (by decide) (by decide)
  refine ⟨response, choice, usage1, h1, h2, h3, ?_⟩
  exact h4 [[("id", .str "c1"), ("created", .num 1), ("model", .str "gpt"),
        ("choices", .arr [.obj [("index", .num 0),
          ("delta", .obj [("role", .str "assistant"), ("content", .str "Hel")])]])],
      [("id", .str "c1"), ("created", .num 1), ("model", .str "gpt"),
        ("choices", .arr [.obj [("index", .num 0), ("delta", .obj [("content", .str "lo")])]])]]
    [("id", .str "c1"), ("created", .num 1), ("model", .str "gpt"),
        ("choices", .arr [.obj [("index", .num 0), ("delta", .obj []),
          ("finish_reason", .str "stop")]])]
    [] "stop" rfl (by decide) (by decide) (by simp)

/-- Claim C23 as first stated fails on a stream whose last frame carries the
finish reason `stop` in a choice without delta: the frame is well-formed and its
`choices[0].finish_reason` is `stop`, but the response the aggregator returns has
an empty `finish_reason`. -/
theorem finish_reason_with_delta_counterexample :
    framesBeforeDone demoNoDeltaLines =
      [[("id", .str "c1"), ("created", .num 1), ("model", .str "gpt"),
        ("choices", .arr [.obj [("index", .num 0), ("delta", .obj [("content", .str "Hi")])]])],
       [("id", .str "c1"), ("created", .num 1), ("model", .str "gpt"),
        ("choices", .arr [.obj [("index", .num 0), ("finish_reason", .str "stop")]])]] ∧
    choiceFinishReason [("id", .str "c1"), ("created", .num 1), ("model", .str "gpt"),
        ("choices", .arr [.obj [("index", .num 0), ("finish_reason", .str "stop")]])] =
      some "stop" ∧
    aggregate zeroUsage demoNoDeltaLines =
      .returned ⟨some (.obj [("id", .str "c1"), ("object", .str "chat.completion"),
        ("created", .num 1), ("model", .str "gpt"),
        ("choices", .arr [.obj [("index", .num 0),
          ("message", .obj [("role", .str "assistant"), ("content", .str "Hi")]),
          ("finish_reason", .str "")]]),
        ("usage", zeroUsage.marshal)]), none, none, zeroUsage⟩ := by
  exact ⟨rfl, by decide, rfl⟩


/-- Claim C24 (dispatch order is a cyclic rotation).  For every candidate list `L`
of length `n` and every cursor value `s`, the reordered list `R` has length `n`
and `R[i] = L[(s + i) mod n]` for all `i < n`, and `R` is a permutation of `L`.
So when every candidate fails, that is when for every position of `R` the loop
has made an attempt that returned an error, the attempts are the candidates of
`R`, each one once and in the order of `R`; this is the case whenever a provider
instance is at hand, every attempt returns an error and the run does not end with
the answer 500 for a failed envelope translation. -/
theorem dispatch_order_is_rotation (L : List Model) (s : Nat) :
    (reorderModels L s).length = L.length ∧
    (∀ i, i < L.length → (reorderModels L s)[i]? = L[(s + i) % L.length]?) ∧
    (reorderModels L s).Perm L ∧
    (∀ (factory : FactoryLookup) (attempt : Attempt) (rawJson : JVal),
      (∀ i, i < L.length →
        ∃ a ∈ (dispatchLoop factory attempt (reorderModels L s) 0 rawJson none ⟨[], []⟩).attempts,
          a.position = i ∧ a.err ≠ none) →
      (dispatchLoop factory attempt (reorderModels L s) 0 rawJson none ⟨[], []⟩).attempts.map
          (fun a => (a.position, a.model)) = (reorderModels L s).enum ∧
      ((dispatchLoop factory attempt (reorderModels L s) 0 rawJson none ⟨[], []⟩).attempts.map
          (fun a => a.model)).Perm L) ∧
    (∀ (attempt : Attempt) (rawJson : JVal),
      (∀ i isStream model request, (attempt i isStream model request).err ≠ none) →
      (dispatchLoop .working attempt (reorderModels L s) 0 rawJson none ⟨[], []⟩).actions.getLast? ≠
        some (.json 500 (errorBody "request body error" 500)) →
      (dispatchLoop .working attempt (reorderModels L s) 0 rawJson none ⟨[], []⟩).attempts.map
          (fun a => a.model) = reorderModels L s) := by
  have hlen : (reorderModels L s).length = L.length := by
    rw [reorderModels_eq_rotate, List.length_rotate]
  have hperm : (reorderModels L s).Perm L := by
    rw [reorderModels_eq_rotate]; exact List.rotate_perm _ _
  refine ⟨hlen, fun i hi => reorderModels_getElem? L s i hi, hperm, ?_, ?_⟩
  · intro factory attempt rawJson h
    have hall := dispatchLoop_all_positions factory attempt (reorderModels L s) rawJson
      (by
        intro i hi
        rw [hlen] at hi
        obtain ⟨a, ha, hp, _⟩ := h i hi
        exact ⟨a, ha, hp⟩)
    refine ⟨hall.1, ?_⟩
    rw [hall.2]
    exact hperm
  · intro attempt rawJson hfail hno500
    have htr := dispatchLoop_trace .working attempt (reorderModels L s) 0 rawJson none
    have hfull : (dispatchLoop .working attempt (reorderModels L s) 0 rawJson none
        ⟨[], []⟩).attempts.length = (reorderModels L s).length := by
      rcases dispatchLoop_progress .working attempt (reorderModels L s) 0 rawJson none with
        h | h | h | h
      · exact h
      · obtain ⟨a, ha, hae⟩ := h
        have hmem := List.mem_of_getLast?_eq_some ha
        have := htr.2.2 a hmem
        rw [hae] at this
        exact absurd this.symm (hfail _ _ _ _)
      · exact absurd h hno500
      · exact absurd rfl h
    have h1 := htr.1
    rw [hfull] at h1
    have h2 : (dispatchLoop .working attempt (reorderModels L s) 0 rawJson none
        ⟨[], []⟩).attempts.map (fun a => (a.position, a.model)) = (reorderModels L s).enum := by
      rw [h1, List.enum]
      exact List.take_of_length_le (by simp)
    have := congrArg (List.map Prod.snd) h2
    simpa [List.map_map, Function.comp, List.enum_map_snd] using this

/-- Claim C24 on the two backends of `gpt` with the cursor at 1, while every
backend fails: the order is the second backend, then the first, and each of them
is attempted once, in that order. -/
theorem dispatch_order_is_rotation_witness :
    reorderModels [demoModelA, demoModelB] 1 = [demoModelB, demoModelA] ∧
    (dispatchLoop .working alwaysFails (reorderModels [demoModelA, demoModelB] 1) 0
      demoEnvelope none ⟨[], []⟩).attempts.map (fun a => a.model) = [demoModelB, demoModelA] := by
  have h := (dispatch_order_is_rotation [demoModelA, demoModelB] 1).2.2.2.2
    alwaysFails demoEnvelope (by intro i b m r; simp [alwaysFails]) (by
      have : (dispatchLoop .working alwaysFails (reorderModels [demoModelA, demoModelB] 1) 0
          demoEnvelope none ⟨[], []⟩).actions.getLast? =
          some (.json 503 (nestedErrorBody ("All providers failed: " ++ "upstream down: gpt-a") 503)) :=
        rfl
      rw [this]
      simp [nestedErrorBody, errorBody])
  exact ⟨by decide, h⟩


/-- Claim C25 (shape of the tool-call accumulator), amended.  When every fragment
is an object whose `index` is a number from 0 to 2^63 - 1 (the values that
`int(...)` keeps), merging the fragments into the empty accumulator does not
panic.  The accumulator has the length (highest index seen) + 1, and 0
for no fragment; entry `k` has the index `k`; the id, type and function name of an
entry are the last non-empty value its fragments carried, and empty when they
carried none (an empty value never replaces a non-empty one); its arguments are
the arguments of its fragments in order; an entry for which no fragment arrived is
the empty placeholder. -/
theorem tool_call_accumulator_shape (fragments : List JVal)
    (hwf : ∀ tc ∈ fragments, (fragmentIndex tc).isSome = true) :
    ∃ toolCalls, mergeToolCalls [] fragments = .ok toolCalls ∧
      toolCalls.length = neededLength fragments ∧
      (∀ tc ∈ fragments, ∀ n, fragmentIndex tc = some n → n < toolCalls.length) ∧
      (fragments ≠ [] →
        ∃ tc ∈ fragments, ∃ n, fragmentIndex tc = some n ∧ toolCalls.length = n + 1) ∧
      (∀ (k : Nat) (entry : ToolCall), toolCalls[k]? = some entry →
        entry.index = k ∧
        entry.id = (((fragments.filter (fun tc => decide (fragmentIndex tc = some k))).filterMap
          fragmentId).getLast?).getD "" ∧
        entry.type = (((fragments.filter (fun tc => decide (fragmentIndex tc = some k))).filterMap
          fragmentType).getLast?).getD "" ∧
        entry.name = (((fragments.filter (fun tc => decide (fragmentIndex tc = some k))).filterMap
          fragmentName).getLast?).getD "" ∧
        entry.arguments =
          concatStrings ((fragments.filter (fun tc => decide (fragmentIndex tc = some k))).map
            fragmentArguments) ∧
        ((∀ tc ∈ fragments, fragmentIndex tc ≠ some k) → entry = placeholderToolCall k)) := by
  obtain ⟨toolCalls, hm, _, hlt, hargs⟩ := mergeToolCalls_ok fragments [] hwf
  have hlen := mergeToolCalls_length fragments [] toolCalls hwf hm
  have hlen0 : toolCalls.length = neededLength fragments := by
    rw [hlen]; simp
  have hidx := mergeToolCalls_index fragments [] toolCalls (by simp) hm
  have hid := mergeToolCalls_field (fun e => e.id) fragmentId (fun _ => rfl)
    updateToolCall_id fragments [] toolCalls hwf hm
  have htype := mergeToolCalls_field (fun e => e.type) fragmentType (fun _ => rfl)
    updateToolCall_type fragments [] toolCalls hwf hm
  have hname := mergeToolCalls_field (fun e => e.name) fragmentName (fun _ => rfl)
    updateToolCall_name fragments [] toolCalls hwf hm
  refine ⟨toolCalls, hm, hlen0, hlt, ?_, ?_⟩
  · intro hne
    obtain ⟨tc, htc, n, hn, hnl⟩ := neededLength_attained fragments hwf hne
    exact ⟨tc, htc, n, hn, by rw [hlen0, hnl]⟩
  · intro k entry hk
    have e1 := hid k
    have e2 := htype k
    have e3 := hname k
    have e4 := hargs k
    simp only [fieldAt, argumentsAt, hk, List.getElem?_nil, String.empty_append] at e1 e2 e3 e4
    have e0 := hidx k entry hk
    refine ⟨e0, e1, e2, e3, e4, ?_⟩
    intro hnone
    have hfil : fragments.filter (fun tc => decide (fragmentIndex tc = some k)) = [] := by
      apply List.filter_eq_nil_iff.mpr
      intro tc htc
      simpa using hnone tc htc
    rw [hfil] at e1 e2 e3 e4
    cases entry
    simp only [placeholderToolCall, ToolCall.mk.injEq]
    exact ⟨e0, e1, e2, e3, e4⟩

/-- Claim C25 on four fragments: `ab` and `cd` for entry 0, an empty id and name
for entry 0, and the id `call_3` for entry 2.  The accumulator has three entries;
entry 0 keeps its id and name, entry 1 is the empty placeholder. -/
theorem tool_call_accumulator_shape_witness :
    ∃ toolCalls,
      mergeToolCalls [] [demoFragmentAb, demoFragmentCd, demoFragmentEmpty, demoFragmentThird] =
        .ok toolCalls ∧
      toolCalls.length = 3 ∧
      toolCalls = [⟨0, "call_1", "function", "lookup", "abcd"⟩, ⟨1, "", "", "", ""⟩,
        ⟨2, "call_3", "", "", ""⟩] ∧
      ∀ (k : Nat) (entry : ToolCall), toolCalls[k]? = some entry → entry.index = k := by
  obtain ⟨toolCalls, h1, h2, _, _, h5⟩ :=
    tool_call_accumulator_shape
      [demoFragmentAb, demoFragmentCd, demoFragmentEmpty, demoFragmentThird] (by decide)
  have hval : mergeToolCalls [] [demoFragmentAb, demoFragmentCd, demoFragmentEmpty,
      demoFragmentThird] =
      .ok [⟨0, "call_1", "function", "lookup", "abcd"⟩, ⟨1, "", "", "", ""⟩,
        ⟨2, "call_3", "", "", ""⟩] := by rfl
  rw [hval] at h1
  cases h1
  exact ⟨_, hval, rfl, rfl, fun k entry hk => (h5 k entry hk).1⟩


/-- Claim C25 as first stated fails for the index 10^19: the index of the fragment
is not negative, but it is outside the range of `int`, and the merge panics
instead of leaving an accumulator of length 10^19 + 1. -/
theorem tool_call_accumulator_shape_counterexample :
    asNumber (mapIndex [("index", JVal.num 10000000000000000000),
      ("id", JVal.str "call_1")] "index") = some 10000000000000000000 ∧
    (0 : Int) ≤ 10000000000000000000 ∧
    fragmentIndex demoFragmentHuge = none ∧
    mergeToolCalls [] [demoFragmentHuge] = .error "index out of range" ∧
    mergeToolCalls [] [demoFragmentAb, demoFragmentHuge] = .error "index out of range" :=
  ⟨rfl, by decide, rfl, rfl, rfl⟩

/-- Claim C26 (protocol check of the relay).  A chunk that, with surrounding white
space trimmed, begins with neither `:` nor `data: ` makes the relay of any
candidate stop at once: nothing is written for it or after it, and the error
returned is `unexpected response: ` followed by the trimmed bytes.  A candidate
without thinking support writes the bytes of an accepted chunk as they are.  What
its client receives is, in arrival order, the bytes of the events before the first
rejected chunk (the processing comment for a timeout); for events that are all
chunks this is the concatenation of the chunks accepted before the first rejected
one, and when every chunk is accepted it is the concatenation of all of them, with
the error of the read that ended the stream. -/
theorem relay_protocol_check (render : Render) (model : Model)
    (hm : model.SupportGoogleThinking = false) :
    (∀ (candidate : Model) (s : Bool) (chunk : Chunk) (rest : List RelayEvent)
        (ending : RelayEnd), chunkAccepted chunk = false →
        relayLoop render candidate s (.data chunk :: rest) ending =
          ⟨[], some ("unexpected response: " ++ String.mk (trimSpace chunk.bytes)), false⟩) ∧
    (∀ (s : Bool) (chunk : Chunk) (rest : List RelayEvent) (ending : RelayEnd),
        chunkAccepted chunk = true →
        relayLoop render model s (.data chunk :: rest) ending =
          (relayLoop render model s rest ending).after chunk.bytes) ∧
    (∀ (events : List RelayEvent) (ending : RelayEnd) (writeErr : Option String),
        (handleStreamingChatCompletion render model (.opened events ending) writeErr).written =
          ((events.takeWhile eventAccepted).map eventBytes).flatten) ∧
    (∀ (chunks : List Chunk) (ending : RelayEnd) (writeErr : Option String),
        (handleStreamingChatCompletion render model
          (.opened (chunks.map RelayEvent.data) ending) writeErr).written =
          ((chunks.takeWhile chunkAccepted).map Chunk.bytes).flatten) ∧
    (∀ (chunks : List Chunk) (ending : RelayEnd) (writeErr : Option String),
        (∀ chunk ∈ chunks, chunkAccepted chunk = true) →
        handleStreamingChatCompletion render model
          (.opened (chunks.map RelayEvent.data) ending) writeErr =
          ⟨(chunks.map Chunk.bytes).flatten, ending.err, false⟩) := by
  have hmap : ∀ chunks : List Chunk,
      ((chunks.map RelayEvent.data).takeWhile eventAccepted).map eventBytes =
        (chunks.takeWhile chunkAccepted).map Chunk.bytes := by
    intro chunks
    induction chunks with
    | nil => rfl
    | cons c cs ih =>
      simp only [List.map_cons, List.takeWhile_cons, eventAccepted]
      by_cases hc : chunkAccepted c = true
      · simp only [hc, if_true, List.map_cons, eventBytes, ih]
      · simp [hc]
  refine ⟨?_, ?_, ?_, ?_, ?_⟩
  · intro candidate s chunk rest ending h
    exact relayLoop_rejected render candidate s chunk rest ending h
  · intro s chunk rest ending h
    exact relayLoop_plain render model s chunk rest ending hm h
  · intro events ending writeErr
    exact (relayLoop_plain_output render model hm events false ending).1
  · intro chunks ending writeErr
    have h := (relayLoop_plain_output render model hm (chunks.map RelayEvent.data) false
      ending).1
    rw [hmap] at h
    exact h
  · intro chunks ending writeErr hall
    obtain ⟨h1, h2, h3⟩ :=
      relayLoop_plain_output render model hm (chunks.map RelayEvent.data) false ending
    have htake : chunks.takeWhile chunkAccepted = chunks := by
      rw [List.takeWhile_eq_self_iff]
      exact hall
    have hdrop : (chunks.map RelayEvent.data).dropWhile eventAccepted = [] := by
      rw [List.dropWhile_eq_nil_iff]
      intro ev hev
      obtain ⟨c, hc, rfl⟩ := List.mem_map.mp hev
      exact hall c hc
    rw [hmap, htake] at h1
    rw [hdrop] at h3
    show relayLoop render model false (chunks.map RelayEvent.data) ending = _
    cases hr : relayLoop render model false (chunks.map RelayEvent.data) ending with
    | mk written err panicked =>
      rw [hr] at h1 h2 h3
      simp only at h1 h2 h3
      rw [h1, h2, h3]

/-- Claim C26 on a stream of the first backend of `gpt`: a page of HTML among the
chunks stops the relay with the error that quotes it, and the client has received
the one frame that came before it. -/
theorem relay_protocol_check_witness :
    relayLoop (fun _ => []) demoModelA false [.data demoHtmlChunk, .data demoShortChunk] .eof =
      ⟨[], some "unexpected response: <html>busy</html>", false⟩ ∧
    (handleStreamingChatCompletion (fun _ => []) demoModelA
      (.opened ([demoShortChunk, demoHtmlChunk, demoShortChunk].map RelayEvent.data) .eof)
      none).written = dataFrame demoShortPayload := by
  have h := relay_protocol_check (fun _ => []) demoModelA rfl
  refine ⟨?_, ?_⟩
  · rw [h.1 demoModelA false demoHtmlChunk [.data demoShortChunk] .eof (by decide)]
    rw [show ("unexpected response: " ++ String.mk (trimSpace demoHtmlChunk.bytes) : String) =
      "unexpected response: <html>busy</html>" by decide]
  · rw [h.2.2.2.1]
    decide

/-- Claim C27 (behaviour at the failing input).  The upstream body is one frame
whose payload is a content delta of 4200 letters.  The goroutine of the upstream
client writes the frame of 4270 bytes to the pipe in one write, and the relay
receives it in two reads, of 4096 and of 174 bytes.  The second read starts inside
the text of the delta, so the relay of the first backend of `gpt` fails with the
error `unexpected response: ` followed by the rest of the frame, and the client has
received only the first 4096 bytes of the frame; a frame that fits into one read is
delivered whole. -/
theorem long_frame_protocol_error (render : Render) (view : View) :
    streamWrites demoKeepBytes demoModelA .eof (dataFrame (demoLongPayload 4200)) [] =
      [dataFrame (demoLongPayload 4200)] ∧
    (dataFrame (demoLongPayload 4200)).length = 4270 ∧
    pipeReads [dataFrame (demoLongPayload 4200)] =
      ["data: ".data ++ demoLongHead ++ List.replicate 4033 'a',
        List.replicate 167 'a' ++ demoLongTail ++ "\n\n".data] ∧
    handleStreamingChatCompletion render demoModelA
        (.opened (readEvents view (pipeReads [dataFrame (demoLongPayload 4200)])) .eof) none =
      ⟨"data: ".data ++ demoLongHead ++ List.replicate 4033 'a',
        some ("unexpected response: " ++ String.mk (List.replicate 167 'a' ++ demoLongTail)),
        false⟩ ∧
    handleStreamingChatCompletion render demoModelA
        (.opened (readEvents view (pipeReads [dataFrame demoShortPayload])) .eof) none =
      ⟨dataFrame demoShortPayload, none, false⟩ := by
  have hreads : pipeReads [dataFrame (demoLongPayload 4200)] =
      ["data: ".data ++ demoLongHead ++ List.replicate 4033 'a',
        List.replicate 167 'a' ++ demoLongTail ++ "\n\n".data] :=
    pipeReads_long 4033 166 (by decide) (by decide)
  refine ⟨streamWrites_long 4200 demoModelA, dataFrame_long_length 4200, hreads, ?_, ?_⟩
  · rw [hreads]
    exact relay_long_frame render view demoModelA rfl 4033 166
  · have hshort : pipeReads [dataFrame demoShortPayload] = [dataFrame demoShortPayload] :=
      pipeReads_short _ (by decide)
    rw [hshort]
    exact relay_short_frame render view demoModelA rfl


/-- Claim C28 (thinking state machine).  For a thinking-capable candidate the relay
starts with the flag false.  After a chunk of at least five bytes that passes the
protocol check the relay goes on with the flag and the bytes of `relayFrame`.  The
flag after a frame is true when the frame is marked as a thought; otherwise it is
false when the flag was true and the content of the frame begins with
`</thought>`, and unchanged in every other case, so that it becomes true only on a
frame marked as a thought and false only on an unmarked frame whose content begins
with `</thought>`.  A frame that triggers neither rewrite is written as `data: `,
the bytes after the fifth with surrounding white space trimmed, and a blank line,
and the flag stays as it is; for a frame `data: ` + payload + blank line whose
payload has no surrounding white space these bytes are the payload. -/
theorem thinking_state_machine (render : Render) (model : Model)
    (hm : model.SupportGoogleThinking = true) :
    (∀ (events : List RelayEvent) (ending : RelayEnd) (writeErr : Option String),
        handleStreamingChatCompletion render model (.opened events ending) writeErr =
          relayLoop render model false events ending) ∧
    (∀ (s : Bool) (chunk : Chunk) (rest : List RelayEvent) (ending : RelayEnd),
        chunkAccepted chunk = true → 5 ≤ chunk.bytes.length →
        relayLoop render model s (.data chunk :: rest) ending =
          (relayLoop render model (relayFrame render s chunk).2 rest ending).after
            (relayFrame render s chunk).1) ∧
    (∀ (s : Bool) (rest : List RelayEvent) (ending : RelayEnd),
        relayLoop render model s (.timeout :: rest) ending =
          (relayLoop render model s rest ending).after processingTag) ∧
    (∀ (s : Bool) (chunk : Chunk),
        (relayFrame render s chunk).2 =
          if markedThought chunk.payload then true
          else if s && closesThought chunk.payload then false else s) ∧
    (∀ (s : Bool) (chunk : Chunk),
        ((relayFrame render s chunk).2 = true → s = false →
          markedThought chunk.payload = true) ∧
        ((relayFrame render s chunk).2 = false → s = true →
          markedThought chunk.payload = false ∧ closesThought chunk.payload = true)) ∧
    (∀ (s : Bool) (chunk : Chunk), markedThought chunk.payload = false →
        (s = false ∨ closesThought chunk.payload = false) →
        relayFrame render s chunk =
          ("data: ".data ++ trimSpace (chunk.bytes.drop 5) ++ "\n\n".data, s)) ∧
    (∀ payload : List Char, trimSpace payload = payload →
        trimSpace ((dataFrame payload).drop 5) = payload) := by
  have hflag : ∀ (s : Bool) (chunk : Chunk),
      (relayFrame render s chunk).2 =
        if markedThought chunk.payload then true
        else if s && closesThought chunk.payload then false else s := by
    intro s chunk
    exact relayThinking_flag s chunk.payload
  refine ⟨?_, ?_, ?_, hflag, ?_, ?_, ?_⟩
  · intro events ending writeErr
    rfl
  · intro s chunk rest ending ha h5
    exact relayLoop_thinking render model s chunk rest ending hm ha h5
  · intro s rest ending
    exact relayLoop_timeout render model s rest ending
  · intro s chunk
    have h := hflag s chunk
    refine ⟨?_, ?_⟩
    · intro h1 hs
      subst hs
      rw [h1] at h
      cases hmk : markedThought chunk.payload
      · rw [hmk] at h
        simp at h
      · rfl
    · intro h1 hs
      subst hs
      rw [h1] at h
      cases hmk : markedThought chunk.payload
      · rw [hmk] at h
        cases hcl : closesThought chunk.payload
        · rw [hcl] at h
          simp at h
        · exact ⟨rfl, rfl⟩
      · rw [hmk] at h
        simp at h
  · intro s chunk hthought hclose
    have h := relayThinking_idle s chunk.payload hthought hclose
    simp only [relayFrame, h]
  · intro payload hp
    rw [trimSpace_drop_dataFrame, hp]

/-- Claim C28 on the thinking-capable backend of `gpt`: while the flag is true, a
frame that is no thought and does not close the block is written as it came, and
the flag stays true. -/
theorem thinking_state_machine_witness :
    relayFrame (fun _ => []) true demoShortChunk = (dataFrame demoShortPayload, true) ∧
    relayLoop (fun _ => []) demoModelB true [.data demoShortChunk] .eof =
      ⟨dataFrame demoShortPayload, none, false⟩ := by
  have h := thinking_state_machine (fun _ => []) demoModelB rfl
  have hframe : relayFrame (fun _ => []) true demoShortChunk =
      (dataFrame demoShortPayload, true) := by
    rw [h.2.2.2.2.2.1 true demoShortChunk rfl (Or.inr rfl)]
    have hp := h.2.2.2.2.2.2 demoShortPayload (by decide)
    show ("data: ".data ++ trimSpace ((dataFrame demoShortPayload).drop 5) ++ "\n\n".data,
      true) = _
    rw [hp]
    rfl
  refine ⟨hframe, ?_⟩
  rw [h.2.1 true demoShortChunk [] .eof (by decide) (by decide), hframe]
  simp [relayLoop, HandleResult.after]


/-- Claim C29 (behaviour at the failing inputs).  The aggregator panics on a failed
type assertion for each of the four kinds of frame the claim names: a first frame
without `id` or without `created`, a first frame whose `system_fingerprint` is
`null`, a frame whose first choice is not an object, and a tool-call fragment
without a numeric `index`; the same streams with well-formed frames are aggregated
to a response. -/
theorem aggregator_panics_on_type_assertion :
    aggregate zeroUsage demoNoIdLines =
      .panicked "interface conversion: id is not a string" ∧
    aggregate zeroUsage demoNoCreatedLines =
      .panicked "interface conversion: created is not a float64" ∧
    aggregate zeroUsage demoNullFingerprintLines =
      .panicked "interface conversion: system_fingerprint is not a string" ∧
    aggregate zeroUsage demoChoiceNotObjectLines =
      .panicked "interface conversion: choice is not a map" ∧
    aggregate zeroUsage demoNoIndexLines =
      .panicked "interface conversion: index is not a float64" ∧
    (∃ result, aggregate zeroUsage demoHelloLines = .returned result) :=
  ⟨rfl, rfl, rfl, rfl, rfl, ⟨_, rfl⟩⟩

/-- Claim C30 (behaviour at the failing input).  For a completion marked as a
thought whose content is `</thought>x<thought>`, the opening tag is found at
position 11 and the closing tag at position 0, the slice from 20 to 0 is out of
range, and the handler of the thinking-capable backend of `gpt` panics after the
status line, without writing a body.  With the two tags in order the rewrite sets
`reasoning_content` to the text between them, `content` to the text around them,
and removes `extra_content`. -/
theorem thinking_rewrite_slice_out_of_range (render : Render) :
    stringsIndex "<thought>".data "</thought>x<thought>".data = some 11 ∧
    stringsIndex "</thought>".data "</thought>x<thought>".data = some 0 ∧
    gjsonGet demoTagsReversed (messagePath ++ ["extra_content", "google", "thought"]) =
      some (.bool true) ∧
    rewriteThinkingMessage demoTagsReversed = none ∧
    handleNonStreamingChatCompletion render demoModelB 0
        ⟨some demoTagsReversed, none, none, zeroUsage⟩ = ⟨[], none, true⟩ ∧
    (∃ edited, rewriteThinkingMessage demoTagsInOrder = some (some edited) ∧
      gjsonGet edited (messagePath ++ ["reasoning_content"]) = some (.str "b") ∧
      gjsonGet edited (messagePath ++ ["content"]) = some (.str "ac") ∧
      gjsonGet edited (messagePath ++ ["extra_content"]) = none) := by
  have h : rewriteThinkingMessage demoTagsReversed = none := by rfl
  refine ⟨by decide, by decide, rfl, h, ?_, ?_⟩
  · simp only [handleNonStreamingChatCompletion, h]
    rfl
  · exact ⟨_, rfl, rfl, rfl, rfl⟩

end MiniRouter
